import Mathlib

/-!
Shallow embedding of the dnssector DNS wire-format toolkit (Rust) in Lean 4,
together with theorems settling the frozen claims C1..C10 about its
specification.

Modelling conventions:
* a packet is a `List Nat` of bytes; theorems that depend on byte-ness carry
  an explicit `∀ b ∈ packet, b < 256` hypothesis;
* `u8`/`u16` reads follow the Rust code (`byteorder::BigEndian`);
* Rust `Result<T>` becomes `Except DSError T`; Rust panics (assert!, unwrap,
  expect, out-of-bounds indexing) in functions that assume trusted input
  become `Option`-`none`;
* loops whose termination is not structural are given explicit fuel that
  dominates the worst-case iteration count of the Rust loop (the check loop
  follows at most 16 indirections, each run of labels strictly advancing
  below a barrier bounded by the packet length, so `17 * (len + 1) + 1`
  iterations always suffice);
* bit operations (`&`, `|`, `<<`, `>>`) are kept as `Nat` bit operations
  `&&&`, `|||`, `<<<`, `>>>` exactly as in the source; two-complement
  `!mask` constants on `u16` are written as their literal values
  (`!0x7800 = 0x87ff`, `!0x000f = 0xfff0` on 16 bits).
-/

/-- Error kinds of `errors.rs` (`DSError`). String payloads carry the exact
static messages of the Rust source. -/
inductive DSError where
  | packetTooSmall
  | packetTooLarge
  | unsupportedClass (c : Nat)
  | internalError (msg : String)
  | invalidName (msg : String)
  | invalidPacket (msg : String)
  | unsupportedRRType (t : String)
  | unsupportedRRClass (c : String)
  | voidRecord
  | propertyNotFound
  | wrongAddressFamily
  | parseError
deriving Repr, DecidableEq

/-- Section tag (`constants.rs`, `Section`). -/
inductive Section where
  | question
  | answer
  | nameServers
  | additional
  | edns
deriving Repr, DecidableEq

/-- Size of the main DNS header (`DNS_HEADER_SIZE`). -/
def DNS_HEADER_SIZE : Nat := 12

/-- Offset of the question section (`DNS_QUESTION_OFFSET`). -/
def DNS_QUESTION_OFFSET : Nat := DNS_HEADER_SIZE

/-- Maximum length of a hostname (`DNS_MAX_HOSTNAME_LEN`). -/
def DNS_MAX_HOSTNAME_LEN : Nat := 255

/-- Maximum number of indirections in a compressed name
(`DNS_MAX_HOSTNAME_INDIRECTIONS`). -/
def DNS_MAX_HOSTNAME_INDIRECTIONS : Nat := 16

/-- Size of a question RR header after the name (`DNS_RR_QUESTION_HEADER_SIZE`). -/
def DNS_RR_QUESTION_HEADER_SIZE : Nat := 4

/-- Size of a non-question RR header after the name (`DNS_RR_HEADER_SIZE`). -/
def DNS_RR_HEADER_SIZE : Nat := 10

/-- Offset of the rdata length within an RR header (`DNS_RR_RDLEN_OFFSET`). -/
def DNS_RR_RDLEN_OFFSET : Nat := 8

/-- Maximum size of an uncompressed packet (`DNS_MAX_UNCOMPRESSED_SIZE`). -/
def DNS_MAX_UNCOMPRESSED_SIZE : Nat := 8192

/-- Reads one byte of the packet. Bounds-checked call sites in the Rust code
establish `i < packet.length` before reading; call sites that can actually go
out of bounds (trusted-input helpers) check the bound explicitly and map the
Rust panic to `Option.none`. -/
def readU8 (packet : List Nat) (i : Nat) : Nat :=
  packet.getD i 0

/-- Big-endian 16-bit read (`BigEndian::read_u16`). -/
def readU16 (packet : List Nat) (i : Nat) : Nat :=
  256 * packet.getD i 0 + packet.getD (i + 1) 0

/-- Big-endian 16-bit write (`BigEndian::write_u16`): overwrites bytes `i`
and `i+1` with the two bytes of `v`. -/
def writeU16 (packet : List Nat) (i : Nat) (v : Nat) : List Nat :=
  (packet.set i ((v >>> 8) &&& 0xff)).set (i + 1) (v &&& 0xff)

namespace Compress

/-- Result of `copy_uncompressed_name()` (`UncompressedNameResult`): the
destination vector after appending, the number of appended bytes `name_len`,
and the `final_offset` right after the (possibly compressed) name. -/
structure UncompressedNameResult where
  name : List Nat
  name_len : Nat
  final_offset : Nat
deriving Repr, DecidableEq

/-- Loop body of `Compress::check_compressed_name` (compress.rs). State:
current `offset`, the shrinking `barrier_offset`, `lowest_offset`, the
accumulated `name_len`, the first-pointer `final_offset`, and the remaining
indirection budget `refs_allowed`. Out of fuel is `none`; the fuel passed by
the wrapper dominates the worst case, every label run strictly advances
`offset` below `barrier ≤ packet.length` and every indirection decrements
`refs`. On success it returns the final offset together with the final
`name_len` accumulator (which the Rust function computes and drops). -/
def check_loop (packet : List Nat) :
    Nat → Nat → Nat → Nat → Nat → Option Nat → Nat →
    Option (Except DSError (Nat × Nat))
  | 0, _, _, _, _, _, _ => none
  | fuel + 1, offset, barrier, lowest, nameLen, finalOff, refs =>
    if offset ≥ barrier then
      if offset ≥ packet.length then
        some (.error (.invalidName "Truncated name"))
      else
        some (.error (.invalidName "Cycle"))
    else
      let len := readU8 packet offset
      if len &&& 0xc0 = 0xc0 then
        if refs = 0 then
          some (.error (.invalidName "Too many indirections"))
        else if packet.length - offset < 2 then
          some (.error (.invalidName "Invalid internal offset"))
        else
          let refOffset := ((len &&& 0x3f) <<< 8) ||| readU8 packet (offset + 1)
          if refOffset = offset ∨ refOffset ≥ lowest then
            some (.error (.invalidName "Forward/self reference"))
          else
            check_loop packet fuel refOffset lowest refOffset nameLen
              (finalOff.orElse fun _ => some (offset + 2)) (refs - 1)
      else if len > 0x3f then
        some (.error (.invalidName "Label length too long"))
      else
        if len ≥ packet.length - offset then
          some (.error (.invalidName "Out-of-bounds name"))
        else
          let nameLen1 := nameLen + len + 1
          if nameLen1 > DNS_MAX_HOSTNAME_LEN then
            some (.error (.invalidName "Name too long"))
          else if len = 0 then
            some (.ok (finalOff.getD (offset + 1), nameLen1))
          else
            check_loop packet fuel (offset + len + 1) barrier lowest nameLen1
              finalOff refs

/-- Fuel that dominates the iteration count of the check/copy loops:
at most 16 indirections, each label run visiting strictly increasing offsets
below the packet length. -/
def name_fuel (packet : List Nat) : Nat :=
  17 * (packet.length + 1) + 1

/-- `Compress::check_compressed_name` (compress.rs), also returning the final
`name_len` accumulator. Checks that an untrusted encoded DNS name is valid,
following indirections, and returns the location right after the name. -/
def check_compressed_name_full (packet : List Nat) (offset : Nat) :
    Except DSError (Nat × Nat) :=
  if offset ≥ packet.length then
    .error (.internalError "Offset outside packet boundaries")
  else if packet.length - offset < 1 then
    .error (.invalidName "Empty name")
  else
    match check_loop packet (name_fuel packet) offset packet.length offset 0
        none DNS_MAX_HOSTNAME_INDIRECTIONS with
    | none => .error (.internalError "loop limit exceeded")
    | some r => r

/-- `Compress::check_compressed_name`: the Rust signature, returning only the
location right after the name. -/
def check_compressed_name (packet : List Nat) (offset : Nat) :
    Except DSError Nat :=
  (check_compressed_name_full packet offset).map (·.1)

/-- Loop body of `Compress::copy_uncompressed_name` (compress.rs). The Rust
function assumes trusted input: out-of-bounds reads and the
`assert!(new_offset < offset)` map to `none`, as does fuel exhaustion. -/
def copy_loop (packet : List Nat) :
    Nat → List Nat → Nat → Nat → Option Nat →
    Option UncompressedNameResult
  | 0, _, _, _, _ => none
  | fuel + 1, name, offset, nameLen, finalOff =>
    if offset < packet.length then
      let len := readU8 packet offset
      if len &&& 0xc0 = 0xc0 then
        if offset + 1 < packet.length then
          let newOffset := readU16 packet offset &&& 0x3fff
          if newOffset < offset then
            copy_loop packet fuel name newOffset nameLen
              (finalOff.orElse fun _ => some (offset + 2))
          else
            none
        else
          none
      else
        let prefixedLabelLen := 1 + len
        if offset + prefixedLabelLen ≤ packet.length then
          let name1 := name ++ (packet.drop offset).take prefixedLabelLen
          let nameLen1 := nameLen + prefixedLabelLen
          let offset1 := offset + prefixedLabelLen
          if len = 0 then
            some ⟨name1, nameLen1, finalOff.getD offset1⟩
          else
            copy_loop packet fuel name1 offset1 nameLen1 finalOff
        else
          none
    else
      none

/-- `Compress::copy_uncompressed_name` (compress.rs): uncompresses a name
starting at `offset`, appending the result to `name`. -/
def copy_uncompressed_name (name packet : List Nat) (offset : Nat) :
    Option UncompressedNameResult :=
  copy_loop packet (name_fuel packet) name offset 0 none

/-- `Compress::raw_name_len` (compress.rs): total length of an uncompressed
raw name including the final `0` label length. The Rust loop reads
`name[i]` unchecked; running past the end maps to `none`. -/
def raw_name_len_loop (name : List Nat) : Nat → Nat → Option Nat
  | 0, _ => none
  | fuel + 1, i =>
    if i < name.length then
      if name.getD i 0 = 0 then
        some (i + 1)
      else
        raw_name_len_loop name fuel (i + name.getD i 0 + 1)
    else
      none

/-- `Compress::raw_name_len` at the start of a raw-name slice. The index
strictly increases each step and the loop stops (or panics) once it passes
the end, so `name.length + 1` fuel always suffices and the out-of-fuel
`none` is unreachable. -/
def raw_name_len (name : List Nat) : Option Nat :=
  raw_name_len_loop name (name.length + 1) 0

end Compress

/-- `DNSSector::check_uncompressed_name` (dns_sector.rs): validates an
untrusted encoded DNS name that must not contain any indirection, returning
the location right after the name. -/
def check_uncompressed_name_loop (packet : List Nat) :
    Nat → Nat → Nat → Except DSError Nat
  | 0, _, _ => .error (.internalError "loop limit exceeded")
  | fuel + 1, offset, nameLen =>
    if offset ≥ packet.length then
      .error (.invalidName "Truncated name")
    else
      let len := readU8 packet offset
      if len &&& 0xc0 = 0xc0 then
        .error (.invalidName "Unexpected compression")
      else if len > 0x3f then
        .error (.invalidName "Label length too long")
      else if len ≥ packet.length - offset then
        .error (.invalidName "Out-of-bounds name")
      else
        let nameLen1 := nameLen + len + 1
        if nameLen1 > DNS_MAX_HOSTNAME_LEN then
          .error (.invalidName "Name too long")
        else if len = 0 then
          .ok (offset + 1)
        else
          check_uncompressed_name_loop packet fuel (offset + len + 1) nameLen1

/-- `DNSSector::check_uncompressed_name` (dns_sector.rs). -/
def check_uncompressed_name (packet : List Nat) (offset : Nat) :
    Except DSError Nat :=
  if offset ≥ packet.length then
    .error (.internalError "Offset outside packet boundaries")
  else if packet.length - offset < 1 then
    .error (.invalidName "Empty name")
  else
    check_uncompressed_name_loop packet (packet.length + 1) offset 0

/-- `DNSSector::is_response` (dns_sector.rs): QR bit of the flags word.
`DNS_FLAG_QR = 1 << 15`. -/
def is_response (packet : List Nat) : Bool :=
  readU16 packet 2 &&& 0x8000 = 0x8000

/-- `DNSSector::qdcount`. -/
def qdcount (packet : List Nat) : Nat := readU16 packet 4

/-- `DNSSector::ancount`. -/
def ancount (packet : List Nat) : Nat := readU16 packet 6

/-- `DNSSector::nscount`. -/
def nscount (packet : List Nat) : Nat := readU16 packet 8

/-- `DNSSector::arcount`. -/
def arcount (packet : List Nat) : Nat := readU16 packet 10

/-- `DNSSector::set_qdcount`. -/
def set_qdcount (packet : List Nat) (v : Nat) : List Nat := writeU16 packet 4 v

/-- `DNSSector::set_ancount`. -/
def set_ancount (packet : List Nat) (v : Nat) : List Nat := writeU16 packet 6 v

/-- `DNSSector::set_nscount`. -/
def set_nscount (packet : List Nat) (v : Nat) : List Nat := writeU16 packet 8 v

/-- `DNSSector::set_arcount`. -/
def set_arcount (packet : List Nat) (v : Nat) : List Nat := writeU16 packet 10 v

/-- The mutable state of a `DNSSector` during `parse()` (dns_sector.rs). -/
structure DSState where
  packet : List Nat
  offset : Nat
  edns_start : Option Nat
  edns_end : Option Nat
  edns_count : Nat
  ext_rcode : Option Nat
  edns_version : Option Nat
  ext_flags : Option Nat
  max_payload : Nat
deriving Repr, DecidableEq

/-- `DNSSector::new`: fresh parser state over an untrusted packet. -/
def DSState.new (packet : List Nat) : DSState :=
  ⟨packet, 0, none, none, 0, none, none, none, 512⟩

/-- `DNSSector::remaining_len`. -/
def DSState.remaining_len (s : DSState) : Nat :=
  s.packet.length - s.offset

/-- `DNSSector::ensure_remaining_len`. -/
def DSState.ensure_remaining_len (s : DSState) (len : Nat) :
    Except DSError Unit :=
  if s.remaining_len < len then .error .packetTooSmall else .ok ()

/-- `DNSSector::set_offset`: fails when the new offset is not strictly inside
the packet. -/
def DSState.set_offset (s : DSState) (offset : Nat) : Except DSError DSState :=
  if offset ≥ s.packet.length then
    .error (.internalError "Setting offset past the end of the packet")
  else
    .ok { s with offset := offset }

/-- `DNSSector::increment_offset`. -/
def DSState.increment_offset (s : DSState) (n : Nat) : Except DSError DSState :=
  match s.ensure_remaining_len n with
  | .error e => .error e
  | .ok _ => .ok { s with offset := s.offset + n }

/-- `DNSSector::u8_load`. -/
def DSState.u8_load (s : DSState) (rrOffset : Nat) : Except DSError Nat :=
  match s.ensure_remaining_len (rrOffset + 1) with
  | .error e => .error e
  | .ok _ => .ok (readU8 s.packet (s.offset + rrOffset))

/-- `DNSSector::be16_load`. -/
def DSState.be16_load (s : DSState) (rrOffset : Nat) : Except DSError Nat :=
  match s.ensure_remaining_len (rrOffset + 2) with
  | .error e => .error e
  | .ok _ => .ok (readU16 s.packet (s.offset + rrOffset))

/-- `DNSSector::skip_name`: validate the name at the current offset and move
right after it. -/
def DSState.skip_name (s : DSState) : Except DSError DSState :=
  match Compress.check_compressed_name s.packet s.offset with
  | .error e => .error e
  | .ok offset => s.set_offset offset

/-- `DNSSector::rr_type` (type field right after the name). -/
def DSState.rr_type (s : DSState) : Except DSError Nat := s.be16_load 0

/-- `DNSSector::rr_class` (class field right after the name). -/
def DSState.rr_class (s : DSState) : Except DSError Nat := s.be16_load 2

/-- `DNSSector::rr_rdlen` (rdata length field right after the name). -/
def DSState.rr_rdlen (s : DSState) : Except DSError Nat := s.be16_load 8

/-- `DNSSector::ensure_in_class`: the record being parsed must be `IN` (1). -/
def DSState.ensure_in_class (s : DSState) : Except DSError Unit :=
  match s.rr_class with
  | .error e => .error e
  | .ok c => if c ≠ 1 then .error (.unsupportedClass c) else .ok ()

/-- `DNSSector::parse_question` (dns_sector.rs): skip the validated name,
require the `IN` class (the Rust function checks it twice), then skip the
4-byte question header. -/
def DSState.parse_question (s : DSState) : Except DSError DSState :=
  match s.skip_name with
  | .error e => .error e
  | .ok s1 =>
    match s1.ensure_in_class with
    | .error e => .error e
    | .ok _ =>
      match s1.rr_class with
      | .error e => .error e
      | .ok c =>
        if c ≠ 1 then .error (.unsupportedClass c)
        else s1.increment_offset DNS_RR_QUESTION_HEADER_SIZE

/-- `DNSSector::edns_remaining_len`. -/
def DSState.edns_remaining_len (s : DSState) : Nat :=
  match s.edns_end with
  | none => 0
  | some ednsEnd => ednsEnd - s.offset

/-- `DNSSector::edns_ensure_remaining_len`. -/
def DSState.edns_ensure_remaining_len (s : DSState) (len : Nat) :
    Except DSError Unit :=
  if s.edns_remaining_len < len then .error .packetTooSmall else .ok ()

/-- `DNSSector::edns_increment_offset`. -/
def DSState.edns_increment_offset (s : DSState) (n : Nat) :
    Except DSError DSState :=
  match s.edns_ensure_remaining_len n with
  | .error e => .error e
  | .ok _ => .ok { s with offset := s.offset + n }

/-- `DNSSector::edns_be16_load`. -/
def DSState.edns_be16_load (s : DSState) (rrOffset : Nat) :
    Except DSError Nat :=
  match s.edns_ensure_remaining_len (rrOffset + 2) with
  | .error e => .error e
  | .ok _ => .ok (readU16 s.packet (s.offset + rrOffset))

/-- `DNSSector::edns_rr_rdlen` (`DNS_EDNS_RR_RDLEN_OFFSET = 2`). -/
def DSState.edns_rr_rdlen (s : DSState) : Except DSError Nat :=
  s.edns_be16_load 2

/-- `DNSSector::edns_skip_rr`: skip one `{code:16, len:16, value:len}` EDNS
option (`DNS_EDNS_RR_HEADER_SIZE = 4`). -/
def DSState.edns_skip_rr (s : DSState) : Except DSError DSState :=
  match s.edns_rr_rdlen with
  | .error e => .error e
  | .ok rdlen => s.edns_increment_offset (4 + rdlen)

/-- While-loop of `parse_opt`: skip EDNS options while
`edns_remaining_len > 0`, counting them. Each iteration consumes at least 4
bytes of the window, so `packet.length + 1` fuel always suffices. -/
def DSState.edns_loop (s : DSState) : Nat → Except DSError DSState
  | 0 => .error (.internalError "loop limit exceeded")
  | fuel + 1 =>
    if s.edns_remaining_len > 0 then
      match s.edns_skip_rr with
      | .error e => .error e
      | .ok s1 => DSState.edns_loop { s1 with edns_count := s1.edns_count + 1 } fuel
    else
      .ok s

/-- `DNSSector::parse_opt` (dns_sector.rs): cache the TTL-aliased EDNS fields
and walk the options as a tight sequence filling the OPT rdata window.
Field offsets: max payload 2, ext rcode 4, edns version 5, ext flags 6,
rdlen 8, header size 10. -/
def DSState.parse_opt (s : DSState) : Except DSError DSState :=
  if s.edns_end.isSome then
    .error (.invalidPacket "Only one OPT record is allowed")
  else
    match s.u8_load 4 with
    | .error e => .error e
    | .ok extRcode =>
    match s.u8_load 5 with
    | .error e => .error e
    | .ok ednsVersion =>
    match s.be16_load 2 with
    | .error e => .error e
    | .ok maxPayload =>
    match s.be16_load 6 with
    | .error e => .error e
    | .ok extFlags =>
    match s.be16_load 8 with
    | .error e => .error e
    | .ok ednsLen =>
    let s := { s with ext_rcode := some extRcode,
                      edns_version := some ednsVersion,
                      max_payload := maxPayload,
                      ext_flags := some extFlags }
    match s.increment_offset 10 with
    | .error e => .error e
    | .ok s =>
    let s := { s with edns_start := some s.offset }
    match s.ensure_remaining_len ednsLen with
    | .error e => .error e
    | .ok _ =>
    let s := { s with edns_end := some (s.offset + ednsLen), edns_count := 0 }
    s.edns_loop (s.packet.length + 1)

/-- `DNSSector::parse_rr` (dns_sector.rs): validate one record of the answer,
nameservers or additional section, with per-type rdata validation.
Type numbers: NS 2, CNAME 5, SOA 6, PTR 12, MX 15, AAAA 28, DNAME 39,
OPT 41, A 1. -/
def DSState.parse_rr (s : DSState) (sec : Section) :
    Except DSError DSState :=
  let rrStart := s.offset
  match s.skip_name with
  | .error e => .error e
  | .ok s =>
  match s.rr_type with
  | .error e => .error e
  | .ok rrType =>
  match s.rr_rdlen with
  | .error e => .error e
  | .ok rrRdlen =>
  if rrType = 41 then
    if sec ≠ Section.additional then
      .error (.invalidPacket "OPT RRs must be in the additional section")
    else if s.offset - rrStart ≠ 1 then
      .error (.invalidPacket "OPT RRs must have the root domain as the domain name")
    else
      s.parse_opt
  else if rrType = 2 ∨ rrType = 5 ∨ rrType = 12 then
    if rrRdlen = 0 then .error .packetTooSmall
    else
      match s.increment_offset DNS_RR_HEADER_SIZE with
      | .error e => .error e
      | .ok s =>
      match Compress.check_compressed_name s.packet s.offset with
      | .error e => .error e
      | .ok finalOffset =>
        if finalOffset - s.offset ≠ rrRdlen then
          .error (.invalidPacket "Unexpected data after name in rdata")
        else
          s.increment_offset rrRdlen
  else if rrType = 15 then
    if rrRdlen ≤ 2 then .error .packetTooSmall
    else
      match s.increment_offset DNS_RR_HEADER_SIZE with
      | .error e => .error e
      | .ok s =>
      match Compress.check_compressed_name s.packet (s.offset + 2) with
      | .error e => .error e
      | .ok finalOffset =>
        if finalOffset - s.offset ≠ rrRdlen then
          .error (.invalidPacket "Unexpected data after name in MX rdata")
        else
          s.increment_offset rrRdlen
  else if rrType = 6 then
    if rrRdlen ≤ 1 + 20 then .error .packetTooSmall
    else
      match s.increment_offset DNS_RR_HEADER_SIZE with
      | .error e => .error e
      | .ok s =>
      match Compress.check_compressed_name s.packet s.offset with
      | .error e => .error e
      | .ok finalOffset1 =>
      match Compress.check_compressed_name s.packet finalOffset1 with
      | .error e => .error e
      | .ok finalOffset2 =>
        if finalOffset2 - s.offset ≠ rrRdlen - 20 then
          .error (.invalidPacket "Unexpected data after name in SOA rdata")
        else
          s.increment_offset rrRdlen
  else if rrType = 39 then
    if rrRdlen = 0 then .error .packetTooSmall
    else
      match s.increment_offset DNS_RR_HEADER_SIZE with
      | .error e => .error e
      | .ok s =>
      match check_uncompressed_name s.packet s.offset with
      | .error e => .error e
      | .ok finalOffset =>
        if finalOffset - s.offset ≠ rrRdlen then
          .error (.invalidPacket "Unexpected data after name in DNAME rdata")
        else
          s.increment_offset rrRdlen
  else if rrType = 1 then
    if rrRdlen ≠ 4 then
      .error (.invalidPacket "A record doesn\x27t include a 4 bytes IP address")
    else
      s.increment_offset (DNS_RR_HEADER_SIZE + rrRdlen)
  else if rrType = 28 then
    if rrRdlen ≠ 16 then
      .error (.invalidPacket "AAAA record doesn\x27t include a 16 bytes IP address")
    else
      s.increment_offset (DNS_RR_HEADER_SIZE + rrRdlen)
  else
    s.increment_offset (DNS_RR_HEADER_SIZE + rrRdlen)

/-- Runs `parse_rr` for each of the `count` records of a section. -/
def DSState.parse_rrs (s : DSState) (sec : Section) :
    Nat → Except DSError DSState
  | 0 => .ok s
  | n + 1 =>
    match s.parse_rr sec with
    | .error e => .error e
    | .ok s1 => s1.parse_rrs sec n

/-- `ParsedPacket` (parsed_packet.rs): buffer plus cached section offsets,
EDNS metadata and the question cache. -/
structure ParsedPacket where
  packet : List Nat
  offset_question : Option Nat
  offset_answers : Option Nat
  offset_nameservers : Option Nat
  offset_additional : Option Nat
  offset_edns : Option Nat
  edns_count : Nat
  ext_rcode : Option Nat
  edns_version : Option Nat
  ext_flags : Option Nat
  maybe_compressed : Bool
  max_payload : Nat
  cached : Option (List Nat × Nat × Nat)
deriving Repr, DecidableEq

/-- `DNSSector::parse` (dns_sector.rs): one-shot validation of an untrusted
DNS packet, producing a `ParsedPacket` on success. -/
def parse (packet : List Nat) : Except DSError ParsedPacket :=
  if packet.length < DNS_HEADER_SIZE then
    .error .packetTooSmall
  else
  let isResponse := is_response packet
  let qd := qdcount packet
  if qd = 0 then
    .error (.invalidPacket "A DNS packet should contain a question")
  else if qd > 1 then
    .error (.invalidPacket "A DNS packet cannot contain more than one question")
  else
  match (DSState.new packet).set_offset DNS_QUESTION_OFFSET with
  | .error e => .error e
  | .ok s =>
  let offsetQuestion := if qd > 0 then some s.offset else none
  match (if qd ≠ 0 then s.parse_question else .ok s) with
  | .error e => .error e
  | .ok s =>
  let an := ancount packet
  if isResponse = false ∧ an > 0 then
    .error (.invalidPacket "A question shouldn\x27t also contain answers")
  else
  let offsetAnswers := if an > 0 then some s.offset else none
  match s.parse_rrs Section.answer an with
  | .error e => .error e
  | .ok s =>
  let ns := nscount packet
  if isResponse = false ∧ ns > 0 then
    .error (.invalidPacket "A question shouldn\x27t also contain name servers")
  else
  let offsetNameservers := if ns > 0 then some s.offset else none
  match s.parse_rrs Section.nameServers ns with
  | .error e => .error e
  | .ok s =>
  let ar := arcount packet
  let offsetAdditional := if ar > 0 then some s.offset else none
  match s.parse_rrs Section.additional ar with
  | .error e => .error e
  | .ok s =>
  if s.remaining_len > 0 then
    .error (.invalidPacket "Extra data found after the last record")
  else
    .ok { packet := s.packet
          offset_question := offsetQuestion
          offset_answers := offsetAnswers
          offset_nameservers := offsetNameservers
          offset_additional := offsetAdditional
          offset_edns := s.edns_start
          edns_count := s.edns_count
          ext_rcode := s.ext_rcode
          edns_version := s.edns_version
          ext_flags := s.ext_flags
          maybe_compressed := true
          max_payload := s.max_payload
          cached := none }

namespace RRIterator

/-- `RRIterator::skip_name` (rr_iterator.rs): quickly skips over a DNS name
without validation or decompression, stopping right after the first pointer.
Trusted-input function: its `assert!`s and out-of-bounds reads are `none`. -/
def skip_name_loop (packet : List Nat) : Nat → Nat → Option Nat
  | 0, _ => none
  | fuel + 1, offset =>
    if offset < packet.length then
      let len := readU8 packet offset
      if len &&& 0xc0 = 0xc0 then
        if packet.length - offset > 2 then some (offset + 2) else none
      else if len < packet.length - offset - 1 then
        if len = 0 then some (offset + 1)
        else skip_name_loop packet fuel (offset + len + 1)
      else
        none
    else
      none

/-- `RRIterator::skip_name` at an offset. The offset strictly increases each
step and the loop stops (or panics) at the end of the packet, so
`packet.length + 1` fuel always suffices. -/
def skip_name (packet : List Nat) (offset : Nat) : Option Nat :=
  skip_name_loop packet (packet.length + 1) offset

/-- `RRIterator::rr_rdlen` (rr_iterator.rs): rdata length field of the record
header starting at `offset` (right after the name). -/
def rr_rdlen (packet : List Nat) (offset : Nat) : Option Nat :=
  if offset + DNS_RR_RDLEN_OFFSET + 2 ≤ packet.length then
    some (readU16 packet (offset + DNS_RR_RDLEN_OFFSET))
  else
    none

/-- `RRIterator::skip_rdata`. -/
def skip_rdata (packet : List Nat) (offset : Nat) : Option Nat :=
  match rr_rdlen packet offset with
  | none => none
  | some rdlen => some (offset + DNS_RR_HEADER_SIZE + rdlen)

/-- `RRIterator::skip_rr`. -/
def skip_rr (packet : List Nat) (offset : Nat) : Option Nat :=
  match skip_name packet offset with
  | none => none
  | some nameEnd => skip_rdata packet nameEnd

end RRIterator

/-- Reads the type field of the record whose name ends at `nameEnd`
(`TypedIterable::rr_type`, reading `rdata_slice()[0..2]`). -/
def rr_type_at (packet : List Nat) (nameEnd : Nat) : Option Nat :=
  if nameEnd + 2 ≤ packet.length then some (readU16 packet nameEnd) else none

/-- Reads the rdlen field of the record whose name ends at `nameEnd`
(`RdataIterable::rr_rdlen`, reading `rdata_slice()[8..10]`). -/
def rr_rdlen_at (packet : List Nat) (nameEnd : Nat) : Option Nat :=
  if nameEnd + DNS_RR_RDLEN_OFFSET + 2 ≤ packet.length then
    some (readU16 packet (nameEnd + DNS_RR_RDLEN_OFFSET))
  else
    none

/-- `TypedIterable::copy_raw_name` (rr_iterator.rs): appends the uncompressed
name of the record at `offset`/`nameEnd` to `name`; returns the extended
vector. Returns `name` unchanged when `name_end ≤ offset`. -/
def copy_raw_name (name packet : List Nat) (offset nameEnd : Nat) :
    Option (List Nat) :=
  if nameEnd ≤ offset then
    some name
  else
    match Compress.copy_uncompressed_name name packet offset with
    | none => none
    | some res => some res.name

namespace Compress

/-- `Compress::uncompress_rdata` (compress.rs): re-emits the fixed RR header
and rdata of a trusted record whose rdata starts at `nameEnd`, uncompressing
the embedded names of NS/CNAME/PTR (2/5/12), MX (15) and SOA (6) records and
back-patching the rdlen field. `rrType = none` is the question pseudo-record.
Slicing beyond the packet maps to `none`; the rdlen back-patch writes into
bytes this function just appended, so it is always in bounds. -/
def uncompress_rdata (uncompressed packet : List Nat) (nameEnd : Nat)
    (rrType : Option Nat) (rrRdlen : Option Nat) : Option (List Nat) :=
  match rrType with
  | none =>
    if nameEnd + DNS_RR_QUESTION_HEADER_SIZE ≤ packet.length then
      some (uncompressed ++ (packet.drop nameEnd).take DNS_RR_QUESTION_HEADER_SIZE)
    else
      none
  | some t =>
    if t = 2 ∨ t = 5 ∨ t = 12 then
      let offset := uncompressed.length
      if nameEnd + DNS_RR_HEADER_SIZE ≤ packet.length then
        let out1 := uncompressed ++ (packet.drop nameEnd).take DNS_RR_HEADER_SIZE
        match copy_uncompressed_name out1 packet (nameEnd + DNS_RR_HEADER_SIZE) with
        | none => none
        | some res =>
          some (writeU16 res.name (offset + DNS_RR_RDLEN_OFFSET)
            (res.name_len &&& 0xffff))
      else
        none
    else if t = 15 then
      let offset := uncompressed.length
      if nameEnd + DNS_RR_HEADER_SIZE + 2 ≤ packet.length then
        let out1 := uncompressed ++ (packet.drop nameEnd).take (DNS_RR_HEADER_SIZE + 2)
        match copy_uncompressed_name out1 packet (nameEnd + DNS_RR_HEADER_SIZE + 2) with
        | none => none
        | some res =>
          some (writeU16 res.name (offset + DNS_RR_RDLEN_OFFSET)
            ((2 + res.name_len) &&& 0xffff))
      else
        none
    else if t = 6 then
      let offset := uncompressed.length
      if nameEnd + DNS_RR_HEADER_SIZE ≤ packet.length then
        let out1 := uncompressed ++ (packet.drop nameEnd).take DNS_RR_HEADER_SIZE
        match copy_uncompressed_name out1 packet (nameEnd + DNS_RR_HEADER_SIZE) with
        | none => none
        | some res1 =>
          match copy_uncompressed_name res1.name packet res1.final_offset with
          | none => none
          | some res2 =>
            if res2.final_offset + 20 ≤ packet.length then
              let out2 := res2.name ++ (packet.drop res2.final_offset).take 20
              some (writeU16 out2 (offset + DNS_RR_RDLEN_OFFSET)
                ((res1.name_len + res2.name_len + 20) &&& 0xffff))
            else
              none
      else
        none
    else
      match rrRdlen with
      | none => none
      | some rdlen =>
        if nameEnd + DNS_RR_HEADER_SIZE + rdlen ≤ packet.length then
          some (uncompressed ++
            (packet.drop nameEnd).take (DNS_RR_HEADER_SIZE + rdlen))
        else
          none

/-- Question-section loop of `Compress::uncompress_with_previous_offset`:
iterate via `QuestionIterator::next` (name end by `RRIterator::skip_name`,
next record 4 bytes later), tracking where `refOffset` lands in the output. -/
def uncompress_question_items (packet : List Nat) (refOffset : Nat) :
    Nat → Nat → List Nat → Option Nat → Option (List Nat × Option Nat)
  | 0, _, out, newOff => some (out, newOff)
  | rrsLeft + 1, offsetNext, out, newOff =>
    match RRIterator.skip_name packet offsetNext with
    | none => none
    | some nameEnd =>
      let offset := offsetNext
      let offsetNext1 := nameEnd + DNS_RR_QUESTION_HEADER_SIZE
      let newOff1 := if refOffset = offset then some out.length else newOff
      match copy_raw_name out packet offset nameEnd with
      | none => none
      | some out1 =>
        match uncompress_rdata out1 packet nameEnd none none with
        | none => none
        | some out2 =>
          uncompress_question_items packet refOffset rrsLeft offsetNext1 out2 newOff1

/-- `ResponseIterator::maybe_skip_opt_section` (response_iterator.rs): when
the freshly yielded record is an OPT (type 41), advance once more without
consuming `rrs_left`, or end the iteration when no record is left. The
result is `(rrsLeft, offset, nameEnd, offsetNext)` of the record to process,
or `none`-inner when the iteration ends. -/
def maybe_skip_opt_section (packet : List Nat)
    (rrsLeft offset nameEnd offsetNext : Nat) :
    Option (Option (Nat × Nat × Nat)) :=
  match rr_type_at packet nameEnd with
  | none => none
  | some t =>
    if t = 41 then
      if rrsLeft = 0 then
        some none
      else
        match RRIterator.skip_name packet offsetNext with
        | none => none
        | some nameEnd2 =>
          match RRIterator.skip_rdata packet nameEnd2 with
          | none => none
          | some offsetNext2 =>
            some (some (offsetNext, nameEnd2, offsetNext2))
    else
      some (some (offset, nameEnd, offsetNext))

/-- Response-section loop of `Compress::uncompress_with_previous_offset`:
iterate with `ResponseIterator::next` (`includeOpt = false`, for the answer
and nameservers loops) or `next_including_opt` (`includeOpt = true`, for the
additional loop), uncompressing each record. -/
def uncompress_response_items (packet : List Nat) (refOffset : Nat)
    (includeOpt : Bool) :
    Nat → Nat → List Nat → Option Nat → Option (List Nat × Option Nat)
  | 0, _, out, newOff => some (out, newOff)
  | rrsLeft + 1, offsetNext, out, newOff =>
    match RRIterator.skip_name packet offsetNext with
    | none => none
    | some nameEnd =>
      match RRIterator.skip_rdata packet nameEnd with
      | none => none
      | some offsetNext1 =>
        match (if includeOpt then
                 some (some (offsetNext, nameEnd, offsetNext1))
               else
                 maybe_skip_opt_section packet rrsLeft offsetNext nameEnd offsetNext1) with
        | none => none
        | some none => some (out, newOff)
        | some (some (offset, nameEnd1, offsetNext2)) =>
          let newOff1 := if refOffset = offset then some out.length else newOff
          match copy_raw_name out packet offset nameEnd1 with
          | none => none
          | some out1 =>
            match rr_type_at packet nameEnd1 with
            | none => none
            | some rrType =>
              match rr_rdlen_at packet nameEnd1 with
              | none => none
              | some rrRdlen =>
                match uncompress_rdata out1 packet nameEnd1 (some rrType)
                    (some rrRdlen) with
                | none => none
                | some out2 =>
                  uncompress_response_items packet refOffset includeOpt
                    rrsLeft offsetNext2 out2 newOff1

/-- One response-style section walk: no items when the count is zero,
otherwise start from the cached section offset (`unwrap` panic when absent). -/
def uncompress_section (packet : List Nat) (refOffset : Nat)
    (includeOpt : Bool) (count : Nat) (startOffset : Option Nat)
    (out : List Nat) (newOff : Option Nat) : Option (List Nat × Option Nat) :=
  if count = 0 then
    some (out, newOff)
  else
    match startOffset with
    | none => none
    | some start =>
      uncompress_response_items packet refOffset includeOpt count start out newOff

/-- `Compress::uncompress_with_previous_offset` (compress.rs): re-emit the
whole packet with every name uncompressed, tracking where the record boundary
`refOffset` of the input lands in the output. -/
def uncompress_with_previous_offset (packet : List Nat) (refOffset : Nat) :
    Option (Except DSError (List Nat × Nat)) :=
  if packet.length < DNS_HEADER_SIZE then
    some (.error .packetTooSmall)
  else
    match parse packet with
    | .error e => some (.error e)
    | .ok pp =>
      let out := packet.take DNS_HEADER_SIZE
      match (if qdcount packet = 0 then some (out, (none : Option Nat))
             else match pp.offset_question with
               | none => none
               | some start =>
                 uncompress_question_items packet refOffset (qdcount packet)
                   start out none) with
      | none => none
      | some (out, newOff) =>
        match uncompress_section packet refOffset false (ancount packet)
            pp.offset_answers out newOff with
        | none => none
        | some (out, newOff) =>
          match uncompress_section packet refOffset false (nscount packet)
              pp.offset_nameservers out newOff with
          | none => none
          | some (out, newOff) =>
            match uncompress_section packet refOffset true (arcount packet)
                pp.offset_additional out newOff with
            | none => none
            | some (out, newOff) =>
              let newOff := if refOffset = packet.length then some out.length
                            else newOff
              match newOff with
              | none => none
              | some n => some (.ok (out, n))

/-- `Compress::uncompress` (compress.rs). -/
def uncompress (packet : List Nat) : Option (Except DSError (List Nat)) :=
  (uncompress_with_previous_offset packet DNS_HEADER_SIZE).map fun r =>
    r.map (·.1)

end Compress

/-- `u8::eq_ignore_ascii_case`. -/
def eqIgnoreAsciiCase (a b : Nat) : Bool :=
  let lower := fun x => if 65 ≤ x ∧ x ≤ 90 then x + 32 else x
  lower a = lower b

/-- `MAX_SUFFIX_LEN` (compress.rs). -/
def MAX_SUFFIX_LEN : Nat := 127

/-- `MAX_SUFFIXES` (compress.rs). -/
def MAX_SUFFIXES : Nat := 32

/-- One entry of the suffix dictionary (`Suffix`, compress.rs). The 127-byte
backing array is modelled by the list of bytes actually copied into it;
comparisons only ever read the first `len` bytes. -/
structure Suffix where
  offset : Nat
  len : Nat
  suffix : List Nat
deriving Repr, DecidableEq

/-- `Suffix::default`. -/
def Suffix.default : Suffix := ⟨0, 0, []⟩

/-- `SuffixDict` (compress.rs): bounded suffix table with `count` used
entries and round-robin insertion cursor `index`. -/
structure SuffixDict where
  count : Nat
  index : Nat
  suffixes : List Suffix
deriving Repr, DecidableEq

/-- `SuffixDict::new`. -/
def SuffixDict.new : SuffixDict :=
  ⟨0, 0, List.replicate MAX_SUFFIXES Suffix.default⟩

/-- `SuffixDict::raw_names_eq_ignore_case` (compress.rs): case-insensitive
equality of two trusted raw names, walking labels and stopping at the
terminal zero; falls through to `false` when the zipped iteration ends. -/
def raw_names_eq_ignore_case : List Nat → List Nat → Nat → Bool
  | c1 :: r1, c2 :: r2, labelLen =>
    if eqIgnoreAsciiCase c1 c2 = false then
      false
    else if labelLen = 0 then
      if c1 = 0 then true else raw_names_eq_ignore_case r1 r2 c1
    else
      raw_names_eq_ignore_case r1 r2 (labelLen - 1)
  | _, _, _ => false

/-- Linear search of `SuffixDict::insert`: find the first of the `count` live
entries whose stored name equals `suffix` case-insensitively and is not
longer than it. -/
def SuffixDict.find (d : SuffixDict) (suffix : List Nat) :
    Nat → Option Nat → Option Nat
  | 0, acc => acc
  | n + 1, acc =>
    match acc with
    | some r => some r
    | none =>
      let i := d.count - (n + 1)
      let candidate := (d.suffixes.getD i Suffix.default)
      if candidate.len ≤ suffix.length ∧
          raw_names_eq_ignore_case suffix (candidate.suffix.take candidate.len) 0 = true then
        some candidate.offset
      else
        d.find suffix n none

/-- `SuffixDict::insert` (compress.rs): refuse offsets not representable in a
14-bit pointer and suffixes of length ≤ 2 or > 127; return the offset of a
matching entry when there is one, otherwise record the suffix at the
round-robin cursor (`raw_name_copy`, whose walk of a malformed name is a
panic, hence `none`). -/
def SuffixDict.insert (d : SuffixDict) (suffix : List Nat) (offset : Nat) :
    Option (SuffixDict × Option Nat) :=
  if offset ≥ 65536 >>> 2 then
    some (d, none)
  else
  let suffixLen := suffix.length
  if suffixLen ≤ 2 ∨ suffixLen > MAX_SUFFIX_LEN then
    some (d, none)
  else
    match d.find suffix d.count none with
    | some refOffset => some (d, some refOffset)
    | none =>
      match Compress.raw_name_len suffix with
      | none => none
      | some copyLen =>
        let entry : Suffix := ⟨offset, suffixLen, suffix.take copyLen⟩
        let suffixes := d.suffixes.set d.index entry
        let index := d.index + 1
        let count := max index d.count
        let index := if index = MAX_SUFFIXES then 1 else index
        some (⟨count, index, suffixes⟩, none)

namespace Compress

/-- Result of `copy_compressed_name()` (`CompressedNameResult`). -/
structure CompressedNameResult where
  name_len : Nat
  final_offset : Nat
deriving Repr, DecidableEq

/-- Emission loop of `Compress::copy_compressed_name` (compress.rs): at each
label boundary try to insert the remaining suffix into the dictionary; on a
hit emit a two-byte pointer to the offset the dictionary returned and stop,
otherwise emit the literal label. The suffix passed to the dictionary is
`packet[offset..finalOffset]` and the offset recorded for a new entry is the
offset of the suffix in the *input* packet. -/
def copy_compressed_loop (packet : List Nat) (finalOffset : Nat) :
    Nat → SuffixDict → List Nat → Nat → Option (SuffixDict × List Nat)
  | 0, _, _, _ => none
  | fuel + 1, dict, compressed, offset =>
    if offset < packet.length then
      if offset ≤ finalOffset ∧ finalOffset ≤ packet.length then
        match dict.insert ((packet.drop offset).take (finalOffset - offset)) offset with
        | none => none
        | some (dict, some refOffset) =>
          if offset < 65536 >>> 2 then
            some (dict, compressed ++ [((refOffset >>> 8) &&& 0xff) ||| 0xc0,
              refOffset &&& 0xff])
          else
            none
        | some (dict, none) =>
          let labelLen := readU8 packet offset
          let offsetNext := offset + 1 + labelLen
          if offsetNext ≤ packet.length then
            let compressed1 := compressed ++ (packet.drop offset).take (1 + labelLen)
            if labelLen = 0 then
              some (dict, compressed1)
            else
              copy_compressed_loop packet finalOffset fuel dict compressed1 offsetNext
          else
            none
      else
        none
    else
      none

/-- `Compress::copy_compressed_name` (compress.rs): compress the trusted
uncompressed name starting at `offset` through the suffix dictionary. -/
def copy_compressed_name (dict : SuffixDict) (compressed packet : List Nat)
    (offset : Nat) : Option (SuffixDict × List Nat × CompressedNameResult) :=
  if offset ≤ packet.length then
    match raw_name_len (packet.drop offset) with
    | none => none
    | some uncompressedNameLen =>
      let initialCompressedLen := compressed.length
      let finalOffset := offset + uncompressedNameLen
      match copy_compressed_loop packet finalOffset (packet.length + 1) dict
          compressed offset with
      | none => none
      | some (dict, compressed) =>
        some (dict, compressed,
          ⟨compressed.length - initialCompressedLen, finalOffset⟩)
  else
    none

/-- `Compress::compress_rdata` (compress.rs): like `uncompress_rdata` but
embedded names go through `copy_compressed_name` with the shared dictionary. -/
def compress_rdata (dict : SuffixDict) (compressed packet : List Nat)
    (nameEnd : Nat) (rrType : Option Nat) (rrRdlen : Option Nat) :
    Option (SuffixDict × List Nat) :=
  match rrType with
  | none =>
    if nameEnd + DNS_RR_QUESTION_HEADER_SIZE ≤ packet.length then
      some (dict,
        compressed ++ (packet.drop nameEnd).take DNS_RR_QUESTION_HEADER_SIZE)
    else
      none
  | some t =>
    if t = 2 ∨ t = 5 ∨ t = 12 then
      let offset := compressed.length
      if nameEnd + DNS_RR_HEADER_SIZE ≤ packet.length then
        let out1 := compressed ++ (packet.drop nameEnd).take DNS_RR_HEADER_SIZE
        match copy_compressed_name dict out1 packet (nameEnd + DNS_RR_HEADER_SIZE) with
        | none => none
        | some (dict, out2, res) =>
          some (dict, writeU16 out2 (offset + DNS_RR_RDLEN_OFFSET)
            (res.name_len &&& 0xffff))
      else
        none
    else if t = 15 then
      let offset := compressed.length
      if nameEnd + DNS_RR_HEADER_SIZE + 2 ≤ packet.length then
        let out1 := compressed ++ (packet.drop nameEnd).take (DNS_RR_HEADER_SIZE + 2)
        match copy_compressed_name dict out1 packet (nameEnd + DNS_RR_HEADER_SIZE + 2) with
        | none => none
        | some (dict, out2, res) =>
          some (dict, writeU16 out2 (offset + DNS_RR_RDLEN_OFFSET)
            ((2 + res.name_len) &&& 0xffff))
      else
        none
    else if t = 6 then
      let offset := compressed.length
      if nameEnd + DNS_RR_HEADER_SIZE ≤ packet.length then
        let out1 := compressed ++ (packet.drop nameEnd).take DNS_RR_HEADER_SIZE
        match copy_compressed_name dict out1 packet (nameEnd + DNS_RR_HEADER_SIZE) with
        | none => none
        | some (dict, out2, res1) =>
          match copy_compressed_name dict out2 packet res1.final_offset with
          | none => none
          | some (dict, out3, res2) =>
            if res2.final_offset + 20 ≤ packet.length then
              let out4 := out3 ++ (packet.drop res2.final_offset).take 20
              some (dict, writeU16 out4 (offset + DNS_RR_RDLEN_OFFSET)
                ((res1.name_len + res2.name_len + 20) &&& 0xffff))
            else
              none
      else
        none
    else
      match rrRdlen with
      | none => none
      | some rdlen =>
        if nameEnd + DNS_RR_HEADER_SIZE + rdlen ≤ packet.length then
          some (dict, compressed ++
            (packet.drop nameEnd).take (DNS_RR_HEADER_SIZE + rdlen))
        else
          none

/-- Question-section loop of `Compress::compress`. -/
def compress_question_items (packet : List Nat) :
    Nat → Nat → SuffixDict → List Nat → Option (SuffixDict × List Nat)
  | 0, _, dict, out => some (dict, out)
  | rrsLeft + 1, offsetNext, dict, out =>
    match RRIterator.skip_name packet offsetNext with
    | none => none
    | some nameEnd =>
      let offset := offsetNext
      let offsetNext1 := nameEnd + DNS_RR_QUESTION_HEADER_SIZE
      match copy_compressed_name dict out packet offset with
      | none => none
      | some (dict, out1, _res) =>
        match compress_rdata dict out1 packet nameEnd none none with
        | none => none
        | some (dict, out2) =>
          compress_question_items packet rrsLeft offsetNext1 dict out2

/-- Response-section loop of `Compress::compress`. -/
def compress_response_items (packet : List Nat) (includeOpt : Bool) :
    Nat → Nat → SuffixDict → List Nat → Option (SuffixDict × List Nat)
  | 0, _, dict, out => some (dict, out)
  | rrsLeft + 1, offsetNext, dict, out =>
    match RRIterator.skip_name packet offsetNext with
    | none => none
    | some nameEnd =>
      match RRIterator.skip_rdata packet nameEnd with
      | none => none
      | some offsetNext1 =>
        match (if includeOpt then
                 some (some (offsetNext, nameEnd, offsetNext1))
               else
                 maybe_skip_opt_section packet rrsLeft offsetNext nameEnd offsetNext1) with
        | none => none
        | some none => some (dict, out)
        | some (some (offset, nameEnd1, offsetNext2)) =>
          match copy_compressed_name dict out packet offset with
          | none => none
          | some (dict, out1, _res) =>
            match rr_type_at packet nameEnd1 with
            | none => none
            | some rrType =>
              match rr_rdlen_at packet nameEnd1 with
              | none => none
              | some rrRdlen =>
                match compress_rdata dict out1 packet nameEnd1 (some rrType)
                    (some rrRdlen) with
                | none => none
                | some (dict, out2) =>
                  compress_response_items packet includeOpt rrsLeft
                    offsetNext2 dict out2

/-- One response-style section walk of `Compress::compress`. -/
def compress_section (packet : List Nat) (includeOpt : Bool) (count : Nat)
    (startOffset : Option Nat) (dict : SuffixDict) (out : List Nat) :
    Option (SuffixDict × List Nat) :=
  if count = 0 then
    some (dict, out)
  else
    match startOffset with
    | none => none
    | some start => compress_response_items packet includeOpt count start dict out

/-- `Compress::compress` (compress.rs): re-emit the whole packet with every
name compressed through a shared suffix dictionary. -/
def compress (packet : List Nat) : Option (Except DSError (List Nat)) :=
  if packet.length < DNS_HEADER_SIZE then
    some (.error .packetTooSmall)
  else
    match parse packet with
    | .error e => some (.error e)
    | .ok pp =>
      let out := packet.take DNS_HEADER_SIZE
      let dict := SuffixDict.new
      match (if qdcount packet = 0 then some (dict, out)
             else match pp.offset_question with
               | none => none
               | some start =>
                 compress_question_items packet (qdcount packet) start dict out) with
      | none => none
      | some (dict, out) =>
        match compress_section packet false (ancount packet)
            pp.offset_answers dict out with
        | none => none
        | some (dict, out) =>
          match compress_section packet false (nscount packet)
              pp.offset_nameservers dict out with
          | none => none
          | some (dict, out) =>
            match compress_section packet true (arcount packet)
                pp.offset_additional dict out with
            | none => none
            | some (_dict, out) => some (.ok out)

end Compress

/-- Strict order on `Option<usize>` as derived by Rust: `None < Some(_)`. -/
def optLt : Option Nat → Option Nat → Bool
  | none, none => false
  | none, some _ => true
  | some _, none => false
  | some a, some b => a < b

/-- `a >= b` on `Option<usize>` in the Rust `Ord`. -/
def optGe (a b : Option Nat) : Bool :=
  !(optLt a b)

/-- `(x as isize + shift) as usize`: two-complement round trip through a
64-bit machine word. -/
def usizeOfInt (i : Int) : Nat :=
  (i % (2 : Int) ^ 64).toNat

/-- `ptr::copy` (memmove) of `n` bytes from `src` to `dst` within a list. -/
def copyWithin (l : List Nat) (src dst n : Nat) : List Nat :=
  l.take dst ++ (l.drop src).take n ++ l.drop (dst + n)

/-- Overwrite `l[i .. i + xs.length]` with `xs`
(`packet[offset..offset + new_name_len].copy_from_slice(name)`). -/
def spliceAt (l : List Nat) (i : Nat) (xs : List Nat) : List Nat :=
  l.take i ++ xs ++ l.drop (i + xs.length)

/-- State of a section cursor (`RRIterator`, rr_iterator.rs) together with
the `ParsedPacket` it borrows. -/
structure CursorState where
  packet : List Nat
  sec : Section
  offset : Option Nat
  offset_next : Nat
  name_end : Nat
  rrs_left : Nat
  offset_question : Option Nat
  offset_answers : Option Nat
  offset_nameservers : Option Nat
  offset_additional : Option Nat
  offset_edns : Option Nat
  edns_count : Nat
  ext_rcode : Option Nat
  edns_version : Option Nat
  ext_flags : Option Nat
  maybe_compressed : Bool
  max_payload : Nat
  cached : Option (List Nat × Nat × Nat)
deriving Repr, DecidableEq

namespace CursorState

/-- `TypedIterable::current_section` (rr_iterator.rs): classify the cursor
offset against the cached section offsets, using the Rust `Option` order. -/
def current_section (st : CursorState) : Except DSError Section :=
  if optLt st.offset st.offset_question then
    .error (.internalError "name before the question section")
  else
    let s := Section.question
    let s := if st.offset_answers.isSome ∧ optGe st.offset st.offset_answers
             then Section.answer else s
    let s := if st.offset_nameservers.isSome ∧
                optGe st.offset st.offset_nameservers
             then Section.nameServers else s
    let s := if st.offset_additional.isSome ∧
                optGe st.offset st.offset_additional
             then Section.additional else s
    .ok s

/-- Tail of `TypedIterable::resize_rr` after the byte splice: shift
`offset_next` and the cached offsets of all sections strictly after the
current record's section. -/
def resize_finish (st : CursorState) (shift : Int) :
    Option (Except DSError CursorState) :=
  let st := { st with
    offset_next := usizeOfInt ((st.offset_next : Int) + shift) }
  match st.current_section with
  | .error e => some (.error e)
  | .ok s =>
    let st := if s = Section.nameServers ∨ s = Section.answer ∨
                 s = Section.question then
        { st with offset_additional :=
            st.offset_additional.map fun x => usizeOfInt ((x : Int) + shift) }
      else st
    let st := if s = Section.answer ∨ s = Section.question then
        { st with offset_nameservers :=
            st.offset_nameservers.map fun x => usizeOfInt ((x : Int) + shift) }
      else st
    let st := if s = Section.question then
        { st with offset_answers :=
            st.offset_answers.map fun x => usizeOfInt ((x : Int) + shift) }
      else st
    some (.ok st)

/-- `TypedIterable::resize_rr` (rr_iterator.rs): grow or shrink the current
record by `shift` bytes, moving the tail of the packet and updating the
cached offsets. Growing past `0xffff` is `PacketTooLarge`; the
`assert!(packet_len >= (-shift))` of the shrink path is a panic (`none`). -/
def resize_rr (st : CursorState) (shift : Int) :
    Option (Except DSError CursorState) :=
  if shift = 0 then
    some (.ok st)
  else
    match st.offset with
    | none => some (.error .voidRecord)
    | some offset =>
      let packetLen := st.packet.length
      if 0 < shift then
        let s := shift.toNat
        if packetLen + s > 0xffff then
          some (.error .packetTooLarge)
        else
          let p1 := st.packet ++ List.replicate s 0
          let p2 := copyWithin p1 offset (offset + s) (packetLen - offset)
          resize_finish { st with packet := p2 } shift
      else
        let s := (-shift).toNat
        if packetLen < s then
          none
        else
          let p2 := copyWithin st.packet (offset + s) offset
            (packetLen - (offset + s))
          resize_finish { st with packet := p2.take (packetLen - s) } shift

/-- `RRIterator::recompute` (rr_iterator.rs): refresh `name_end` and
`offset_next` of the current record from the packet bytes. -/
def recompute_rr (st : CursorState) : Option CursorState :=
  match st.offset with
  | none => none
  | some offset =>
    match RRIterator.skip_name st.packet offset with
    | none => none
    | some nameEnd =>
      match RRIterator.skip_rdata st.packet nameEnd with
      | none => none
      | some offsetNext =>
        some { st with name_end := nameEnd, offset_next := offsetNext }

/-- `ParsedPacket::recompute` (parsed_packet.rs) as invoked through
`recompute_sections` (whose `.unwrap()` and `assert_eq!` are panics):
re-parse the packet and reinstall the fresh section offsets. -/
def recompute_sections (st : CursorState) : Option CursorState :=
  if st.maybe_compressed = false then
    some st
  else
    match parse st.packet with
    | .error _ => none
    | .ok pp =>
      if st.edns_count = pp.edns_count ∧ st.ext_rcode = pp.ext_rcode ∧
          st.edns_version = pp.edns_version ∧ st.ext_flags = pp.ext_flags then
        some { st with
          offset_question := pp.offset_question
          offset_answers := pp.offset_answers
          offset_nameservers := pp.offset_nameservers
          offset_additional := pp.offset_additional
          offset_edns := pp.offset_edns
          maybe_compressed := false
          cached := none }
      else
        none

/-- The decompress-on-write block shared by `set_raw_name` and `delete`: run
`uncompress_with_previous_offset` on the packet, reinstall the relocated
cursor offset, and refresh the record and section caches. -/
def uncompress_at (st : CursorState) (refOffset : Nat) :
    Option (Except DSError CursorState) :=
  match Compress.uncompress_with_previous_offset st.packet refOffset with
  | none => none
  | some (.error e) => some (.error e)
  | some (.ok (uncompressed, newOffset)) =>
    let st := { st with packet := uncompressed, offset := some newOffset }
    match recompute_rr st with
    | none => none
    | some st =>
      match recompute_sections st with
      | none => none
      | some st => some (.ok st)

/-- `ParsedPacket::rrcount_dec` (parsed_packet.rs): decrement the on-wire
record count of a section; decrementing a zero count or the EDNS
pseudo-section is a panic. -/
def rrcount_dec (packet : List Nat) (s : Section) :
    Option (Nat × List Nat) :=
  match s with
  | Section.question =>
    let c := qdcount packet
    if c = 0 then none else some (c - 1, set_qdcount packet (c - 1))
  | Section.answer =>
    let c := ancount packet
    if c = 0 then none else some (c - 1, set_ancount packet (c - 1))
  | Section.nameServers =>
    let c := nscount packet
    if c = 0 then none else some (c - 1, set_nscount packet (c - 1))
  | Section.additional =>
    let c := arcount packet
    if c = 0 then none else some (c - 1, set_arcount packet (c - 1))
  | Section.edns => none

/-- `TypedIterable::delete` (rr_iterator.rs): remove the current record from
the packet, update counts and offsets, and leave the cursor as a tombstone
(`offset = none`, `offset_next` = the deleted record's offset). -/
def delete (st : CursorState) : Option (Except DSError CursorState) :=
  match st.offset with
  | none => some (.error .voidRecord)
  | some refOffset =>
  match st.current_section with
  | .error e => some (.error e)
  | .ok s =>
  match ((if st.maybe_compressed then uncompress_at st refOffset
          else some (.ok st)) : Option (Except DSError CursorState)) with
  | none => none
  | some (.error e) => some (.error e)
  | some (.ok st) =>
  match st.offset with
  | none => none
  | some offset =>
  let rrLen := st.offset_next - offset
  if rrLen = 0 then
    none
  else
    match st.resize_rr (-(rrLen : Int)) with
    | none => none
    | some (.error e) => some (.error e)
    | some (.ok st) =>
    match st.offset with
    | none => none
    | some offset1 =>
    let st := { st with offset_next := offset1, offset := none }
    match rrcount_dec st.packet s with
    | none => none
    | some (rrcount, packet) =>
      let st := { st with packet := packet }
      if rrcount = 0 then
        match s with
        | Section.question => some (.ok { st with offset_question := none })
        | Section.answer => some (.ok { st with offset_answers := none })
        | Section.nameServers => some (.ok { st with offset_nameservers := none })
        | Section.additional => some (.ok { st with offset_additional := none })
        | Section.edns => none
      else
        some (.ok st)

/-- `TypedIterable::set_raw_name` (rr_iterator.rs): validate the new
uncompressed name, decompress the packet first when needed, resize the
record and overwrite the owner name. -/
def set_raw_name (st : CursorState) (name : List Nat) :
    Option (Except DSError CursorState) :=
  match check_uncompressed_name name 0 with
  | .error e => some (.error e)
  | .ok newNameLen =>
  let name := name.take newNameLen
  match ((if st.maybe_compressed then
            match st.offset with
            | none => some (.error DSError.voidRecord)
            | some refOffset => uncompress_at st refOffset
          else some (.ok st)) : Option (Except DSError CursorState)) with
  | none => none
  | some (.error e) => some (.error e)
  | some (.ok st) =>
  match st.offset with
  | none => some (.error .voidRecord)
  | some offset =>
  if offset ≤ st.name_end ∧ st.name_end ≤ st.packet.length then
    match Compress.raw_name_len
        ((st.packet.drop offset).take (st.name_end - offset)) with
    | none => none
    | some currentNameLen =>
      let shift := (newNameLen : Int) - (currentNameLen : Int)
      match st.resize_rr shift with
      | none => none
      | some (.error e) => some (.error e)
      | some (.ok st) =>
        if offset + newNameLen ≤ st.packet.length then
          let st := { st with packet := spliceAt st.packet offset name }
          match recompute_rr st with
          | none => none
          | some st => some (.ok st)
        else
          none
  else
    none

/-- Advance step shared by `ResponseIterator::next_including_opt`
(response_iterator.rs) once `rrs_left`/`offset_next` are initialized. -/
def advance (st : CursorState) : Option (Option CursorState) :=
  if st.rrs_left = 0 then
    some none
  else
    match RRIterator.skip_name st.packet st.offset_next with
    | none => none
    | some nameEnd =>
      match RRIterator.skip_rdata st.packet nameEnd with
      | none => none
      | some offsetNext1 =>
        some (some { st with
          rrs_left := st.rrs_left - 1
          offset := some st.offset_next
          name_end := nameEnd
          offset_next := offsetNext1 })

/-- `ResponseIterator::next_including_opt` (response_iterator.rs): when the
cursor has no current offset (not started, or a tombstone), re-initialize
`rrs_left` and `offset_next` from the section count and cached offset, then
advance to the next record. -/
def next_including_opt (st : CursorState) : Option (Option CursorState) :=
  if st.offset.isNone then
    match (match st.sec with
           | Section.answer => some (ancount st.packet, st.offset_answers)
           | Section.nameServers => some (nscount st.packet, st.offset_nameservers)
           | Section.additional => some (arcount st.packet, st.offset_additional)
           | _ => none) with
    | none => none
    | some (count, off) =>
      if count = 0 then
        some none
      else
        match off with
        | none => none
        | some o => advance { st with rrs_left := count, offset_next := o }
  else
    advance st

/-- `ResponseIterator::maybe_skip_opt_section` on a cursor. -/
def maybe_skip_opt (st : CursorState) : Option (Option CursorState) :=
  match rr_type_at st.packet st.name_end with
  | none => none
  | some t =>
    if t = 41 then
      if st.rrs_left = 0 then
        some none
      else
        match RRIterator.skip_name st.packet st.offset_next with
        | none => none
        | some nameEnd =>
          match RRIterator.skip_rdata st.packet nameEnd with
          | none => none
          | some offsetNext1 =>
            some (some { st with
              offset := some st.offset_next
              name_end := nameEnd
              offset_next := offsetNext1 })
    else
      some (some st)

/-- `ResponseIterator::next` = `next_including_opt` then OPT skipping. -/
def next (st : CursorState) : Option (Option CursorState) :=
  match next_including_opt st with
  | none => none
  | some none => some none
  | some (some st) => maybe_skip_opt st

end CursorState

namespace ParsedPacket

/-- `ParsedPacket::flags` (parsed_packet.rs): the 16 on-wire flags with the
opcode and rcode bits masked off, with the EDNS extended flags as the
highest 16 bits. The u16 mask constants are `!0x7800 = 0x87ff` and
`!0x000f = 0xfff0`. -/
def flags (pp : ParsedPacket) : Nat :=
  let rflags := readU16 pp.packet 2
  let rflags := rflags &&& 0x87ff
  let rflags := rflags &&& 0xfff0
  (pp.ext_flags.getD 0) <<< 16 ||| rflags

/-- `ParsedPacket::set_flags` (parsed_packet.rs): mask the opcode and rcode
bits of the 16 low bits of the argument, clear those bits of the stored
flags word as well (`v &= !0x7800; v &= !0x000f`), and or the two. -/
def set_flags (pp : ParsedPacket) (fl : Nat) : ParsedPacket :=
  let rflags := fl &&& 0xffff
  let rflags := rflags &&& 0x87ff
  let rflags := rflags &&& 0xfff0
  let v := readU16 pp.packet 2
  let v := v &&& 0x87ff
  let v := v &&& 0xfff0
  let v := v ||| rflags
  { pp with packet := writeU16 pp.packet 2 v }

/-- `ParsedPacket::rcode` (parsed_packet.rs): low 4 bits of the second flags
byte. -/
def rcode (pp : ParsedPacket) : Nat :=
  readU8 pp.packet 3 &&& 0x0f

/-- `ParsedPacket::opcode` (parsed_packet.rs): bits 3..6 of the first flags
byte. -/
def opcode (pp : ParsedPacket) : Nat :=
  (readU8 pp.packet 2 &&& 0x78) >>> 3

end ParsedPacket

namespace gen

/-- Character loop of `copy_raw_name_from_str` (synth/gen.rs), matching the
Rust `match` arm by arm (`.` = byte 46). Returns the final `label_len`,
`label_start` and output vector. -/
def copy_raw_name_loop (name : List Nat) :
    Nat → Nat → Nat → Nat → List Nat → Except DSError (Nat × Nat × List Nat)
  | 0, _, _, _, _ => .error (.internalError "loop limit exceeded")
  | fuel + 1, i, labelLen, labelStart, rawName =>
    if i < name.length then
      let c := name.getD i 0
      if c = 46 ∧ labelLen = 0 then
        if name.length ≠ 1 then
          .error (.invalidName "Spurious dot in a label")
        else
          copy_raw_name_loop name fuel (i + 1) labelLen labelStart rawName
      else if c = 46 then
        copy_raw_name_loop name fuel (i + 1) 0 labelStart
          (rawName ++ [labelLen] ++ (name.drop labelStart).take (i - labelStart))
      else if labelLen ≥ 63 - 1 then
        .error (.invalidName "Label too long")
      else if c > 128 then
        .error (.invalidName "Non-ASCII character in a label")
      else if labelLen = 0 then
        copy_raw_name_loop name fuel (i + 1) (labelLen + 1) i rawName
      else
        copy_raw_name_loop name fuel (i + 1) (labelLen + 1) labelStart rawName
    else
      .ok (labelLen, labelStart, rawName)

/-- `copy_raw_name_from_str` (synth/gen.rs): convert a presentation-form
name into raw wire form appended to `rawName`, with an optional raw default
zone appended to names without a terminal dot. -/
def copy_raw_name_from_str (rawName name : List Nat)
    (rawZone : Option (List Nat)) : Except DSError (List Nat) :=
  if name.length > 253 then
    .error (.invalidName "Name too long")
  else
    match copy_raw_name_loop name (name.length + 1) 0 0 0 rawName with
    | .error e => .error e
    | .ok (labelLen, labelStart, rawName) =>
      let rawName :=
        if labelLen = 0 then
          rawName ++ [0]
        else
          rawName ++ [labelLen] ++ name.drop labelStart ++
            (match rawZone with
             | none => [0]
             | some z => z)
      if rawName.length > 253 then
        .error (.invalidName "Name too long")
      else
        .ok rawName

/-- `raw_name_from_str` (synth/gen.rs). -/
def raw_name_from_str (name : List Nat) (rawZone : Option (List Nat)) :
    Except DSError (List Nat) :=
  copy_raw_name_from_str [] name rawZone

end gen

/-! Concrete fixtures used by the claim theorems, witnesses and
counterexamples. -/

/-- A non-response (QR = 0) with `arcount = 1` — a query carrying an EDNS
OPT record (type 41, UDP payload 512, empty rdata). -/
def c3_packet : List Nat :=
  [0, 0, 0, 0, 0, 1, 0, 0, 0, 0, 0, 1,
   0, 0, 1, 0, 1,
   0, 0, 41, 2, 0, 0, 0, 0, 0, 0, 0]

/-- A parsed packet whose header has opcode 1 and rcode 5
(flags bytes `0x08 0x05`). -/
def c6_pp : ParsedPacket :=
  { packet := [0, 0, 0x08, 0x05, 0, 1, 0, 0, 0, 0, 0, 0]
    offset_question := some 12
    offset_answers := none
    offset_nameservers := none
    offset_additional := none
    offset_edns := none
    edns_count := 0
    ext_rcode := none
    edns_version := none
    ext_flags := none
    maybe_compressed := false
    max_payload := 512
    cached := none }

/-- A live cursor on the single question record of a 17-byte query
(the root-name query accepted by the Validator). -/
def c7_state : CursorState :=
  { packet := [0, 0, 0, 0, 0, 1, 0, 0, 0, 0, 0, 0, 0, 0, 0, 0, 1]
    sec := Section.question
    offset := some 12
    offset_next := 17
    name_end := 13
    rrs_left := 0
    offset_question := some 12
    offset_answers := none
    offset_nameservers := none
    offset_additional := none
    offset_edns := none
    edns_count := 0
    ext_rcode := none
    edns_version := none
    ext_flags := none
    maybe_compressed := false
    max_payload := 512
    cached := none }

/-- A response with one root-name question and two A answers
(offsets: question 12..17, answer 1 at 17..32, answer 2 at 32..47). -/
def c9_packet : List Nat :=
  [0, 0, 0x81, 0x80, 0, 1, 0, 2, 0, 0, 0, 0,
   0, 0, 1, 0, 1,
   0, 0, 1, 0, 1, 0, 0, 0, 0, 0, 4, 1, 2, 3, 4,
   0, 0, 1, 0, 1, 0, 0, 0, 0, 0, 4, 5, 6, 7, 8]

/-- A live answer-section cursor positioned on the second (last) answer of
`c9_packet`. -/
def c9_state : CursorState :=
  { packet := c9_packet
    sec := Section.answer
    offset := some 32
    offset_next := 47
    name_end := 33
    rrs_left := 0
    offset_question := some 12
    offset_answers := some 17
    offset_nameservers := none
    offset_additional := none
    offset_edns := none
    edns_count := 0
    ext_rcode := none
    edns_version := none
    ext_flags := none
    maybe_compressed := false
    max_payload := 512
    cached := none }

/-- An uncompressed response: question `aaa. A IN`, three A answers with
owner names `aaa.`, `xyz.`, `xyz.`. Parse-accepted, and a fixed point of
`uncompress`. -/
def c2_packet : List Nat :=
  [0, 0, 0x81, 0x80, 0, 1, 0, 3, 0, 0, 0, 0,
   3, 97, 97, 97, 0, 0, 1, 0, 1,
   3, 97, 97, 97, 0, 0, 1, 0, 1, 0, 0, 0, 0, 0, 4, 1, 2, 3, 4,
   3, 120, 121, 122, 0, 0, 1, 0, 1, 0, 0, 0, 0, 0, 4, 1, 2, 3, 4,
   3, 120, 121, 122, 0, 0, 1, 0, 1, 0, 0, 0, 0, 0, 4, 1, 2, 3, 4]

/-- What `compress` produces on `c2_packet`: the answer-1 owner name becomes
a pointer to offset 12 (correct: nothing before it moved), but the answer-3
owner name becomes a pointer to offset 40 — the offset of `xyz.` in the
*input* packet — while in this output `xyz.` starts at offset 37. Byte 40 of
this output is `122`, not a label length. -/
def c2_compressed : List Nat :=
  [0, 0, 0x81, 0x80, 0, 1, 0, 3, 0, 0, 0, 0,
   3, 97, 97, 97, 0, 0, 1, 0, 1,
   0xc0, 12, 0, 1, 0, 1, 0, 0, 0, 0, 0, 4, 1, 2, 3, 4,
   3, 120, 121, 122, 0, 0, 1, 0, 1, 0, 0, 0, 0, 0, 4, 1, 2, 3, 4,
   0xc0, 40, 0, 1, 0, 1, 0, 0, 0, 0, 0, 4, 1, 2, 3, 4]

/-- Record count of a section, as `rrcount_dec` selects it. -/
def section_count (s : Section) (packet : List Nat) : Nat :=
  match s with
  | Section.question => qdcount packet
  | Section.answer => ancount packet
  | Section.nameServers => nscount packet
  | Section.additional => arcount packet
  | Section.edns => 0

/-- The tombstone `delete()` leaves behind on `c9_state`: the second answer's
15 bytes are gone, `ancount` is 1, `offset` is cleared and `offset_next` is
the deleted record's former offset 32. -/
def c9_tombstone : CursorState :=
  { packet := [0, 0, 0x81, 0x80, 0, 1, 0, 1, 0, 0, 0, 0,
               0, 0, 1, 0, 1,
               0, 0, 1, 0, 1, 0, 0, 0, 0, 0, 4, 1, 2, 3, 4]
    sec := Section.answer
    offset := none
    offset_next := 32
    name_end := 33
    rrs_left := 0
    offset_question := some 12
    offset_answers := some 17
    offset_nameservers := none
    offset_additional := none
    offset_edns := none
    edns_count := 0
    ext_rcode := none
    edns_version := none
    ext_flags := none
    maybe_compressed := false
    max_payload := 512
    cached := none }

/-- Well-formed uncompressed (pointer-free) encoded DNS name: a sequence of
labels, each a length byte between 1 and 0x3f followed by that many content
bytes, terminated by a zero length byte. This is the grammar of the names
that `Compress::copy_uncompressed_name` emits. -/
inductive RawName : List Nat → Prop where
  | root : RawName [0]
  | label (len : Nat) (lab rest : List Nat) :
      0 < len → len ≤ 0x3f → lab.length = len → RawName rest →
      RawName (len :: lab ++ rest)

/-- One emitted resource record of an uncompressed packet: owner name,
10-byte fixed header (type, class, ttl, rdlen), rdata. -/
structure RecSeg where
  name : List Nat
  header : List Nat
  rdata : List Nat
deriving Repr, DecidableEq

/-- Wire encoding of one record. -/
def RecSeg.encode (r : RecSeg) : List Nat := r.name ++ (r.header ++ r.rdata)

/-- Wire encoding of a run of records. -/
def encodeRecs : List RecSeg → List Nat
  | [] => []
  | r :: rs => r.encode ++ encodeRecs rs

/-- The number of OPT (type 41) records in a run. -/
def countOpts (rs : List RecSeg) : Nat :=
  (rs.filter fun r => readU16 r.header 0 == 41).length

/-- The rdata of an OPT record tiles into EDNS options: `parse_opt`'s
while-loop succeeds on any state whose EDNS window holds exactly these
bytes and lands at the end of the window. -/
def EdnsWindowOk (R : List Nat) : Prop :=
  ∀ (s : DSState) (b fuel : Nat),
    s.offset = b → s.edns_end = some (b + R.length) →
    (s.packet.drop b).take R.length = R →
    R.length < fuel →
    ∃ c, DSState.edns_loop s fuel =
      .ok { s with offset := b + R.length, edns_count := c }

/-- Shape of the rdata of an uncompressed record of type `t` with stored
rdlen field `rdlen`, as produced by `Compress::uncompress_rdata` from a
record that `DNSSector::parse` accepted: name-bearing types hold
uncompressed names and the rdlen always matches the rdata length. -/
def GoodRdata (t rdlen : Nat) (rdata : List Nat) : Prop :=
  if t = 2 ∨ t = 5 ∨ t = 12 then
    RawName rdata ∧ rdata.length ≤ 255 ∧ rdlen = rdata.length
  else if t = 15 then
    ∃ p2 M, rdata = p2 ++ M ∧ p2.length = 2 ∧ RawName M ∧ M.length ≤ 255 ∧
      rdlen = rdata.length
  else if t = 6 then
    ∃ M1 M2 t20, rdata = M1 ++ (M2 ++ t20) ∧ RawName M1 ∧ M1.length ≤ 255 ∧
      RawName M2 ∧ M2.length ≤ 255 ∧ t20.length = 20 ∧ rdlen = rdata.length
  else if t = 39 then
    RawName rdata ∧ rdata.length ≤ 255 ∧ rdlen = rdata.length
  else if t = 1 then rdlen = rdata.length ∧ rdlen = 4
  else if t = 28 then rdlen = rdata.length ∧ rdlen = 16
  else if t = 41 then rdlen = rdata.length ∧ EdnsWindowOk rdata
  else rdlen = rdata.length

/-- A well-formed uncompressed record. -/
structure GoodRec (r : RecSeg) : Prop where
  hname : RawName r.name
  hnlen : r.name.length ≤ 255
  hhlen : r.header.length = 10
  hrdata : GoodRdata (readU16 r.header 0) (readU16 r.header 8) r.rdata
  hoptname : readU16 r.header 0 = 41 → r.name = [0]

/-- Decomposition of an uncompressed DNS packet into its header, single
question and three record runs. -/
structure PacketShape where
  header12 : List Nat
  qname : List Nat
  qheader : List Nat
  answers : List RecSeg
  nameservers : List RecSeg
  additionals : List RecSeg

/-- Wire encoding of a packet shape. -/
def PacketShape.encode (ps : PacketShape) : List Nat :=
  ps.header12 ++ (ps.qname ++ (ps.qheader ++ (encodeRecs ps.answers ++
    (encodeRecs ps.nameservers ++ encodeRecs ps.additionals))))

/-- Offset of the end of the question section in an encoded shape. -/
def PacketShape.qend (ps : PacketShape) : Nat :=
  12 + ps.qname.length + 4

/-- Offset of the end of the answers section in an encoded shape. -/
def PacketShape.aend (ps : PacketShape) : Nat :=
  ps.qend + (encodeRecs ps.answers).length

/-- Offset of the end of the nameservers section in an encoded shape. -/
def PacketShape.nend (ps : PacketShape) : Nat :=
  ps.aend + (encodeRecs ps.nameservers).length

/-- A well-formed uncompressed packet shape: what `Compress::uncompress`
emits from a parse-accepted packet, and a fixed point of a further
uncompression pass. -/
structure GoodShape (ps : PacketShape) : Prop where
  hlen : ps.header12.length = 12
  hbytes : ∀ b ∈ ps.encode, b < 256
  hqd : readU16 ps.header12 4 = 1
  han : readU16 ps.header12 6 = ps.answers.length
  hns : readU16 ps.header12 8 = ps.nameservers.length
  har : readU16 ps.header12 10 = ps.additionals.length
  hresp : ¬ (readU16 ps.header12 2 &&& 0x8000 = 0x8000) →
    ps.answers = [] ∧ ps.nameservers = []
  hqname : RawName ps.qname
  hqlen : ps.qname.length ≤ 255
  hqh : ps.qheader.length = 4
  hqclass : readU16 ps.qheader 2 = 1
  hans : ∀ r ∈ ps.answers, GoodRec r ∧ readU16 r.header 0 ≠ 41
  hnss : ∀ r ∈ ps.nameservers, GoodRec r ∧ readU16 r.header 0 ≠ 41
  hadd : ∀ r ∈ ps.additionals, GoodRec r
  hopt : countOpts ps.additionals ≤ 1

/-! Helper lemmas. -/

/-- Bytes read through `getD` from a byte-bounded packet are below 256. -/
theorem getD_lt_256 (packet : List Nat) (hb : ∀ b ∈ packet, b < 256)
    (i : Nat) : packet.getD i 0 < 256 := by
  rcases Nat.lt_or_ge i packet.length with h | h
  · rw [List.getD_eq_getElem?_getD, List.getElem?_eq_getElem h]
    exact hb _ (List.getElem_mem h)
  · rw [List.getD_eq_getElem?_getD, List.getElem?_eq_none h]
    simp

/-- Bitwise or of a shifted value and a small value is their sum. -/
theorem mul_two_pow_lor_eq_add :
    ∀ (k a b : Nat), b < 2 ^ k → (a * 2 ^ k) ||| b = a * 2 ^ k + b := by
  intro k
  induction k with
  | zero =>
    intro a b hb
    interval_cases b
    simp
  | succ k ih =>
    intro a b hb
    have hdiv : (a * 2 ^ (k + 1)) / 2 = a * 2 ^ k := by
      rw [Nat.pow_succ, ← Nat.mul_assoc]
      exact Nat.mul_div_cancel _ (by omega)
    have hmod : (a * 2 ^ (k + 1)) % 2 = 0 := by
      rw [Nat.pow_succ, ← Nat.mul_assoc]
      exact Nat.mul_mod_left _ 2
    have hb2 : b / 2 < 2 ^ k := by
      rw [Nat.pow_succ] at hb
      omega
    have key : (a * 2 ^ (k + 1)) ||| b =
        2 * ((a * 2 ^ (k + 1)) / 2 ||| b / 2) + ((a * 2 ^ (k + 1)) ||| b) % 2 := by
      rw [← Nat.or_div_two]
      exact (Nat.div_add_mod _ 2).symm
    have hormod : ((a * 2 ^ (k + 1)) ||| b) % 2 = b % 2 := by
      rcases Nat.mod_two_eq_zero_or_one ((a * 2 ^ (k + 1)) ||| b) with h | h
      · rcases Nat.mod_two_eq_zero_or_one b with h2 | h2
        · omega
        · have h3 : (a * 2 ^ (k + 1) ||| b) % 2 = 1 :=
            Nat.or_mod_two_eq_one.mpr (Or.inr h2)
          omega
      · have := Nat.or_mod_two_eq_one.mp h
        rcases this with h2 | h2
        · omega
        · omega
    rw [key, hdiv, hormod, ih a (b / 2) hb2]
    have := Nat.div_add_mod b 2
    rw [Nat.pow_succ]
    ring_nf
    omega

/-- The two ways the check and copy loops compute a pointer target agree:
`((b0 & 0x3f) << 8) | b1` equals `(read_u16 & 0x3fff)` for bytes. -/
theorem pointer_target_eq (b0 b1 : Nat) (h1 : b1 < 256) :
    ((b0 &&& 0x3f) <<< 8) ||| b1 = (256 * b0 + b1) &&& 0x3fff := by
  have e1 : b0 &&& 0x3f = b0 % 64 := by
    have : (0x3f : Nat) = 2 ^ 6 - 1 := by norm_num
    rw [this, Nat.and_pow_two_sub_one_eq_mod]
  have e2 : (256 * b0 + b1) &&& 0x3fff = (256 * b0 + b1) % 16384 := by
    have : (0x3fff : Nat) = 2 ^ 14 - 1 := by norm_num
    rw [this, Nat.and_pow_two_sub_one_eq_mod]
  have e3 : (b0 % 64) <<< 8 = (b0 % 64) * 2 ^ 8 := Nat.shiftLeft_eq _ _
  have e4 : (b0 % 64) * 2 ^ 8 ||| b1 = (b0 % 64) * 2 ^ 8 + b1 :=
    mul_two_pow_lor_eq_add 8 _ b1 (by omega)
  rw [e1, e2, e3, e4]
  omega

/-- C10: a buffer of at least 12 bytes whose qdcount field is zero is
rejected by the Validator with `InvalidPacket`, regardless of the QR bit. -/
theorem C10_qdcount_zero_rejected (packet : List Nat)
    (hlen : 12 ≤ packet.length) (hqd : qdcount packet = 0) :
    parse packet =
      .error (.invalidPacket "A DNS packet should contain a question") := by
  unfold parse DNS_HEADER_SIZE
  rw [if_neg (by omega)]
  simp [hqd]

/-- Witness for C10 at the all-zero 12-byte header. -/
theorem C10_witness :
    12 ≤ (List.replicate 12 0).length ∧
      parse (List.replicate 12 0) =
        .error (.invalidPacket "A DNS packet should contain a question") :=
  ⟨by decide, C10_qdcount_zero_rejected (List.replicate 12 0) (by decide) (by decide)⟩

/-- C3 is false as stated: `c3_packet` has QR = 0 and `arcount = 1`, yet
`parse` accepts it (its additional record is an EDNS OPT record, which a
query is allowed to carry). -/
theorem C3_counterexample :
    is_response c3_packet = false ∧ arcount c3_packet = 1 ∧
      (parse c3_packet).isOk = true := by
  refine ⟨rfl, rfl, ?_⟩
  rfl

/-- C3 as amended: for a non-response, a positive `ancount` or `nscount`
makes the Validator reject the packet (with the `InvalidPacket` errors
"A question shouldn\x27t also contain answers" / "... name servers" when the
header and question section are otherwise well-formed, and with that earlier
error otherwise); `arcount` is exempt. -/
theorem C3_amended (packet : List Nat) (hq : is_response packet = false)
    (h : 0 < ancount packet ∨ 0 < nscount packet) :
    (parse packet).isOk = false := by
  simp only [parse]
  split
  · rfl
  split
  · rfl
  split
  · rfl
  split
  · rfl
  split
  · rfl
  split
  · rfl
  rename_i hno
  have han : ancount packet = 0 := by
    rcases Nat.eq_zero_or_pos (ancount packet) with h0 | h0
    · exact h0
    · exact absurd ⟨hq, h0⟩ hno
  have hns : 0 < nscount packet := by
    rcases h with h1 | h1
    · omega
    · exact h1
  rw [han]
  simp only [DSState.parse_rrs]
  rw [if_pos ⟨hq, hns⟩]
  rfl

/-- Witness for the amended C3 on a concrete query with `ancount = 1`. -/
theorem C3_witness :
    (parse [0, 0, 0, 0, 0, 1, 0, 1, 0, 0, 0, 0]).isOk = false :=
  C3_amended [0, 0, 0, 0, 0, 1, 0, 1, 0, 0, 0, 0] (by decide) (Or.inl (by decide))

/-- Any successful run of the check loop ends with a `name_len` accumulator
that passed the ≤ 255 test. -/
theorem check_loop_name_len_le (packet : List Nat) :
    ∀ fuel offset barrier lowest nameLen finalOff refs fo nl,
      Compress.check_loop packet fuel offset barrier lowest nameLen finalOff
          refs = some (.ok (fo, nl)) →
        nl ≤ DNS_MAX_HOSTNAME_LEN := by
  intro fuel
  induction fuel with
  | zero =>
    intro offset barrier lowest nameLen finalOff refs fo nl h
    simp [Compress.check_loop] at h
  | succ fuel ih =>
    intro offset barrier lowest nameLen finalOff refs fo nl h
    rw [Compress.check_loop] at h
    dsimp only at h
    split at h
    · split at h <;> simp at h
    · split at h
      · split at h
        · simp at h
        · split at h
          · simp at h
          · split at h
            · simp at h
            · exact ih _ _ _ _ _ _ _ _ h
      · split at h
        · simp at h
        · split at h
          · simp at h
          · split at h
            · simp at h
            · rename_i hmax
              split at h
              · simp only [Option.some.injEq, Except.ok.injEq,
                  Prod.mk.injEq] at h
                omega
              · exact ih _ _ _ _ _ _ _ _ h

/-- C4: `check_compressed_name` only accepts names whose total length — the
sum of label bytes plus one per label, including the terminal zero — is at
most 255 (`DNS_MAX_HOSTNAME_LEN`); longer names are rejected (the length
test inside the walk bails with `InvalidName "Name too long"`). By theorem
`C1_checked_names_copy_safely`, this accumulator is exactly the byte length
of the name that `copy_uncompressed_name` extracts, so no name extracted
from a validated packet exceeds 255 bytes including label length prefixes
and the terminal zero. -/
theorem C4_checked_name_len_le_255 (packet : List Nat) (offset fo nl : Nat)
    (h : Compress.check_compressed_name_full packet offset = .ok (fo, nl)) :
    nl ≤ 255 := by
  unfold Compress.check_compressed_name_full at h
  split at h
  · simp at h
  · split at h
    · simp at h
    · split at h
      · simp at h
      · rename_i r heq
        rw [h] at heq
        have hle := check_loop_name_len_le packet _ _ _ _ _ _ _ _ _ heq
        simpa [DNS_MAX_HOSTNAME_LEN] using hle

/-- Witness for C4 at the root name `[0]`. -/
theorem C4_witness :
    Compress.check_compressed_name_full [0] 0 = .ok (1, 1) ∧ (1 : Nat) ≤ 255 :=
  ⟨by rfl, C4_checked_name_len_le_255 [0] 0 1 1 (by rfl)⟩

/-- Lockstep correspondence between the check and copy loops: whenever the
validating walk of `check_compressed_name` accepts a name, the trusting walk
of `copy_uncompressed_name` with the same fuel follows the same path, every
pointer it follows satisfies `new_offset < offset` (so its `assert!` holds),
and it ends with the same `name_len` and `final_offset`, appending exactly
`name_len - nameLen` bytes. -/
theorem check_loop_copy_loop (packet : List Nat)
    (hb : ∀ b ∈ packet, b < 256) :
    ∀ fuel offset barrier lowest nameLen finalOff refs fo nl name,
      lowest ≤ offset → barrier ≤ packet.length →
      Compress.check_loop packet fuel offset barrier lowest nameLen finalOff
          refs = some (.ok (fo, nl)) →
      ∃ extra,
        Compress.copy_loop packet fuel name offset nameLen finalOff =
            some ⟨name ++ extra, nl, fo⟩ ∧
          nameLen + extra.length = nl := by
  intro fuel
  induction fuel with
  | zero =>
    intro offset barrier lowest nameLen finalOff refs fo nl name hlow hblen h
    simp [Compress.check_loop] at h
  | succ fuel ih =>
    intro offset barrier lowest nameLen finalOff refs fo nl name hlow hblen h
    rw [Compress.check_loop] at h
    dsimp only at h
    split at h
    · split at h <;> simp at h
    · rename_i hbar
      rw [Compress.copy_loop]
      dsimp only
      have hoff_lt : offset < packet.length := by omega
      rw [if_pos hoff_lt]
      split at h
      · rename_i htag
        rw [if_pos htag]
        split at h
        · simp at h
        · split at h
          · simp at h
          · rename_i hrefs hlen2
            split at h
            · simp at h
            · rename_i hfwd
              push_neg at hfwd
              obtain ⟨hne, hlt⟩ := hfwd
              have h1 : offset + 1 < packet.length := by omega
              rw [if_pos h1]
              have heq : readU16 packet offset &&& 0x3fff =
                  ((readU8 packet offset &&& 0x3f) <<< 8) |||
                    readU8 packet (offset + 1) :=
                (pointer_target_eq (readU8 packet offset)
                  (readU8 packet (offset + 1))
                  (getD_lt_256 packet hb (offset + 1))).symm
              rw [heq]
              rw [if_pos (by omega)]
              exact ih _ _ _ _ _ _ _ _ name (Nat.le_refl _) (by omega) h
      · rename_i htag
        rw [if_neg htag]
        split at h
        · simp at h
        · rename_i hgt
          split at h
          · simp at h
          · rename_i hoob
            split at h
            · simp at h
            · rename_i hmax
              have hfit : offset + (1 + readU8 packet offset) ≤
                  packet.length := by omega
              rw [if_pos hfit]
              have hchunk :
                  ((packet.drop offset).take (1 + readU8 packet offset)).length
                    = 1 + readU8 packet offset := by
                simp only [List.length_take, List.length_drop]
                omega
              split at h
              · rename_i hz
                simp only [Option.some.injEq, Except.ok.injEq,
                  Prod.mk.injEq] at h
                obtain ⟨hfo, hnl⟩ := h
                rw [if_pos hz]
                refine ⟨(packet.drop offset).take (1 + readU8 packet offset),
                  ?_, by omega⟩
                simp only [hz, ← hfo, ← hnl]
              · rename_i hz
                rw [if_neg hz]
                have harith1 : offset + (1 + readU8 packet offset) =
                    offset + readU8 packet offset + 1 := by omega
                have harith2 : nameLen + (1 + readU8 packet offset) =
                    nameLen + readU8 packet offset + 1 := by omega
                rw [harith1, harith2]
                obtain ⟨extra2, hcopy, hlen⟩ :=
                  ih _ _ _ _ _ _ _ _
                    (name ++ (packet.drop offset).take (1 + readU8 packet offset))
                    (by omega) hblen h
                refine ⟨(packet.drop offset).take (1 + readU8 packet offset)
                  ++ extra2, ?_, by simp only [List.length_append]; omega⟩
                rw [← List.append_assoc]
                exact hcopy

/-- C1: on any name accepted by the Validator's `check_compressed_name` —
whose walk by construction only accepts compression pointers that land
strictly below the smallest offset seen since the previous pointer and
follows at most 16 of them (`DNS_MAX_HOSTNAME_INDIRECTIONS`) — the
trusting `copy_uncompressed_name` terminates without ever failing its
`assert!(new_offset < offset)`: it returns a result (`some`, where `none`
models both a panic and a diverging loop cut by fuel) whose `final_offset`
is the checker's and whose `name_len` is the checker's total name length.
`DNSSector::parse` validates every name it later walks with this very
check, so the assertion can never fire on a validated packet. -/
theorem C1_checked_names_copy_safely (packet : List Nat)
    (hb : ∀ b ∈ packet, b < 256) (offset fo nl : Nat)
    (h : Compress.check_compressed_name_full packet offset = .ok (fo, nl)) :
    ∃ nm, Compress.copy_uncompressed_name [] packet offset =
        some ⟨nm, nl, fo⟩ ∧ nm.length = nl := by
  unfold Compress.check_compressed_name_full at h
  split at h
  · simp at h
  · split at h
    · simp at h
    · split at h
      · simp at h
      · rename_i r heq
        rw [h] at heq
        obtain ⟨extra, hcopy, hlen⟩ :=
          check_loop_copy_loop packet hb _ offset packet.length offset 0 none
            DNS_MAX_HOSTNAME_INDIRECTIONS fo nl [] (Nat.le_refl _)
            (Nat.le_refl _) heq
        rw [List.nil_append] at hcopy
        exact ⟨extra, hcopy, by omega⟩

/-- Witness for C1 on a compressed name `aaa.` reached through one backward
pointer. -/
theorem C1_witness :
    Compress.check_compressed_name_full [3, 97, 97, 97, 0, 0xc0, 0] 5 =
        .ok (7, 5) ∧
      ∃ nm, Compress.copy_uncompressed_name [] [3, 97, 97, 97, 0, 0xc0, 0] 5 =
          some ⟨nm, 5, 7⟩ ∧ nm.length = 5 :=
  ⟨by rfl, C1_checked_names_copy_safely [3, 97, 97, 97, 0, 0xc0, 0]
    (by decide) 5 7 5 (by rfl)⟩

set_option maxRecDepth 100000

/-- C6: evaluating the flag accessors at a packet with opcode 1 and rcode 5.
The first half of the claim holds — `flags()` masks the opcode (0x7800) and
rcode (0x000f) bits to zero — but the second half fails: `set_flags`
*clears* the packet's opcode and rcode to zero instead of leaving them
unchanged, because it masks those bits out of the stored flags word
(`v &= !0x7800; v &= !0x000f`) and the masked argument cannot restore them. -/
theorem C6_set_flags_clobbers_opcode_rcode :
    c6_pp.flags &&& 0x7800 = 0 ∧ c6_pp.flags &&& 0x000f = 0 ∧
      c6_pp.opcode = 1 ∧ c6_pp.rcode = 5 ∧
      (c6_pp.set_flags 0).opcode = 0 ∧ (c6_pp.set_flags 0).rcode = 0 := by
  refine ⟨rfl, rfl, rfl, rfl, rfl, rfl⟩

/-- C8: evaluating `raw_name_from_str` at the failing inputs. A label of
exactly 63 ASCII bytes — legal per the claim, the spec and the repo's own
wire-format validator (`check_compressed_name` accepts label lengths up to
`0x3f` = 63) — is rejected with `InvalidName "Label too long"` because the
guard reads `label_len >= 63 - 1`; a 62-byte label is accepted. The
non-ASCII boundary is also off by one: byte 128 is accepted (the guard is
`c > 128`), while byte 129 is rejected. -/
theorem C8_label_63_rejected :
    gen.raw_name_from_str (List.replicate 63 97) none =
        .error (.invalidName "Label too long") ∧
      gen.raw_name_from_str (List.replicate 62 97) none =
        .ok (62 :: (List.replicate 62 97 ++ [0])) ∧
      gen.raw_name_from_str [128] none = .ok [1, 128, 0] ∧
      gen.raw_name_from_str [129] none =
        .error (.invalidName "Non-ASCII character in a label") := by
  refine ⟨rfl, rfl, rfl, rfl⟩

/-- C2: evaluating the compression round trip at `c2_packet`. `uncompress`
is the identity on it, `compress` emits `c2_compressed` — whose last owner
name is a pointer to offset 40, the offset the shared suffix `xyz.` had in
the *input* packet rather than in the compressed output (the suffix
dictionary records input-packet offsets) — and uncompressing that output
fails, because byte 40 of the output is the label content byte `122`. So
`uncompress (compress (uncompress p))` is an error while `uncompress p`
succeeds, and the round-trip equation of the claim fails. -/
theorem C2_roundtrip_fails :
    Compress.uncompress c2_packet = some (.ok c2_packet) ∧
      Compress.compress c2_packet = some (.ok c2_compressed) ∧
      Compress.uncompress c2_compressed =
        some (.error (.invalidName "Label length too long")) := by
  refine ⟨rfl, rfl, rfl⟩

/-- C7 counterexample: growing the 17-byte packet of `c7_state` by 20000
bytes takes it far beyond 8192, yet `resize_rr` succeeds — the claim says
this must fail with `PacketTooLarge`. -/
theorem C7_counterexample :
    (c7_state.resize_rr 20000).map Except.isOk = some true ∧
      8192 < c7_state.packet.length + 20000 := by
  exact ⟨rfl, by decide⟩

/-- The offset fix-up tail of `resize_rr` never produces `PacketTooLarge`
(its only error is `current_section`'s `InternalError`). -/
theorem resize_finish_not_too_large (st : CursorState) (shift : Int) :
    CursorState.resize_finish st shift ≠ some (.error .packetTooLarge) := by
  unfold CursorState.resize_finish
  dsimp only
  split
  · rename_i e heq
    unfold CursorState.current_section at heq
    split at heq
    · injection heq with he
      subst he
      simp
    · simp at heq
  · simp

/-- C7 as amended: on a live cursor, `resize_rr` fails with `PacketTooLarge`
exactly when the grown buffer would exceed 65535 (`0xffff`) bytes — not
8192; a resize that keeps the buffer at or below 65535 bytes never fails
with `PacketTooLarge` (8192, `DNS_MAX_UNCOMPRESSED_SIZE`, is the bound
`insert_rr` enforces, not `resize_rr`). -/
theorem C7_resize_packetTooLarge_iff (st : CursorState) (o : Nat)
    (h : st.offset = some o) (shift : Int) :
    st.resize_rr shift = some (.error .packetTooLarge) ↔
      0 < shift ∧ 65535 < (st.packet.length : Int) + shift := by
  unfold CursorState.resize_rr
  rw [h]
  split
  · rename_i h0
    simp [h0]
  · rename_i h0
    dsimp only
    split
    · rename_i hpos
      split
      · rename_i hbig
        simp only [true_iff]
        exact ⟨hpos, by omega⟩
      · rename_i hsmall
        constructor
        · intro hh
          exact absurd hh (resize_finish_not_too_large _ _)
        · intro hh
          omega
    · rename_i hneg
      split
      · constructor
        · intro hh
          simp at hh
        · intro hh
          omega
      · constructor
        · intro hh
          exact absurd hh (resize_finish_not_too_large _ _)
        · intro hh
          omega

/-- Witness for the amended C7: growing `c7_state` by 70000 bytes would
exceed 65535 and fails with `PacketTooLarge`. -/
theorem C7_witness :
    c7_state.resize_rr 70000 = some (.error .packetTooLarge) :=
  (C7_resize_packetTooLarge_iff c7_state 12 rfl 70000).mpr (by decide)

/-- Prefix-stability of `getD` under append. -/
theorem getD_append_of_lt (l r : List Nat) (i : Nat) (h : i < l.length) :
    (l ++ r).getD i 0 = l.getD i 0 := by
  rw [List.getD_eq_getElem?_getD, List.getD_eq_getElem?_getD,
    List.getElem?_append_left h]

/-- Prefix-stability of `getD` under take. -/
theorem getD_take_of_lt (l : List Nat) (m i : Nat) (h : i < m) :
    (l.take m).getD i 0 = l.getD i 0 := by
  rw [List.getD_eq_getElem?_getD, List.getD_eq_getElem?_getD,
    List.getElem?_take_of_lt h]

/-- `current_section` never classifies a record into the EDNS
pseudo-section. -/
theorem current_section_ne_edns (st : CursorState) (s : Section)
    (h : st.current_section = .ok s) : s ≠ Section.edns := by
  unfold CursorState.current_section at h
  split at h
  · simp at h
  · dsimp only at h
    injection h with h
    subst h
    repeat' split
    all_goals simp

/-- The offset fix-up tail of `resize_rr` succeeds whenever
`current_section` does, and it only changes `offset_next` and the cached
offsets of later sections. -/
theorem resize_finish_ok_facts (st : CursorState) (shift : Int) (s : Section)
    (h3 : st.current_section = .ok s) :
    ∃ st2, st.resize_finish shift = some (.ok st2) ∧
      st2.offset = st.offset ∧
      st2.packet = st.packet ∧
      st2.maybe_compressed = st.maybe_compressed ∧
      st2.offset_next = usizeOfInt ((st.offset_next : Int) + shift) := by
  unfold CursorState.resize_finish
  dsimp only
  rw [show CursorState.current_section
    { st with offset_next := usizeOfInt ((st.offset_next : Int) + shift) } =
      .ok s from h3]
  dsimp only
  refine ⟨_, rfl, ?_, ?_, ?_, ?_⟩ <;> (repeat' split) <;> rfl

/-- `current_section` depends only on the cursor offset and the cached
section offsets. -/
theorem current_section_only_offsets (a b : CursorState)
    (h : a.offset = b.offset) (h1 : a.offset_question = b.offset_question)
    (h2 : a.offset_answers = b.offset_answers)
    (h3 : a.offset_nameservers = b.offset_nameservers)
    (h4 : a.offset_additional = b.offset_additional) :
    a.current_section = b.current_section := by
  unfold CursorState.current_section
  rw [h, h1, h2, h3, h4]

/-- Shrinking a live record by `0 < k ≤ packet length` bytes succeeds and
leaves the cursor offset and the `maybe_compressed` flag untouched. -/
theorem resize_rr_shrink_ok (st : CursorState) (o : Nat) (s : Section)
    (k : Nat) (h2 : st.offset = some o) (h3 : st.current_section = .ok s)
    (hk : 0 < k) (hkl : k ≤ st.packet.length) :
    ∃ st2, st.resize_rr (-(k : Int)) = some (.ok st2) ∧
      st2.offset = some o ∧
      st2.maybe_compressed = st.maybe_compressed ∧
      st2.packet = (copyWithin st.packet (o + k) o
        (st.packet.length - (o + k))).take (st.packet.length - k) ∧
      st2.offset_next = usizeOfInt ((st.offset_next : Int) - k) := by
  unfold CursorState.resize_rr
  rw [if_neg (by omega), h2]
  dsimp only
  rw [if_neg (by omega)]
  have htn : (-(-(k : Int))).toNat = k := by simp
  rw [htn]
  rw [if_neg (by omega)]
  have h3b : CursorState.current_section
      { st with
        offset := some o
        packet := (copyWithin st.packet (o + k) o
          (st.packet.length - (o + k))).take (st.packet.length - k) } =
        .ok s :=
    Eq.trans (current_section_only_offsets _ st h2.symm rfl rfl rfl rfl) h3
  obtain ⟨st2, heq, ho, hp, hmc, hnext⟩ :=
    resize_finish_ok_facts _ (-(k : Int)) s h3b
  refine ⟨st2, heq, ho, hmc, hp, ?_⟩
  rw [hnext, sub_eq_add_neg]

/-- Mutations on a tombstone cursor: `delete`, `set_raw_name` with a valid
name, and `resize_rr` with a nonzero shift all fail with `VoidRecord`, while
`resize_rr 0` returns successfully without doing anything. -/
theorem tombstone_ops (st1 : CursorState) (h : st1.offset = none)
    (hmc : st1.maybe_compressed = false) :
    st1.delete = some (.error .voidRecord) ∧
      st1.set_raw_name [0] = some (.error .voidRecord) ∧
      (∀ sh : Int, sh ≠ 0 → st1.resize_rr sh = some (.error .voidRecord)) ∧
      st1.resize_rr 0 = some (.ok st1) := by
  obtain ⟨pk, sc, off, onext, nend, rrs, oq, oa, ons, oad, oe, ec, er, ev,
    ef, mc, mp, ca⟩ := st1
  dsimp only at h hmc
  subst h
  subst hmc
  refine ⟨rfl, rfl, ?_, rfl⟩
  intro sh hsh
  unfold CursorState.resize_rr
  rw [if_neg hsh]

/-- On a live cursor over an uncompressed packet, `delete()` succeeds and
leaves a cursor with no offset whose `offset_next` is the deleted record's
former offset, still over an uncompressed packet. -/
theorem delete_ok_facts (st : CursorState) (o : Nat) (s : Section)
    (h1 : st.maybe_compressed = false)
    (h2 : st.offset = some o)
    (h3 : st.current_section = .ok s)
    (h4 : o < st.offset_next)
    (h5 : st.offset_next ≤ st.packet.length)
    (h6 : 12 ≤ o)
    (h7 : 0 < section_count s st.packet) :
    ∃ st1, st.delete = some (.ok st1) ∧
      st1.offset = none ∧
      st1.offset_next = o ∧
      st1.maybe_compressed = false := by
  have hsne := current_section_ne_edns st s h3
  obtain ⟨st2, hres, ho2, hmc2, hp2, hnext2⟩ :=
    resize_rr_shrink_ok st o s (st.offset_next - o) h2 h3 (by omega) (by omega)
  have hpre : ∀ i, i < 12 → st2.packet.getD i 0 = st.packet.getD i 0 := by
    intro i hi
    rw [hp2]
    rw [getD_take_of_lt _ _ _
      (show i < st.packet.length - (st.offset_next - o) by omega)]
    unfold copyWithin
    rw [List.append_assoc]
    rw [getD_append_of_lt _ _ _
      (show i < (st.packet.take o).length by rw [List.length_take]; omega)]
    exact getD_take_of_lt _ _ _ (by omega)
  cases s with
  | edns => exact absurd rfl hsne
  | question =>
    have hcount : qdcount st2.packet = qdcount st.packet := by
      simp only [qdcount, readU16]
      rw [hpre 4 (by omega), hpre 5 (by omega)]
    simp only [section_count] at h7
    unfold CursorState.delete
    rw [h2, h3]
    dsimp only
    rw [if_neg (show ¬(st.maybe_compressed = true) by simp [h1])]
    dsimp only
    rw [h2]
    dsimp only
    rw [if_neg (show ¬(st.offset_next - o = 0) by omega)]
    rw [hres]
    dsimp only
    rw [ho2]
    dsimp only
    unfold CursorState.rrcount_dec
    dsimp only
    rw [if_neg (show ¬(qdcount st2.packet = 0) by omega)]
    dsimp only
    split
    · exact ⟨_, rfl, rfl, rfl, hmc2.trans h1⟩
    · exact ⟨_, rfl, rfl, rfl, hmc2.trans h1⟩
  | answer =>
    have hcount : ancount st2.packet = ancount st.packet := by
      simp only [ancount, readU16]
      rw [hpre 6 (by omega), hpre 7 (by omega)]
    simp only [section_count] at h7
    unfold CursorState.delete
    rw [h2, h3]
    dsimp only
    rw [if_neg (show ¬(st.maybe_compressed = true) by simp [h1])]
    dsimp only
    rw [h2]
    dsimp only
    rw [if_neg (show ¬(st.offset_next - o = 0) by omega)]
    rw [hres]
    dsimp only
    rw [ho2]
    dsimp only
    unfold CursorState.rrcount_dec
    dsimp only
    rw [if_neg (show ¬(ancount st2.packet = 0) by omega)]
    dsimp only
    split
    · exact ⟨_, rfl, rfl, rfl, hmc2.trans h1⟩
    · exact ⟨_, rfl, rfl, rfl, hmc2.trans h1⟩
  | nameServers =>
    have hcount : nscount st2.packet = nscount st.packet := by
      simp only [nscount, readU16]
      rw [hpre 8 (by omega), hpre 9 (by omega)]
    simp only [section_count] at h7
    unfold CursorState.delete
    rw [h2, h3]
    dsimp only
    rw [if_neg (show ¬(st.maybe_compressed = true) by simp [h1])]
    dsimp only
    rw [h2]
    dsimp only
    rw [if_neg (show ¬(st.offset_next - o = 0) by omega)]
    rw [hres]
    dsimp only
    rw [ho2]
    dsimp only
    unfold CursorState.rrcount_dec
    dsimp only
    rw [if_neg (show ¬(nscount st2.packet = 0) by omega)]
    dsimp only
    split
    · exact ⟨_, rfl, rfl, rfl, hmc2.trans h1⟩
    · exact ⟨_, rfl, rfl, rfl, hmc2.trans h1⟩
  | additional =>
    have hcount : arcount st2.packet = arcount st.packet := by
      simp only [arcount, readU16]
      rw [hpre 10 (by omega), hpre 11 (by omega)]
    simp only [section_count] at h7
    unfold CursorState.delete
    rw [h2, h3]
    dsimp only
    rw [if_neg (show ¬(st.maybe_compressed = true) by simp [h1])]
    dsimp only
    rw [h2]
    dsimp only
    rw [if_neg (show ¬(st.offset_next - o = 0) by omega)]
    rw [hres]
    dsimp only
    rw [ho2]
    dsimp only
    unfold CursorState.rrcount_dec
    dsimp only
    rw [if_neg (show ¬(arcount st2.packet = 0) by omega)]
    dsimp only
    split
    · exact ⟨_, rfl, rfl, rfl, hmc2.trans h1⟩
    · exact ⟨_, rfl, rfl, rfl, hmc2.trans h1⟩

/-- C9 as amended: on a live cursor over an uncompressed packet (name offset
past the header, record nonempty and inside the packet, section count
positive), `delete()` succeeds and leaves a tombstone whose `offset()` is
absent and whose `offset_next` is the deleted record's former offset; on
that tombstone, `delete`, `set_raw_name` with a well-formed name, and
`resize_rr` with a nonzero shift all fail with `VoidRecord`, while
`resize_rr 0` is a successful no-op. (The original claim's "next() resumes
at the record that followed" does not hold: `next()` on a cursor without an
offset re-initializes from the section's cached start offset — see
`C9_counterexample`.) -/
theorem C9_delete_makes_tombstone (st : CursorState) (o : Nat) (s : Section)
    (h1 : st.maybe_compressed = false)
    (h2 : st.offset = some o)
    (h3 : st.current_section = .ok s)
    (h4 : o < st.offset_next)
    (h5 : st.offset_next ≤ st.packet.length)
    (h6 : 12 ≤ o)
    (h7 : 0 < section_count s st.packet) :
    ∃ st1, st.delete = some (.ok st1) ∧
      st1.offset = none ∧
      st1.offset_next = o ∧
      st1.delete = some (.error .voidRecord) ∧
      st1.set_raw_name [0] = some (.error .voidRecord) ∧
      (∀ sh : Int, sh ≠ 0 → st1.resize_rr sh = some (.error .voidRecord)) ∧
      st1.resize_rr 0 = some (.ok st1) := by
  obtain ⟨st1, hd, hoff, hnext, hmc⟩ :=
    delete_ok_facts st o s h1 h2 h3 h4 h5 h6 h7
  obtain ⟨t1, t2, t3, t4⟩ := tombstone_ops st1 hoff hmc
  exact ⟨st1, hd, hoff, hnext, t1, t2, t3, t4⟩

/-- Counterexample to the original C9 claim that after `delete()` "iteration
continues with the record that followed the deleted one": in `c9_packet`
(a response with two answer records, the second spanning offsets 32..47),
deleting the second answer leaves the tombstone `c9_tombstone` whose
`offset_next` is 32, yet `next()` on that tombstone yields a cursor at
offset 17 — the FIRST answer record, i.e. it restarts from the section's
cached start offset instead of resuming after the deleted record. -/
theorem C9_counterexample :
    c9_state.delete = some (.ok c9_tombstone) ∧
    c9_tombstone.offset = none ∧
    c9_tombstone.offset_next = 32 ∧
    c9_tombstone.offset_answers = some 17 ∧
    c9_tombstone.next.map (Option.map CursorState.offset) = some (some (some 17)) := by
  exact ⟨rfl, rfl, rfl, rfl, rfl⟩

/-- Witness for C9: the hypotheses of `C9_delete_makes_tombstone` hold at the
concrete cursor `c9_state` (offset 32, answer section), and so does its
conclusion. -/
theorem C9_witness :
    c9_state.maybe_compressed = false ∧
    c9_state.offset = some 32 ∧
    c9_state.current_section = .ok Section.answer ∧
    32 < c9_state.offset_next ∧
    c9_state.offset_next ≤ c9_state.packet.length ∧
    12 ≤ 32 ∧
    0 < section_count Section.answer c9_state.packet ∧
    (∃ st1, c9_state.delete = some (.ok st1) ∧
      st1.offset = none ∧
      st1.offset_next = 32 ∧
      st1.delete = some (.error .voidRecord) ∧
      st1.set_raw_name [0] = some (.error .voidRecord) ∧
      (∀ sh : Int, sh ≠ 0 → st1.resize_rr sh = some (.error .voidRecord)) ∧
      st1.resize_rr 0 = some (.ok st1)) :=
  ⟨rfl, rfl, rfl, by decide, by decide, by decide, by decide,
   C9_delete_makes_tombstone c9_state 32 Section.answer rfl rfl rfl
     (by decide) (by decide) (by decide) (by decide)⟩
theorem RawName.length_pos {N : List Nat} (h : RawName N) : 0 < N.length := by
  cases h <;> simp

theorem getD_drop (u : List Nat) (o j : Nat) :
    (u.drop o).getD j 0 = u.getD (o + j) 0 := by
  simp [List.getD_eq_getElem?_getD, List.getElem?_drop]

theorem window_getD {u N : List Nat} {o : Nat}
    (hw : (u.drop o).take N.length = N) {j : Nat} (hj : j < N.length) :
    u.getD (o + j) 0 = N.getD j 0 := by
  rw [← hw, getD_take_of_lt _ _ _ hj, getD_drop]

theorem window_le_length {u N : List Nat} {o : Nat}
    (hw : (u.drop o).take N.length = N) (hpos : 0 < N.length) :
    o + N.length ≤ u.length := by
  have h1 : ((u.drop o).take N.length).length = N.length := by rw [hw]
  simp only [List.length_take, List.length_drop] at h1
  rcases Nat.le_total o u.length with h | h
  · omega
  · have : u.length - o = 0 := by omega
    rw [this] at h1
    omega

theorem window_shift {u N : List Nat} {o : Nat}
    (hw : (u.drop o).take N.length = N) (j : Nat) (hj : j ≤ N.length) :
    (u.drop (o + j)).take (N.length - j) = N.drop j := by
  have h1 : u.drop (o + j) = (u.drop o).drop j := by
    rw [List.drop_drop, Nat.add_comm]
  rw [h1]
  conv_rhs => rw [← hw]
  rw [List.drop_take]

theorem window_sub {u N M : List Nat} {o j : Nat}
    (hw : (u.drop o).take N.length = N) (hj : j + M.length ≤ N.length)
    (hM : N.drop j = M ++ (N.drop (j + M.length))) :
    (u.drop (o + j)).take M.length = M := by
  have h1 := window_shift hw j (by omega)
  have h2 : ((u.drop (o + j)).take (N.length - j)).take M.length
      = M := by
    rw [h1, hM]
    rw [List.take_append_of_le_length (by omega)]
    exact List.take_length M ▸ (by rw [List.take_length])
  rw [List.take_take] at h2
  rwa [Nat.min_eq_left (by omega)] at h2

theorem window_append {u A B : List Nat} {o : Nat}
    (hw : (u.drop o).take (A ++ B).length = A ++ B) :
    (u.drop o).take A.length = A ∧
      (u.drop (o + A.length)).take B.length = B := by
  constructor
  · have h1 : ((u.drop o).take (A ++ B).length).take A.length = A := by
      rw [hw, List.take_left]
    rw [List.take_take] at h1
    rwa [Nat.min_eq_left (by simp [List.length_append])] at h1
  · have h2 := window_shift hw A.length (by simp [List.length_append])
    rw [List.drop_left] at h2
    have h3 : (A ++ B).length - A.length = B.length := by
      simp [List.length_append]
    rwa [h3] at h2

theorem and_c0_eq_zero {len : Nat} (h : len < 64) : len &&& 0xc0 = 0 := by
  apply Nat.eq_of_testBit_eq
  intro i
  simp only [Nat.testBit_and, Nat.zero_testBit]
  rcases Nat.lt_or_ge i 6 with hi | hi
  · have : (0xc0 : Nat).testBit i = false := by
      interval_cases i <;> decide
    simp [this]
  · have h64 : (64 : Nat) ≤ 2 ^ i := by
      calc (64 : Nat) = 2 ^ 6 := by norm_num
        _ ≤ 2 ^ i := Nat.pow_le_pow_right (by norm_num) hi
    have h2 : len < 2 ^ i := lt_of_lt_of_le h h64
    have : len.testBit i = false := by
      simp [Nat.testBit_lt_two_pow h2]
    simp [this]

theorem drop_getD_cons {u : List Nat} {o : Nat} (h : o < u.length) :
    u.drop o = u.getD o 0 :: u.drop (o + 1) := by
  rw [List.drop_eq_getElem_cons h]
  congr 1
  rw [List.getD_eq_getElem?_getD, List.getElem?_eq_getElem h]
  rfl

theorem readU16_window {u N : List Nat} {o : Nat}
    (hw : (u.drop o).take N.length = N) {j : Nat} (hj : j + 2 ≤ N.length) :
    readU16 u (o + j) = readU16 N j := by
  unfold readU16
  rw [window_getD hw (by omega)]
  have h2 : o + j + 1 = o + (j + 1) := by omega
  rw [h2, window_getD hw (by omega)]

theorem take_add_split (u : List Nat) (o k : Nat) :
    u.take (o + k) = u.take o ++ (u.drop o).take k := by
  rw [← List.take_add]

theorem window_cons {u : List Nat} {o a : Nat} {T : List Nat}
    (hw : (u.drop o).take (a :: T).length = a :: T) :
    u.getD o 0 = a ∧ (u.drop (o + 1)).take T.length = T := by
  have ho : o < u.length := by
    have h := window_le_length hw (by simp)
    simp only [List.length_cons] at h
    omega
  rw [drop_getD_cons ho] at hw
  simp only [List.length_cons, List.take_succ_cons] at hw
  injection hw with h1 h2
  exact ⟨h1, h2⟩

theorem rawname_check_loop (u : List Nat) {N : List Nat} (hN : RawName N) :
    ∀ fuel o barrier lowest nameLen finalOff refs,
      (u.drop o).take N.length = N →
      nameLen + N.length ≤ 255 →
      o + N.length ≤ barrier →
      barrier ≤ u.length →
      N.length ≤ fuel →
      Compress.check_loop u fuel o barrier lowest nameLen finalOff refs =
        some (.ok (finalOff.getD (o + N.length), nameLen + N.length)) := by
  induction hN with
  | root =>
    intro fuel o barrier lowest nameLen finalOff refs hw hmax hbar hblen hfuel
    simp only [List.length_singleton] at hw hmax hbar hfuel
    obtain ⟨fuel, rfl⟩ : ∃ f, fuel = f + 1 := ⟨fuel - 1, by omega⟩
    obtain ⟨h0, -⟩ := window_cons (T := []) (by simpa using hw)
    rw [Compress.check_loop]
    dsimp only
    rw [if_neg (show ¬ o ≥ barrier by omega)]
    simp only [readU8, h0]
    norm_num
    rw [if_neg (show ¬ (u.length - o = 0) by omega),
      if_neg (show ¬ DNS_MAX_HOSTNAME_LEN < nameLen + 1 by
        simp only [DNS_MAX_HOSTNAME_LEN]; omega)]
  | label len lab rest hpos hle hlab hrest ih =>
    intro fuel o barrier lowest nameLen finalOff refs hw hmax hbar hblen hfuel
    have hrestpos : 0 < rest.length := RawName.length_pos hrest
    have hNlen : (len :: lab ++ rest).length = len + rest.length + 1 := by
      simp [hlab]
    rw [hNlen] at hmax hbar hfuel
    obtain ⟨fuel, rfl⟩ : ∃ f, fuel = f + 1 := ⟨fuel - 1, by omega⟩
    obtain ⟨h0, hw1⟩ := window_cons hw
    obtain ⟨-, hwrest⟩ := window_append hw1
    rw [hlab] at hwrest
    rw [Compress.check_loop]
    dsimp only
    rw [if_neg (show ¬ o ≥ barrier by omega)]
    simp only [readU8, h0]
    rw [if_neg (show ¬ len &&& 0xc0 = 0xc0 by
        rw [and_c0_eq_zero (by omega)]; decide),
      if_neg (show ¬ len > 0x3f by omega),
      if_neg (show ¬ len ≥ u.length - o by omega),
      if_neg (show ¬ nameLen + len + 1 > DNS_MAX_HOSTNAME_LEN by
        simp only [DNS_MAX_HOSTNAME_LEN]; omega),
      if_neg (show len ≠ 0 by omega)]
    have hih := ih fuel (o + 1 + len) barrier lowest (nameLen + len + 1)
      finalOff refs hwrest (by omega) (by omega) hblen (by omega)
    rw [show o + len + 1 = o + 1 + len by omega, hih, hNlen,
      show o + 1 + len + rest.length = o + (len + rest.length + 1) by omega,
      show nameLen + len + 1 + rest.length
          = nameLen + (len + rest.length + 1) by omega]

theorem window_chunk {u : List Nat} {o len : Nat} {lab rest : List Nat}
    (hlab : lab.length = len)
    (hw : (u.drop o).take (len :: lab ++ rest).length = len :: lab ++ rest) :
    (u.drop o).take (1 + len) = len :: lab := by
  have h1 : ((u.drop o).take (len :: lab ++ rest).length).take (1 + len)
      = (len :: lab ++ rest).take (1 + len) := by rw [hw]
  rw [List.take_take, Nat.min_eq_left (by simp [hlab]; omega)] at h1
  rw [h1, show 1 + len = len + 1 by omega,
    show (len :: lab ++ rest).take (len + 1)
        = len :: (lab ++ rest).take len from rfl,
    ← hlab, List.take_left]

theorem rawname_copy_loop (u : List Nat) {N : List Nat} (hN : RawName N) :
    ∀ fuel acc o nameLen finalOff,
      (u.drop o).take N.length = N →
      N.length ≤ fuel →
      Compress.copy_loop u fuel acc o nameLen finalOff =
        some ⟨acc ++ N, nameLen + N.length, finalOff.getD (o + N.length)⟩ := by
  induction hN with
  | root =>
    intro fuel acc o nameLen finalOff hw hfuel
    simp only [List.length_singleton] at hw hfuel
    have hle := window_le_length (N := [0]) (by simpa using hw) (by simp)
    simp only [List.length_singleton] at hle
    obtain ⟨fuel, rfl⟩ : ∃ f, fuel = f + 1 := ⟨fuel - 1, by omega⟩
    obtain ⟨h0, -⟩ := window_cons (T := []) (by simpa using hw)
    rw [Compress.copy_loop]
    dsimp only
    rw [if_pos (show o < u.length by omega)]
    simp only [readU8, h0]
    norm_num
    exact ⟨hle, by simpa using hw⟩
  | label len lab rest hpos hle hlab hrest ih =>
    intro fuel acc o nameLen finalOff hw hfuel
    have hrestpos : 0 < rest.length := RawName.length_pos hrest
    have hNlen : (len :: lab ++ rest).length = len + rest.length + 1 := by
      simp [hlab]
    have hwin := window_le_length hw (by simp)
    rw [hNlen] at hfuel hwin
    obtain ⟨fuel, rfl⟩ : ∃ f, fuel = f + 1 := ⟨fuel - 1, by omega⟩
    obtain ⟨h0, hw1⟩ := window_cons hw
    obtain ⟨-, hwrest⟩ := window_append hw1
    rw [hlab] at hwrest
    have hchunk := window_chunk hlab hw
    rw [Compress.copy_loop]
    dsimp only
    rw [if_pos (show o < u.length by omega)]
    simp only [readU8, h0]
    rw [if_neg (show ¬ len &&& 0xc0 = 0xc0 by
        rw [and_c0_eq_zero (by omega)]; decide),
      if_pos (show o + (1 + len) ≤ u.length by omega),
      if_neg (show len ≠ 0 by omega), hchunk]
    have hih := ih fuel (acc ++ (len :: lab)) (o + (1 + len))
      (nameLen + (1 + len)) finalOff
      (by rw [show o + (1 + len) = o + 1 + len by omega]; exact hwrest)
      (by omega)
    rw [hih, hNlen]
    rw [show acc ++ (len :: lab) ++ rest = acc ++ (len :: lab ++ rest) by
        simp,
      show nameLen + (1 + len) + rest.length
          = nameLen + (len + rest.length + 1) by omega,
      show o + (1 + len) + rest.length = o + (len + rest.length + 1) by omega]

theorem rawname_skip_name_loop (u : List Nat) {N : List Nat} (hN : RawName N) :
    ∀ fuel o,
      (u.drop o).take N.length = N →
      o + N.length < u.length →
      N.length ≤ fuel →
      RRIterator.skip_name_loop u fuel o = some (o + N.length) := by
  induction hN with
  | root =>
    intro fuel o hw hafter hfuel
    simp only [List.length_singleton] at hw hafter hfuel
    obtain ⟨fuel, rfl⟩ : ∃ f, fuel = f + 1 := ⟨fuel - 1, by omega⟩
    obtain ⟨h0, -⟩ := window_cons (T := []) (by simpa using hw)
    rw [RRIterator.skip_name_loop]
    dsimp only
    rw [if_pos (show o < u.length by omega)]
    simp only [readU8, h0]
    norm_num
    omega
  | label len lab rest hpos hle hlab hrest ih =>
    intro fuel o hw hafter hfuel
    have hrestpos : 0 < rest.length := RawName.length_pos hrest
    have hNlen : (len :: lab ++ rest).length = len + rest.length + 1 := by
      simp [hlab]
    rw [hNlen] at hafter hfuel
    obtain ⟨fuel, rfl⟩ : ∃ f, fuel = f + 1 := ⟨fuel - 1, by omega⟩
    obtain ⟨h0, hw1⟩ := window_cons hw
    obtain ⟨-, hwrest⟩ := window_append hw1
    rw [hlab] at hwrest
    rw [RRIterator.skip_name_loop]
    dsimp only
    rw [if_pos (show o < u.length by omega)]
    simp only [readU8, h0]
    rw [if_neg (show ¬ len &&& 0xc0 = 0xc0 by
        rw [and_c0_eq_zero (by omega)]; decide),
      if_pos (show len < u.length - o - 1 by omega),
      if_neg (show len ≠ 0 by omega)]
    have hih := ih fuel (o + len + 1)
      (by rw [show o + len + 1 = o + 1 + len by omega]; exact hwrest)
      (by omega) (by omega)
    rw [hih, hNlen, show o + len + 1 + rest.length
        = o + (len + rest.length + 1) by omega]

theorem rawname_check_uncompressed_loop (u : List Nat) {N : List Nat}
    (hN : RawName N) :
    ∀ fuel o nameLen,
      (u.drop o).take N.length = N →
      nameLen + N.length ≤ 255 →
      N.length ≤ fuel →
      check_uncompressed_name_loop u fuel o nameLen = .ok (o + N.length) := by
  induction hN with
  | root =>
    intro fuel o nameLen hw hmax hfuel
    simp only [List.length_singleton] at hw hmax hfuel
    have hle := window_le_length (N := [0]) (by simpa using hw) (by simp)
    simp only [List.length_singleton] at hle
    obtain ⟨fuel, rfl⟩ : ∃ f, fuel = f + 1 := ⟨fuel - 1, by omega⟩
    obtain ⟨h0, -⟩ := window_cons (T := []) (by simpa using hw)
    rw [check_uncompressed_name_loop]
    dsimp only
    rw [if_neg (show ¬ o ≥ u.length by omega)]
    simp only [readU8, h0]
    norm_num
    rw [if_neg (show ¬ (u.length - o = 0) by omega),
      if_neg (show ¬ DNS_MAX_HOSTNAME_LEN < nameLen + 1 by
        simp only [DNS_MAX_HOSTNAME_LEN]; omega)]
  | label len lab rest hpos hle hlab hrest ih =>
    intro fuel o nameLen hw hmax hfuel
    have hrestpos : 0 < rest.length := RawName.length_pos hrest
    have hNlen : (len :: lab ++ rest).length = len + rest.length + 1 := by
      simp [hlab]
    have hwin := window_le_length hw (by simp)
    rw [hNlen] at hmax hfuel hwin
    obtain ⟨fuel, rfl⟩ : ∃ f, fuel = f + 1 := ⟨fuel - 1, by omega⟩
    obtain ⟨h0, hw1⟩ := window_cons hw
    obtain ⟨-, hwrest⟩ := window_append hw1
    rw [hlab] at hwrest
    rw [check_uncompressed_name_loop]
    dsimp only
    rw [if_neg (show ¬ o ≥ u.length by omega)]
    simp only [readU8, h0]
    rw [if_neg (show ¬ len &&& 0xc0 = 0xc0 by
        rw [and_c0_eq_zero (by omega)]; decide),
      if_neg (show ¬ len > 0x3f by omega),
      if_neg (show ¬ len ≥ u.length - o by omega),
      if_neg (show ¬ nameLen + len + 1 > DNS_MAX_HOSTNAME_LEN by
        simp only [DNS_MAX_HOSTNAME_LEN]; omega),
      if_neg (show len ≠ 0 by omega)]
    have hih := ih fuel (o + len + 1) (nameLen + len + 1)
      (by rw [show o + len + 1 = o + 1 + len by omega]; exact hwrest)
      (by omega) (by omega)
    rw [hih, hNlen, show o + len + 1 + rest.length
        = o + (len + rest.length + 1) by omega]

theorem rawname_check_full (u : List Nat) {N : List Nat} (hN : RawName N)
    (o : Nat) (hw : (u.drop o).take N.length = N) (hmax : N.length ≤ 255) :
    Compress.check_compressed_name_full u o = .ok (o + N.length, N.length) := by
  have hpos := RawName.length_pos hN
  have hle := window_le_length hw hpos
  unfold Compress.check_compressed_name_full
  rw [if_neg (show ¬ o ≥ u.length by omega),
    if_neg (show ¬ u.length - o < 1 by omega)]
  have h := rawname_check_loop u hN (Compress.name_fuel u) o u.length o 0 none
    DNS_MAX_HOSTNAME_INDIRECTIONS hw (by omega) hle (Nat.le_refl _)
    (by unfold Compress.name_fuel; omega)
  rw [h]
  simp

theorem check_loop_finalOff (u : List Nat) :
    ∀ fuel o barrier lowest nameLen x refs fo nl,
      Compress.check_loop u fuel o barrier lowest nameLen (some x) refs =
        some (.ok (fo, nl)) → fo = x := by
  intro fuel
  induction fuel with
  | zero =>
    intro o barrier lowest nameLen x refs fo nl h
    simp [Compress.check_loop] at h
  | succ fuel ih =>
    intro o barrier lowest nameLen x refs fo nl h
    rw [Compress.check_loop] at h
    dsimp only at h
    split at h
    · split at h <;> simp at h
    · split at h
      · split at h
        · simp at h
        · split at h
          · simp at h
          · split at h
            · simp at h
            · exact ih _ _ _ _ _ _ _ _ h
      · split at h
        · simp at h
        · split at h
          · simp at h
          · split at h
            · simp at h
            · split at h
              · simp only [Option.getD_some, Option.some.injEq,
                  Except.ok.injEq, Prod.mk.injEq] at h
                exact h.1.symm
              · exact ih _ _ _ _ _ _ _ _ h

theorem check_loop_none_fo_gt (u : List Nat) :
    ∀ fuel o barrier lowest nameLen refs fo nl,
      Compress.check_loop u fuel o barrier lowest nameLen none refs =
        some (.ok (fo, nl)) → o < fo := by
  intro fuel
  induction fuel with
  | zero =>
    intro o barrier lowest nameLen refs fo nl h
    simp [Compress.check_loop] at h
  | succ fuel ih =>
    intro o barrier lowest nameLen refs fo nl h
    rw [Compress.check_loop] at h
    dsimp only at h
    split at h
    · split at h <;> simp at h
    · split at h
      · split at h
        · simp at h
        · split at h
          · simp at h
          · split at h
            · simp at h
            · have := check_loop_finalOff u fuel _ _ _ _ _ _ _ _ h
              omega
      · split at h
        · simp at h
        · split at h
          · simp at h
          · split at h
            · simp at h
            · split at h
              · simp only [Option.getD_none, Option.some.injEq,
                  Except.ok.injEq, Prod.mk.injEq] at h
                omega
              · have := ih _ _ _ _ _ _ _ h
                omega

theorem check_loop_skip (u : List Nat) :
    ∀ fuel o barrier lowest nameLen refs fo nl,
      Compress.check_loop u fuel o barrier lowest nameLen none refs =
        some (.ok (fo, nl)) →
      fo < u.length →
      ∀ g, fo - o ≤ g → RRIterator.skip_name_loop u g o = some fo := by
  intro fuel
  induction fuel with
  | zero =>
    intro o barrier lowest nameLen refs fo nl h
    simp [Compress.check_loop] at h
  | succ fuel ih =>
    intro o barrier lowest nameLen refs fo nl h hlt g hg
    have hgt := check_loop_none_fo_gt u (fuel + 1) _ _ _ _ _ _ _ h
    obtain ⟨g, rfl⟩ : ∃ g2, g = g2 + 1 := ⟨g - 1, by omega⟩
    rw [Compress.check_loop] at h
    dsimp only at h
    rw [RRIterator.skip_name_loop]
    dsimp only
    rw [if_pos (show o < u.length by omega)]
    split at h
    · split at h <;> simp at h
    · split at h
      · rename_i htag
        rw [if_pos htag]
        split at h
        · simp at h
        · split at h
          · simp at h
          · split at h
            · simp at h
            · have hfo := check_loop_finalOff u fuel _ _ _ _ _ _ _ _ h
              rw [if_pos (show u.length - o > 2 by omega), hfo]
      · rename_i htag
        rw [if_neg htag]
        split at h
        · simp at h
        · split at h
          · simp at h
          · rename_i hoob
            split at h
            · simp at h
            · split at h
              · rename_i hz
                simp only [Option.getD_none, Option.some.injEq,
                  Except.ok.injEq, Prod.mk.injEq] at h
                rw [if_pos (show readU8 u o < u.length - o - 1 by omega),
                  if_pos hz]
                rw [h.1]
              · rename_i hz
                have hgt2 := check_loop_none_fo_gt u fuel _ _ _ _ _ _ _ h
                rw [if_pos (show readU8 u o < u.length - o - 1 by omega),
                  if_neg hz]
                exact ih _ _ _ _ _ _ _ h hlt g (by omega)

theorem chunk_cons (u : List Nat) (o len : Nat) (ho : o < u.length) :
    (u.drop o).take (1 + len) = u.getD o 0 :: (u.drop (o + 1)).take len := by
  rw [drop_getD_cons ho, show 1 + len = len + 1 by omega]
  rfl

theorem check_loop_copy_rawname (packet : List Nat)
    (hb : ∀ b ∈ packet, b < 256) :
    ∀ fuel offset barrier lowest nameLen finalOff refs fo nl,
      lowest ≤ offset → barrier ≤ packet.length →
      Compress.check_loop packet fuel offset barrier lowest nameLen finalOff
          refs = some (.ok (fo, nl)) →
      ∃ N, RawName N ∧ nameLen + N.length = nl ∧
        ∀ name, Compress.copy_loop packet fuel name offset nameLen finalOff =
            some ⟨name ++ N, nl, fo⟩ := by
  intro fuel
  induction fuel with
  | zero =>
    intro offset barrier lowest nameLen finalOff refs fo nl hlow hblen h
    simp [Compress.check_loop] at h
  | succ fuel ih =>
    intro offset barrier lowest nameLen finalOff refs fo nl hlow hblen h
    rw [Compress.check_loop] at h
    dsimp only at h
    split at h
    · split at h <;> simp at h
    · rename_i hbar
      have hoff_lt : offset < packet.length := by omega
      split at h
      · rename_i htag
        split at h
        · simp at h
        · split at h
          · simp at h
          · rename_i hrefs hlen2
            split at h
            · simp at h
            · rename_i hfwd
              push_neg at hfwd
              obtain ⟨hne, hlt⟩ := hfwd
              obtain ⟨N, hN, hNlen, hcopy⟩ :=
                ih _ _ _ _ _ _ _ _ (Nat.le_refl _) (by omega) h
              refine ⟨N, hN, hNlen, fun name => ?_⟩
              rw [Compress.copy_loop]
              dsimp only
              rw [if_pos hoff_lt, if_pos htag,
                if_pos (show offset + 1 < packet.length by omega)]
              have heq : readU16 packet offset &&& 0x3fff =
                  ((readU8 packet offset &&& 0x3f) <<< 8) |||
                    readU8 packet (offset + 1) :=
                (pointer_target_eq (readU8 packet offset)
                  (readU8 packet (offset + 1))
                  (getD_lt_256 packet hb (offset + 1))).symm
              rw [heq, if_pos (by omega)]
              exact hcopy name
      · rename_i htag
        split at h
        · simp at h
        · rename_i hgt
          split at h
          · simp at h
          · rename_i hoob
            split at h
            · simp at h
            · rename_i hmax
              have hfit : offset + (1 + readU8 packet offset) ≤
                  packet.length := by omega
              split at h
              · rename_i hz
                simp only [Option.some.injEq, Except.ok.injEq,
                  Prod.mk.injEq] at h
                obtain ⟨hfo, hnl⟩ := h
                refine ⟨[0], RawName.root,
                  by simp only [List.length_singleton]; omega,
                  fun name => ?_⟩
                rw [Compress.copy_loop]
                dsimp only
                rw [if_pos hoff_lt, if_neg htag, if_pos hfit, if_pos hz]
                rw [chunk_cons packet offset _ hoff_lt]
                have hz2 : packet.getD offset 0 = 0 := hz
                rw [hz2, ← hfo, ← hnl, hz]
                norm_num
              · rename_i hz
                obtain ⟨N2, hN2, hN2len, hcopy2⟩ :=
                  ih _ _ _ _ _ _ _ _ (by omega) hblen h
                have hlab : ((packet.drop (offset + 1)).take
                    (readU8 packet offset)).length = readU8 packet offset := by
                  simp only [List.length_take, List.length_drop]
                  omega
                refine ⟨readU8 packet offset ::
                    (packet.drop (offset + 1)).take (readU8 packet offset)
                    ++ N2, RawName.label _ _ _ (by omega) (by omega) hlab hN2,
                  ?_, fun name => ?_⟩
                · simp only [List.length_cons, List.length_append, hlab]
                  omega
                · rw [Compress.copy_loop]
                  dsimp only
                  rw [if_pos hoff_lt, if_neg htag, if_pos hfit, if_neg hz]
                  rw [chunk_cons packet offset _ hoff_lt]
                  have harith1 : offset + (1 + readU8 packet offset) =
                      offset + readU8 packet offset + 1 := by omega
                  have harith2 : nameLen + (1 + readU8 packet offset) =
                      nameLen + readU8 packet offset + 1 := by omega
                  rw [harith1, harith2, hcopy2]
                  simp [readU8]

theorem check_full_copy_rawname (p : List Nat) (hb : ∀ b ∈ p, b < 256)
    (o fo nl : Nat)
    (h : Compress.check_compressed_name_full p o = .ok (fo, nl)) :
    ∃ N, RawName N ∧ N.length = nl ∧ nl ≤ 255 ∧ o < fo ∧
      ∀ name, Compress.copy_uncompressed_name name p o =
        some ⟨name ++ N, nl, fo⟩ := by
  unfold Compress.check_compressed_name_full at h
  split at h
  · simp at h
  · split at h
    · simp at h
    · split at h
      · simp at h
      · rename_i r heq
        rw [h] at heq
        obtain ⟨N, hN, hNlen, hcopy⟩ :=
          check_loop_copy_rawname p hb _ o p.length o 0 none
            DNS_MAX_HOSTNAME_INDIRECTIONS fo nl (Nat.le_refl _)
            (Nat.le_refl _) heq
        have hle := check_loop_name_len_le p _ _ _ _ _ _ _ _ _ heq
        have hgt := check_loop_none_fo_gt p _ _ _ _ _ _ _ _ heq
        exact ⟨N, hN, by omega, by simpa [DNS_MAX_HOSTNAME_LEN] using hle,
          hgt, hcopy⟩

theorem check_full_skip_name (p : List Nat) (o fo nl : Nat)
    (h : Compress.check_compressed_name_full p o = .ok (fo, nl))
    (hlt : fo < p.length) :
    RRIterator.skip_name p o = some fo := by
  unfold Compress.check_compressed_name_full at h
  split at h
  · simp at h
  · split at h
    · simp at h
    · split at h
      · simp at h
      · rename_i r heq
        rw [h] at heq
        exact check_loop_skip p _ _ _ _ _ _ _ _ heq hlt _ (by omega)

theorem check_uncompressed_loop_rawname (u : List Nat) :
    ∀ fuel o nameLen f,
      check_uncompressed_name_loop u fuel o nameLen = .ok f →
      ∃ N, RawName N ∧ (u.drop o).take N.length = N ∧ o + N.length = f ∧
        nameLen + N.length ≤ 255 := by
  intro fuel
  induction fuel with
  | zero =>
    intro o nameLen f h
    simp [check_uncompressed_name_loop] at h
  | succ fuel ih =>
    intro o nameLen f h
    rw [check_uncompressed_name_loop] at h
    dsimp only at h
    split at h
    · simp at h
    · rename_i hoff
      split at h
      · simp at h
      · split at h
        · simp at h
        · rename_i htag hgt
          split at h
          · simp at h
          · rename_i hoob
            split at h
            · simp at h
            · rename_i hmax
              simp only [DNS_MAX_HOSTNAME_LEN, gt_iff_lt, not_lt] at hmax
              split at h
              · rename_i hz
                simp only [Except.ok.injEq] at h
                refine ⟨[0], RawName.root, ?_, by simp; omega, by simp; omega⟩
                rw [List.length_singleton,
                  drop_getD_cons (show o < u.length by omega)]
                have hz2 : u.getD o 0 = 0 := hz
                rw [show (u.getD o 0 :: u.drop (o + 1)).take 1
                    = [u.getD o 0] from rfl, hz2]
              · rename_i hz
                obtain ⟨N2, hN2, hw2, hf2, hm2⟩ := ih _ _ _ h
                have hlab : ((u.drop (o + 1)).take
                    (readU8 u o)).length = readU8 u o := by
                  simp only [List.length_take, List.length_drop]
                  omega
                refine ⟨readU8 u o ::
                    (u.drop (o + 1)).take (readU8 u o) ++ N2,
                  RawName.label _ _ _ (by omega) (by omega) hlab hN2, ?_, ?_, ?_⟩
                · have hlen : (readU8 u o ::
                      (u.drop (o + 1)).take (readU8 u o) ++ N2).length
                      = (readU8 u o + N2.length) + 1 := by
                    simp only [List.length_cons, List.length_append, hlab]
                    omega
                  rw [hlen, drop_getD_cons (show o < u.length by omega)]
                  show _ :: (u.drop (o + 1)).take (readU8 u o + N2.length) = _
                  rw [List.take_add]
                  have hdd : (u.drop (o + 1)).drop (readU8 u o)
                      = u.drop (o + readU8 u o + 1) := by
                    rw [List.drop_drop]
                    congr 1
                    omega
                  rw [hdd, hw2]
                  rfl
                · simp only [List.length_cons, List.length_append, hlab]
                  omega
                · simp only [List.length_cons, List.length_append, hlab]
                  omega

theorem set_append_right (A B : List Nat) (i x : Nat) :
    (A ++ B).set (A.length + i) x = A ++ B.set i x := by
  induction A with
  | nil => simp
  | cons a A ih =>
    simp only [List.cons_append, List.length_cons]
    rw [show A.length + 1 + i = (A.length + i) + 1 by omega,
      show (a :: (A ++ B)).set (A.length + i + 1) x
        = a :: (A ++ B).set (A.length + i) x from rfl, ih]

theorem set_append_left (B C : List Nat) (i x : Nat) (h : i < B.length) :
    (B ++ C).set i x = B.set i x ++ C := by
  induction B generalizing i with
  | nil => simp at h
  | cons b B ih =>
    cases i with
    | zero => rfl
    | succ i =>
      simp only [List.length_cons] at h
      rw [show (b :: B ++ C).set (i + 1) x
          = b :: (B ++ C).set i x from rfl,
        show (b :: B).set (i + 1) x = b :: B.set i x from rfl,
        ih i (by omega)]
      rfl

theorem writeU16_mid (A B C : List Nat) (i v : Nat) (h : i + 2 ≤ B.length) :
    writeU16 (A ++ B ++ C) (A.length + i) v = A ++ writeU16 B i v ++ C := by
  unfold writeU16
  rw [List.append_assoc,
    set_append_right A (B ++ C) i (v >>> 8 &&& 0xff),
    set_append_left B C i (v >>> 8 &&& 0xff) (by omega),
    show A.length + i + 1 = A.length + (i + 1) by omega,
    set_append_right A (B.set i (v >>> 8 &&& 0xff) ++ C) (i + 1) (v &&& 0xff),
    set_append_left (B.set i (v >>> 8 &&& 0xff)) C (i + 1) (v &&& 0xff)
      (by simp only [List.length_set]; omega),
    List.append_assoc]

theorem getD_set_ne (l : List Nat) (i j a : Nat) (h : i ≠ j) :
    (l.set i a).getD j 0 = l.getD j 0 := by
  induction l generalizing i j with
  | nil => simp
  | cons b l ih =>
    cases i with
    | zero =>
      cases j with
      | zero => omega
      | succ j => rfl
    | succ i =>
      cases j with
      | zero => rfl
      | succ j =>
        rw [show (b :: l).set (i + 1) a = b :: l.set i a from rfl]
        show (l.set i a).getD j 0 = l.getD j 0
        exact ih i j (by omega)

theorem getD_set_self (l : List Nat) (i a : Nat) (h : i < l.length) :
    (l.set i a).getD i 0 = a := by
  induction l generalizing i with
  | nil => simp at h
  | cons b l ih =>
    cases i with
    | zero => rfl
    | succ i =>
      rw [show (b :: l).set (i + 1) a = b :: l.set i a from rfl]
      show (l.set i a).getD i 0 = a
      simp only [List.length_cons] at h
      exact ih i (by omega)

theorem set_of_getD (l : List Nat) (i a : Nat)
    (h : l.getD i 0 = a) : l.set i a = l := by
  induction l generalizing i with
  | nil => rfl
  | cons b l ih =>
    cases i with
    | zero =>
      simp only [List.getD_cons_zero] at h
      rw [← h]
      rfl
    | succ i =>
      rw [show (b :: l).set (i + 1) a = b :: l.set i a from rfl]
      rw [ih i (by simpa using h)]

theorem bytes_shift (b1 b2 : Nat) (h1 : b1 < 256) (h2 : b2 < 256) :
    ((256 * b1 + b2) >>> 8) &&& 0xff = b1 ∧ (256 * b1 + b2) &&& 0xff = b2 := by
  constructor
  · rw [Nat.shiftRight_eq_div_pow]
    have hd : (256 * b1 + b2) / 2 ^ 8 = b1 := by omega
    rw [hd]
    have := Nat.and_pow_two_sub_one_eq_mod b1 8
    norm_num at this ⊢
    omega
  · have := Nat.and_pow_two_sub_one_eq_mod (256 * b1 + b2) 8
    norm_num at this ⊢
    omega

theorem writeU16_self (u : List Nat) (i : Nat)
    (h1 : u.getD i 0 < 256) (h2 : u.getD (i + 1) 0 < 256) :
    writeU16 u i (readU16 u i) = u := by
  unfold writeU16 readU16
  obtain ⟨hb1, hb2⟩ := bytes_shift (u.getD i 0) (u.getD (i + 1) 0) h1 h2
  rw [hb1, hb2, set_of_getD u i _ rfl, set_of_getD u (i + 1) _ rfl]

theorem encode_len (r : RecSeg) (hr : GoodRec r) :
    r.encode.length = r.name.length + 10 + r.rdata.length := by
  simp [RecSeg.encode, hr.hhlen]
  omega

theorem rec_windows (u : List Nat) (r : RecSeg) (o : Nat)
    (hw : (u.drop o).take r.encode.length = r.encode) :
    (u.drop o).take r.name.length = r.name ∧
      (u.drop (o + r.name.length)).take r.header.length = r.header ∧
      (u.drop (o + r.name.length + r.header.length)).take r.rdata.length
        = r.rdata := by
  rw [RecSeg.encode] at hw
  obtain ⟨h1, h2⟩ := window_append hw
  obtain ⟨h3, h4⟩ := window_append h2
  exact ⟨h1, h3, h4⟩

theorem ensure_remaining_ok (s : DSState) (u : List Nat) (k n : Nat)
    (hp : s.packet = u) (ho : s.offset = k) (hb : k + n ≤ u.length) :
    s.ensure_remaining_len n = .ok () := by
  unfold DSState.ensure_remaining_len DSState.remaining_len
  rw [hp, ho, if_neg (show ¬ u.length - k < n by omega)]

theorem be16_load_eq (s : DSState) (u : List Nat) (k j : Nat)
    (hp : s.packet = u) (ho : s.offset = k) (hb : k + (j + 2) ≤ u.length) :
    s.be16_load j = .ok (readU16 u (k + j)) := by
  unfold DSState.be16_load
  rw [ensure_remaining_ok s u k (j + 2) hp ho hb, hp, ho]

theorem u8_load_eq (s : DSState) (u : List Nat) (k j : Nat)
    (hp : s.packet = u) (ho : s.offset = k) (hb : k + (j + 1) ≤ u.length) :
    s.u8_load j = .ok (readU8 u (k + j)) := by
  unfold DSState.u8_load
  rw [ensure_remaining_ok s u k (j + 1) hp ho hb, hp, ho]

theorem increment_offset_eq (s : DSState) (u : List Nat) (k n : Nat)
    (hp : s.packet = u) (ho : s.offset = k) (hb : k + n ≤ u.length) :
    s.increment_offset n = .ok { s with offset := k + n } := by
  unfold DSState.increment_offset
  rw [ensure_remaining_ok s u k n hp ho hb, ho]

theorem set_offset_eq (s : DSState) (u : List Nat) (n : Nat)
    (hp : s.packet = u) (hb : n < u.length) :
    s.set_offset n = .ok { s with offset := n } := by
  unfold DSState.set_offset
  rw [hp, if_neg (show ¬ n ≥ u.length by omega)]

theorem skip_name_encode (s : DSState) (u N : List Nat) (o : Nat)
    (hp : s.packet = u) (ho : s.offset = o) (hN : RawName N)
    (hmax : N.length ≤ 255) (hw : (u.drop o).take N.length = N)
    (hlt : o + N.length < u.length) :
    s.skip_name = .ok { s with offset := o + N.length } := by
  have hc : Compress.check_compressed_name s.packet s.offset
      = .ok (o + N.length) := by
    unfold Compress.check_compressed_name
    rw [hp, ho, rawname_check_full u hN o hw hmax]
    rfl
  unfold DSState.skip_name
  rw [hc]
  exact set_offset_eq s u (o + N.length) hp hlt

theorem parse_opt_encode (sA : DSState) (u R : List Nat) (k : Nat)
    (hp : sA.packet = u) (ho : sA.offset = k)
    (hen : sA.edns_end = none)
    (hb : k + 10 + R.length ≤ u.length)
    (hrlen : readU16 u (k + 8) = R.length)
    (hwin : (u.drop (k + 10)).take R.length = R)
    (hwok : EdnsWindowOk R) :
    ∃ s2, sA.parse_opt = .ok s2 ∧ s2.packet = sA.packet ∧
      s2.offset = k + 10 + R.length ∧ s2.edns_end ≠ none := by
  unfold DSState.parse_opt
  rw [if_neg (show ¬ (sA.edns_end.isSome = true) by rw [hen]; decide)]
  rw [u8_load_eq sA u k 4 hp ho (by omega)]
  dsimp only
  rw [u8_load_eq sA u k 5 hp ho (by omega)]
  dsimp only
  rw [be16_load_eq sA u k 2 hp ho (by omega)]
  dsimp only
  rw [be16_load_eq sA u k 6 hp ho (by omega)]
  dsimp only
  rw [be16_load_eq sA u k 8 hp ho (by omega)]
  dsimp only
  rw [increment_offset_eq { sA with ext_rcode := some (readU8 u (k + 4)), edns_version := some (readU8 u (k + 5)), max_payload := readU16 u (k + 2), ext_flags := some (readU16 u (k + 6)) } u k 10 hp ho (by omega)]
  dsimp only
  rw [ensure_remaining_ok { sA with offset := k + 10, edns_start := some (k + 10), ext_rcode := some (readU8 u (k + 4)), edns_version := some (readU8 u (k + 5)), max_payload := readU16 u (k + 2), ext_flags := some (readU16 u (k + 6)) } u (k + 10) (readU16 u (k + 8)) hp rfl (by rw [hrlen]; omega)]
  dsimp only
  obtain ⟨c, hloop⟩ := hwok { sA with offset := k + 10, edns_start := some (k + 10), edns_end := some (k + 10 + readU16 u (k + 8)), edns_count := 0, ext_rcode := some (readU8 u (k + 4)), edns_version := some (readU8 u (k + 5)), max_payload := readU16 u (k + 2), ext_flags := some (readU16 u (k + 6)) } (k + 10) (sA.packet.length + 1) rfl (by dsimp only; rw [hrlen]) (by dsimp only; rw [hp]; exact hwin) (by rw [hp]; omega)
  rw [hloop]
  exact ⟨_, rfl, rfl, by dsimp only, by simp⟩

theorem parse_rr_encode (u : List Nat) (s : DSState) (r : RecSeg)
    (sec : Section) (o : Nat)
    (hr : GoodRec r)
    (hp : s.packet = u)
    (ho : s.offset = o)
    (hw : (u.drop o).take r.encode.length = r.encode)
    (hopt : readU16 r.header 0 = 41 → sec = Section.additional ∧
      s.edns_end = none) :
    ∃ s2, s.parse_rr sec = .ok s2 ∧ s2.packet = u ∧
      s2.offset = o + r.encode.length ∧
      (readU16 r.header 0 ≠ 41 →
        s2 = { s with offset := o + r.encode.length }) ∧
      (readU16 r.header 0 = 41 → s2.edns_end ≠ none) := by
  obtain ⟨hwn, hwh, hwr⟩ := rec_windows u r o hw
  rw [hr.hhlen] at hwr
  have henc := encode_len r hr
  have hnpos := RawName.length_pos hr.hname
  have hencpos : 0 < r.encode.length := by rw [henc]; omega
  have hle : o + r.encode.length ≤ u.length := window_le_length hw hencpos
  rw [henc] at hle
  have hskip := skip_name_encode s u r.name o hp ho hr.hname hr.hnlen hwn
    (by omega)
  have htv : readU16 u (o + r.name.length) = readU16 r.header 0 := by
    have h2 := readU16_window hwh (j := 0) (by simp [hr.hhlen])
    rwa [Nat.add_zero] at h2
  have hrv : readU16 u (o + r.name.length + 8) = readU16 r.header 8 :=
    readU16_window hwh (j := 8) (by simp [hr.hhlen])
  have htype : DSState.rr_type { s with offset := o + r.name.length }
      = .ok (readU16 r.header 0) := by
    unfold DSState.rr_type
    rw [be16_load_eq { s with offset := o + r.name.length } u
      (o + r.name.length) 0 hp rfl (by omega), Nat.add_zero, htv]
  have hrdlen : DSState.rr_rdlen { s with offset := o + r.name.length }
      = .ok (readU16 r.header 8) := by
    unfold DSState.rr_rdlen
    rw [be16_load_eq { s with offset := o + r.name.length } u
      (o + r.name.length) 8 hp rfl (by omega), hrv]
  have hrd := hr.hrdata
  unfold DSState.parse_rr
  rw [hskip]
  dsimp only
  rw [htype, hrdlen]
  dsimp only
  by_cases h41 : readU16 r.header 0 = 41
  · obtain ⟨hsec, hen⟩ := hopt h41
    have hname0 : r.name = [0] := hr.hoptname h41
    have hnl1 : r.name.length = 1 := by rw [hname0]; rfl
    rw [GoodRdata, if_neg (show ¬ (readU16 r.header 0 = 2 ∨
        readU16 r.header 0 = 5 ∨ readU16 r.header 0 = 12) by omega),
      if_neg (show ¬ readU16 r.header 0 = 15 by omega),
      if_neg (show ¬ readU16 r.header 0 = 6 by omega),
      if_neg (show ¬ readU16 r.header 0 = 39 by omega),
      if_neg (show ¬ readU16 r.header 0 = 1 by omega),
      if_neg (show ¬ readU16 r.header 0 = 28 by omega),
      if_pos h41] at hrd
    obtain ⟨hlenr, hwok⟩ := hrd
    rw [if_pos h41,
      if_neg (show ¬ sec ≠ Section.additional by simp [hsec]),
      if_neg (show ¬ (o + r.name.length - s.offset ≠ 1) by
        rw [ho, hnl1]; omega)]
    obtain ⟨s2x, hpo, hpk, hof, hne⟩ := parse_opt_encode
      { s with offset := o + r.name.length } u r.rdata
      (o + r.name.length) hp rfl hen (by omega)
      (by rw [hrv, hlenr]) hwr hwok
    rw [hpo]
    refine ⟨s2x, rfl, by rw [hpk]; exact hp, by rw [hof, henc]; omega,
      fun hc => absurd h41 hc, fun _ => hne⟩
  · rw [if_neg h41]
    by_cases h256 : readU16 r.header 0 = 2 ∨ readU16 r.header 0 = 5 ∨
        readU16 r.header 0 = 12
    · rw [if_pos h256]
      rw [GoodRdata, if_pos h256] at hrd
      obtain ⟨hraw, hr255, hlenr⟩ := hrd
      have hrdpos := RawName.length_pos hraw
      rw [if_neg (show ¬ readU16 r.header 8 = 0 by omega)]
      rw [increment_offset_eq { s with offset := o + r.name.length } u
        (o + r.name.length) DNS_RR_HEADER_SIZE hp rfl
        (by unfold DNS_RR_HEADER_SIZE; omega)]
      dsimp only
      have hcheck : Compress.check_compressed_name s.packet
          (o + r.name.length + DNS_RR_HEADER_SIZE)
          = .ok (o + r.name.length + 10 + r.rdata.length) := by
        unfold Compress.check_compressed_name
        rw [hp, show (DNS_RR_HEADER_SIZE : Nat) = 10 from rfl,
          rawname_check_full u hraw _ hwr hr255]
        rfl
      rw [hcheck]
      dsimp only
      rw [if_neg (show ¬ (o + r.name.length + 10 + r.rdata.length -
          (o + r.name.length + DNS_RR_HEADER_SIZE) ≠ readU16 r.header 8) by
        unfold DNS_RR_HEADER_SIZE; omega)]
      rw [increment_offset_eq
        { s with offset := o + r.name.length + DNS_RR_HEADER_SIZE } u
        (o + r.name.length + DNS_RR_HEADER_SIZE)
        (readU16 r.header 8) hp rfl
        (by unfold DNS_RR_HEADER_SIZE; omega)]
      refine ⟨_, rfl, hp, ?_, fun _ => ?_, fun hc => absurd hc h41⟩
      · show o + r.name.length + DNS_RR_HEADER_SIZE + readU16 r.header 8
            = o + r.encode.length
        unfold DNS_RR_HEADER_SIZE
        omega
      · show ({ s with offset := _ } : DSState) = _
        rw [show o + r.name.length + DNS_RR_HEADER_SIZE + readU16 r.header 8
            = o + r.encode.length by unfold DNS_RR_HEADER_SIZE; omega]
    · rw [if_neg h256]
      by_cases h15 : readU16 r.header 0 = 15
      · rw [if_pos h15]
        rw [GoodRdata, if_neg h256, if_pos h15] at hrd
        obtain ⟨p2, M, hsplit, hp2, hrawM, hM255, hlenr⟩ := hrd
        have hMpos := RawName.length_pos hrawM
        have hrdl : r.rdata.length = 2 + M.length := by
          rw [hsplit, List.length_append, hp2]
        rw [if_neg (show ¬ readU16 r.header 8 ≤ 2 by omega)]
        rw [increment_offset_eq { s with offset := o + r.name.length } u
          (o + r.name.length) DNS_RR_HEADER_SIZE hp rfl
          (by unfold DNS_RR_HEADER_SIZE; omega)]
        dsimp only
        have hwr2 : (u.drop (o + r.name.length + 10)).take (p2 ++ M).length
            = p2 ++ M := by
          rw [← hsplit]
          exact hwr
        obtain ⟨-, hwM⟩ := window_append hwr2
        rw [hp2] at hwM
        have hcheck : Compress.check_compressed_name s.packet
            (o + r.name.length + DNS_RR_HEADER_SIZE + 2)
            = .ok (o + r.name.length + 10 + 2 + M.length) := by
          unfold Compress.check_compressed_name
          rw [hp, show (DNS_RR_HEADER_SIZE : Nat) = 10 from rfl]
          rw [show o + r.name.length + 10 + 2 = o + r.name.length + 10 + 2
            from rfl]
          rw [rawname_check_full u hrawM _ hwM hM255]
          rfl
        rw [hcheck]
        dsimp only
        rw [if_neg (show ¬ (o + r.name.length + 10 + 2 + M.length -
            (o + r.name.length + DNS_RR_HEADER_SIZE) ≠ readU16 r.header 8) by
          unfold DNS_RR_HEADER_SIZE; omega)]
        rw [increment_offset_eq
          { s with offset := o + r.name.length + DNS_RR_HEADER_SIZE } u
          (o + r.name.length + DNS_RR_HEADER_SIZE)
          (readU16 r.header 8) hp rfl
          (by unfold DNS_RR_HEADER_SIZE; omega)]
        refine ⟨_, rfl, hp, ?_, fun _ => ?_, fun hc => absurd hc h41⟩
        · show o + r.name.length + DNS_RR_HEADER_SIZE + readU16 r.header 8
              = o + r.encode.length
          unfold DNS_RR_HEADER_SIZE
          omega
        · show ({ s with offset := _ } : DSState) = _
          rw [show o + r.name.length + DNS_RR_HEADER_SIZE
              + readU16 r.header 8
              = o + r.encode.length by unfold DNS_RR_HEADER_SIZE; omega]
      · rw [if_neg h15]
        by_cases h6 : readU16 r.header 0 = 6
        · rw [if_pos h6]
          rw [GoodRdata, if_neg h256, if_neg h15, if_pos h6] at hrd
          obtain ⟨M1, M2, t20, hsplit, hraw1, h1255, hraw2, h2255, ht20,
            hlenr⟩ := hrd
          have h1pos := RawName.length_pos hraw1
          have h2pos := RawName.length_pos hraw2
          have hrdl : r.rdata.length = M1.length + M2.length + 20 := by
            rw [hsplit]
            simp [ht20]
            omega
          rw [if_neg (show ¬ readU16 r.header 8 ≤ 1 + 20 by omega)]
          rw [increment_offset_eq { s with offset := o + r.name.length } u
            (o + r.name.length) DNS_RR_HEADER_SIZE hp rfl
            (by unfold DNS_RR_HEADER_SIZE; omega)]
          dsimp only
          have hwr2 : (u.drop (o + r.name.length + 10)).take
              (M1 ++ (M2 ++ t20)).length = M1 ++ (M2 ++ t20) := by
            rw [← hsplit]
            exact hwr
          obtain ⟨hwM1, hwrest⟩ := window_append hwr2
          obtain ⟨hwM2, -⟩ := window_append hwrest
          have hcheck1 : Compress.check_compressed_name s.packet
              (o + r.name.length + DNS_RR_HEADER_SIZE)
              = .ok (o + r.name.length + 10 + M1.length) := by
            unfold Compress.check_compressed_name
            rw [hp, show (DNS_RR_HEADER_SIZE : Nat) = 10 from rfl,
              rawname_check_full u hraw1 _ hwM1 h1255]
            rfl
          have hcheck2 : Compress.check_compressed_name s.packet
              (o + r.name.length + 10 + M1.length)
              = .ok (o + r.name.length + 10 + M1.length + M2.length) := by
            unfold Compress.check_compressed_name
            rw [hp, rawname_check_full u hraw2 _ hwM2 h2255]
            rfl
          rw [hcheck1]
          dsimp only
          rw [hcheck2]
          dsimp only
          rw [if_neg (show ¬ (o + r.name.length + 10 + M1.length + M2.length
              - (o + r.name.length + DNS_RR_HEADER_SIZE)
              ≠ readU16 r.header 8 - 20) by
            unfold DNS_RR_HEADER_SIZE; omega)]
          rw [increment_offset_eq
            { s with offset := o + r.name.length + DNS_RR_HEADER_SIZE } u
            (o + r.name.length + DNS_RR_HEADER_SIZE)
            (readU16 r.header 8) hp rfl
            (by unfold DNS_RR_HEADER_SIZE; omega)]
          refine ⟨_, rfl, hp, ?_, fun _ => ?_, fun hc => absurd hc h41⟩
          · show o + r.name.length + DNS_RR_HEADER_SIZE + readU16 r.header 8
                = o + r.encode.length
            unfold DNS_RR_HEADER_SIZE
            omega
          · show ({ s with offset := _ } : DSState) = _
            rw [show o + r.name.length + DNS_RR_HEADER_SIZE
                + readU16 r.header 8
                = o + r.encode.length by unfold DNS_RR_HEADER_SIZE; omega]
        · rw [if_neg h6]
          by_cases h39 : readU16 r.header 0 = 39
          · rw [if_pos h39]
            rw [GoodRdata, if_neg h256, if_neg h15, if_neg h6, if_pos h39]
              at hrd
            obtain ⟨hraw, hr255, hlenr⟩ := hrd
            have hrdpos := RawName.length_pos hraw
            rw [if_neg (show ¬ readU16 r.header 8 = 0 by omega)]
            rw [increment_offset_eq { s with offset := o + r.name.length } u
              (o + r.name.length) DNS_RR_HEADER_SIZE hp rfl
              (by unfold DNS_RR_HEADER_SIZE; omega)]
            dsimp only
            have hcheck : check_uncompressed_name s.packet
                (o + r.name.length + DNS_RR_HEADER_SIZE)
                = .ok (o + r.name.length + 10 + r.rdata.length) := by
              unfold check_uncompressed_name
              rw [hp, show (DNS_RR_HEADER_SIZE : Nat) = 10 from rfl]
              rw [if_neg (show ¬ o + r.name.length + 10 ≥ u.length by omega),
                if_neg (show ¬ u.length - (o + r.name.length + 10) < 1 by
                  omega)]
              exact rawname_check_uncompressed_loop u hraw (u.length + 1)
                (o + r.name.length + 10) 0 hwr (by omega) (by omega)
            rw [hcheck]
            dsimp only
            rw [if_neg (show ¬ (o + r.name.length + 10 + r.rdata.length -
                (o + r.name.length + DNS_RR_HEADER_SIZE)
                ≠ readU16 r.header 8) by
              unfold DNS_RR_HEADER_SIZE; omega)]
            rw [increment_offset_eq
              { s with offset := o + r.name.length + DNS_RR_HEADER_SIZE } u
              (o + r.name.length + DNS_RR_HEADER_SIZE)
              (readU16 r.header 8) hp rfl
              (by unfold DNS_RR_HEADER_SIZE; omega)]
            refine ⟨_, rfl, hp, ?_, fun _ => ?_, fun hc => absurd hc h41⟩
            · show o + r.name.length + DNS_RR_HEADER_SIZE
                  + readU16 r.header 8 = o + r.encode.length
              unfold DNS_RR_HEADER_SIZE
              omega
            · show ({ s with offset := _ } : DSState) = _
              rw [show o + r.name.length + DNS_RR_HEADER_SIZE
                  + readU16 r.header 8
                  = o + r.encode.length by unfold DNS_RR_HEADER_SIZE; omega]
          · rw [if_neg h39]
            have hlenr : readU16 r.header 8 = r.rdata.length := by
              rw [GoodRdata, if_neg h256, if_neg h15, if_neg h6, if_neg h39]
                at hrd
              by_cases h1t : readU16 r.header 0 = 1
              · rw [if_pos h1t] at hrd
                exact hrd.1
              · rw [if_neg h1t] at hrd
                by_cases h28 : readU16 r.header 0 = 28
                · rw [if_pos h28] at hrd
                  exact hrd.1
                · rw [if_neg h28, if_neg h41] at hrd
                  exact hrd
            have hfin : DSState.increment_offset
                { s with offset := o + r.name.length }
                (DNS_RR_HEADER_SIZE + readU16 r.header 8)
                = .ok { s with offset := o + r.encode.length } := by
              rw [increment_offset_eq { s with offset := o + r.name.length }
                u (o + r.name.length)
                (DNS_RR_HEADER_SIZE + readU16 r.header 8) hp rfl
                (by unfold DNS_RR_HEADER_SIZE; omega)]
              rw [show o + r.name.length
                  + (DNS_RR_HEADER_SIZE + readU16 r.header 8)
                  = o + r.encode.length by unfold DNS_RR_HEADER_SIZE; omega]
            by_cases h1t : readU16 r.header 0 = 1
            · rw [if_pos h1t]
              have h4 : readU16 r.header 8 = 4 := by
                rw [GoodRdata, if_neg h256, if_neg h15, if_neg h6, if_neg h39,
                  if_pos h1t] at hrd
                exact hrd.2
              rw [if_neg (show ¬ readU16 r.header 8 ≠ 4 by omega), hfin]
              exact ⟨_, rfl, hp, by dsimp only, fun _ => rfl,
                fun hc => absurd hc h41⟩
            · rw [if_neg h1t]
              by_cases h28 : readU16 r.header 0 = 28
              · rw [if_pos h28]
                have h16 : readU16 r.header 8 = 16 := by
                  rw [GoodRdata, if_neg h256, if_neg h15, if_neg h6,
                    if_neg h39, if_neg h1t, if_pos h28] at hrd
                  exact hrd.2
                rw [if_neg (show ¬ readU16 r.header 8 ≠ 16 by omega), hfin]
                exact ⟨_, rfl, hp, by dsimp only, fun _ => rfl,
                  fun hc => absurd hc h41⟩
              · rw [if_neg h28, hfin]
                exact ⟨_, rfl, hp, by dsimp only, fun _ => rfl,
                  fun hc => absurd hc h41⟩

theorem windows_read {x y : List Nat} {a b L : Nat}
    (hxy : (x.drop a).take L = (y.drop b).take L) {j : Nat} (hj : j < L) :
    x.getD (a + j) 0 = y.getD (b + j) 0 := by
  have h1 : ((x.drop a).take L).getD j 0 = ((y.drop b).take L).getD j 0 := by
    rw [hxy]
  rwa [getD_take_of_lt _ _ _ hj, getD_take_of_lt _ _ _ hj,
    getD_drop, getD_drop] at h1

theorem edns_loop_transport (L : Nat) :
    ∀ fuel1 (s1 : DSState) (d a : Nat) (s1' : DSState),
      s1.edns_end = some (a + L) → s1.offset = a + d → d ≤ L →
      DSState.edns_loop s1 fuel1 = .ok s1' →
      ∀ (s2 : DSState) (b fuel2 : Nat),
        s2.edns_end = some (b + L) → s2.offset = b + d →
        (s1.packet.drop a).take L = (s2.packet.drop b).take L →
        L - d < fuel2 →
        ∃ c, DSState.edns_loop s2 fuel2 =
          .ok { s2 with offset := b + L, edns_count := c } := by
  intro fuel1
  induction fuel1 with
  | zero =>
    intro s1 d a s1' he1 ho1 hd h
    simp [DSState.edns_loop] at h
  | succ fuel1 ih =>
    intro s1 d a s1' he1 ho1 hd h s2 b fuel2 he2 ho2 hxy hf2
    obtain ⟨fuel2, rfl⟩ : ∃ f, fuel2 = f + 1 := ⟨fuel2 - 1, by omega⟩
    have hrem1 : s1.edns_remaining_len = L - d := by
      unfold DSState.edns_remaining_len
      rw [he1]
      dsimp only
      rw [ho1]
      omega
    have hrem2 : s2.edns_remaining_len = L - d := by
      unfold DSState.edns_remaining_len
      rw [he2]
      dsimp only
      rw [ho2]
      omega
    rw [DSState.edns_loop] at h
    rw [DSState.edns_loop]
    by_cases hz : L - d = 0
    · rw [hrem2, hz]
      norm_num
      refine ⟨s2.edns_count, ?_⟩
      have hoL : s2.offset = b + L := by rw [ho2]; omega
      rw [← hoL]
    · rw [hrem1, if_pos (show L - d > 0 by omega)] at h
      rw [hrem2, if_pos (show L - d > 0 by omega)]
      split at h
      · simp at h
      · rename_i s1x hskip1
        unfold DSState.edns_skip_rr DSState.edns_rr_rdlen
          DSState.edns_be16_load DSState.edns_increment_offset
          DSState.edns_ensure_remaining_len at hskip1
        rw [hrem1] at hskip1
        by_cases h4 : L - d < 2 + 2
        · rw [if_pos h4] at hskip1
          simp at hskip1
        · rw [if_neg h4] at hskip1
          dsimp only at hskip1
          by_cases h5 : L - d < 4 + readU16 s1.packet (s1.offset + 2)
          · rw [if_pos h5] at hskip1
            simp at hskip1
          · rw [if_neg h5] at hskip1
            simp only [Except.ok.injEq] at hskip1
            subst hskip1
            have he1b := windows_read hxy.symm
              (show d + 2 < L by omega)
            have he2b := windows_read hxy.symm
              (show d + 3 < L by omega)
            rw [show b + (d + 2) = b + d + 2 by omega,
              show a + (d + 2) = a + d + 2 by omega] at he1b
            rw [show b + (d + 3) = b + d + 2 + 1 by omega,
              show a + (d + 3) = a + d + 2 + 1 by omega] at he2b
            have hrd : readU16 s2.packet (s2.offset + 2)
                = readU16 s1.packet (s1.offset + 2) := by
              unfold readU16
              rw [ho1, ho2, he1b, he2b]
            have hskip2 : s2.edns_skip_rr = .ok { s2 with
                offset := b + d + (4 + readU16 s1.packet (s1.offset + 2)) }
                := by
              unfold DSState.edns_skip_rr DSState.edns_rr_rdlen
                DSState.edns_be16_load DSState.edns_increment_offset
                DSState.edns_ensure_remaining_len
              rw [hrem2, if_neg h4]
              dsimp only
              rw [hrd, if_neg h5, ho2]
            rw [hskip2]
            have ihx := ih { s1 with offset := s1.offset + (4 + readU16 s1.packet (s1.offset + 2)), edns_count := s1.edns_count + 1 } (d + (4 + readU16 s1.packet (s1.offset + 2))) a s1' he1 (by dsimp only; rw [ho1]; omega) (by omega) h
            obtain ⟨c, hc⟩ := ihx { s2 with offset := b + d + (4 + readU16 s1.packet (s1.offset + 2)), edns_count := s2.edns_count + 1 } b fuel2 he2 (by dsimp only; omega) hxy (by omega)
            exact ⟨c, hc⟩

theorem countOpts_cons (r : RecSeg) (rs : List RecSeg) :
    countOpts (r :: rs) =
      (if readU16 r.header 0 = 41 then 1 else 0) + countOpts rs := by
  unfold countOpts
  rw [List.filter_cons]
  split
  · rename_i hc
    simp only [beq_iff_eq] at hc
    rw [if_pos hc, List.length_cons]
    omega
  · rename_i hc
    simp only [beq_iff_eq] at hc
    rw [if_neg hc]
    omega

theorem window_of_drop {u X T : List Nat} {o : Nat}
    (h : u.drop o = X ++ T) : (u.drop o).take X.length = X := by
  rw [h, List.take_left]

theorem drop_chain {u X T : List Nat} {o : Nat}
    (h : u.drop o = X ++ T) : u.drop (o + X.length) = T := by
  have h1 : u.drop (o + X.length) = (u.drop o).drop X.length := by
    rw [List.drop_drop, Nat.add_comm]
  rw [h1, h, List.drop_left]

theorem readU16_prefix (A B : List Nat) (j : Nat) (h : j + 2 ≤ A.length) :
    readU16 (A ++ B) j = readU16 A j := by
  unfold readU16
  rw [getD_append_of_lt _ _ _ (by omega), getD_append_of_lt _ _ _ (by omega)]

theorem parse_rrs_encode (u : List Nat) (sec : Section) :
    ∀ (rs : List RecSeg) (s : DSState) (o : Nat),
      s.packet = u → s.offset = o →
      (u.drop o).take (encodeRecs rs).length = encodeRecs rs →
      (∀ r ∈ rs, GoodRec r) →
      (∀ r ∈ rs, readU16 r.header 0 = 41 → sec = Section.additional) →
      (0 < countOpts rs → s.edns_end = none) →
      countOpts rs ≤ 1 →
      ∃ s2, s.parse_rrs sec rs.length = .ok s2 ∧ s2.packet = u ∧
        s2.offset = o + (encodeRecs rs).length ∧
        (countOpts rs = 0 → s2.edns_end = s.edns_end) := by
  intro rs
  induction rs with
  | nil =>
    intro s o hp ho hw hgood hsec hinv hcnt
    exact ⟨s, rfl, hp, by simp [encodeRecs, ho], fun _ => rfl⟩
  | cons r rs ih =>
    intro s o hp ho hw hgood hsec hinv hcnt
    rw [countOpts_cons] at hinv hcnt
    have hw1 : (u.drop o).take (r.encode ++ encodeRecs rs).length
        = r.encode ++ encodeRecs rs := hw
    obtain ⟨hwr, hwrest⟩ := window_append hw1
    obtain ⟨s1, hpr, hpk1, hof1, hne41, hopt41⟩ :=
      parse_rr_encode u s r sec o (hgood r (by simp)) hp ho hwr
        (fun h41 => ⟨hsec r (by simp) h41, by
          apply hinv
          rw [if_pos h41]
          omega⟩)
    have hstep : ∃ s2, s1.parse_rrs sec rs.length = .ok s2 ∧
        s2.packet = u ∧
        s2.offset = o + r.encode.length + (encodeRecs rs).length ∧
        (countOpts rs = 0 → s2.edns_end = s1.edns_end) := by
      apply ih s1 (o + r.encode.length) hpk1 hof1 hwrest
        (fun r2 hm => hgood r2 (by simp [hm]))
        (fun r2 hm h41 => hsec r2 (by simp [hm]) h41)
        ?_ (by omega)
      intro hpos
      by_cases h41 : readU16 r.header 0 = 41
      · rw [if_pos h41] at hcnt
        omega
      · rw [hne41 h41]
        dsimp only
        apply hinv
        rw [if_neg h41]
        omega
    obtain ⟨s2, hprs, hpk2, hof2, hedns2⟩ := hstep
    refine ⟨s2, ?_, hpk2, ?_, ?_⟩
    · show DSState.parse_rrs s sec (rs.length + 1) = .ok s2
      rw [DSState.parse_rrs, hpr]
      exact hprs
    · rw [hof2]
      show _ = o + (r.encode ++ encodeRecs rs).length
      rw [List.length_append]
      omega
    · intro hz
      rw [countOpts_cons] at hz
      by_cases h41 : readU16 r.header 0 = 41
      · rw [if_pos h41] at hz
        omega
      · rw [if_neg h41] at hz
        rw [hedns2 (by omega), hne41 h41]

theorem parse_question_encode (u N H4 : List Nat) (s : DSState) (o : Nat)
    (hp : s.packet = u) (ho : s.offset = o)
    (hN : RawName N) (h255 : N.length ≤ 255)
    (hwN : (u.drop o).take N.length = N)
    (hH4 : H4.length = 4)
    (hwH : (u.drop (o + N.length)).take H4.length = H4)
    (hcls : readU16 H4 2 = 1)
    (hle : o + N.length + 4 ≤ u.length) :
    s.parse_question = .ok { s with offset := o + N.length + 4 } := by
  have hskip := skip_name_encode s u N o hp ho hN h255 hwN (by omega)
  have hclsu : readU16 u (o + N.length + 2) = 1 := by
    have h2 := readU16_window hwH (j := 2) (by rw [hH4])
    rw [h2, hcls]
  have hclass : DSState.rr_class { s with offset := o + N.length }
      = .ok 1 := by
    unfold DSState.rr_class
    rw [be16_load_eq { s with offset := o + N.length } u
      (o + N.length) 2 hp rfl (by omega), hclsu]
  unfold DSState.parse_question
  rw [hskip]
  dsimp only
  unfold DSState.ensure_in_class
  rw [hclass]
  dsimp only
  norm_num
  rw [increment_offset_eq { s with offset := o + N.length } u
    (o + N.length) DNS_RR_QUESTION_HEADER_SIZE hp rfl
    (by unfold DNS_RR_QUESTION_HEADER_SIZE; omega)]
  rw [show o + N.length + DNS_RR_QUESTION_HEADER_SIZE = o + N.length + 4
    from rfl]

theorem countOpts_zero {rs : List RecSeg}
    (h : ∀ r ∈ rs, readU16 r.header 0 ≠ 41) : countOpts rs = 0 := by
  unfold countOpts
  rw [List.length_eq_zero]
  rw [List.filter_eq_nil]
  intro r hm
  simpa using h r hm

theorem parse_encode (ps : PacketShape) (h : GoodShape ps) :
    ∃ pp, parse ps.encode = .ok pp ∧ pp.packet = ps.encode ∧
      pp.offset_question = some 12 ∧
      pp.offset_answers =
        (if ancount ps.encode > 0 then some ps.qend else none) ∧
      pp.offset_nameservers =
        (if nscount ps.encode > 0 then some ps.aend else none) ∧
      pp.offset_additional =
        (if arcount ps.encode > 0 then some ps.nend else none) ∧
      ancount ps.encode = ps.answers.length ∧
      nscount ps.encode = ps.nameservers.length ∧
      arcount ps.encode = ps.additionals.length ∧
      ps.encode.length = ps.nend + (encodeRecs ps.additionals).length := by
  have hq1 := RawName.length_pos h.hqname
  have hd12 : ps.encode.drop 12 = ps.qname ++ (ps.qheader ++
      (encodeRecs ps.answers ++ (encodeRecs ps.nameservers ++
        encodeRecs ps.additionals))) := by
    have h0 : ps.encode.drop 0 = ps.header12 ++ (ps.qname ++ (ps.qheader ++
        (encodeRecs ps.answers ++ (encodeRecs ps.nameservers ++
          encodeRecs ps.additionals)))) := by
      rw [List.drop_zero]
      rfl
    have h1 := drop_chain h0
    rwa [Nat.zero_add, h.hlen] at h1
  have hdq : ps.encode.drop (12 + ps.qname.length) = ps.qheader ++
      (encodeRecs ps.answers ++ (encodeRecs ps.nameservers ++
        encodeRecs ps.additionals)) := drop_chain hd12
  have hdqe : ps.encode.drop ps.qend = encodeRecs ps.answers ++
      (encodeRecs ps.nameservers ++ encodeRecs ps.additionals) := by
    have h1 := drop_chain hdq
    rwa [h.hqh, show 12 + ps.qname.length + 4 = ps.qend from rfl] at h1
  have hdae : ps.encode.drop ps.aend = encodeRecs ps.nameservers ++
      encodeRecs ps.additionals := drop_chain hdqe
  have hdne : ps.encode.drop ps.nend =
      encodeRecs ps.additionals := by
    have h1 := drop_chain hdae
    rwa [show ps.aend + (encodeRecs ps.nameservers).length = ps.nend
      from rfl] at h1
  have hlenu : ps.encode.length = ps.nend +
      (encodeRecs ps.additionals).length := by
    unfold PacketShape.nend PacketShape.aend PacketShape.qend
    simp only [PacketShape.encode, List.length_append, h.hlen, h.hqh]
    omega
  have hru : ∀ j, j + 2 ≤ 12 → readU16 ps.encode j
      = readU16 ps.header12 j := by
    intro j hj
    have hw12 : (ps.encode.drop 0).take ps.header12.length
        = ps.header12 :=
      window_of_drop (T := ps.qname ++ (ps.qheader ++
        (encodeRecs ps.answers ++ (encodeRecs ps.nameservers ++
          encodeRecs ps.additionals)))) (by rw [List.drop_zero]; rfl)
    have h2 := readU16_window hw12 (j := j) (by rw [h.hlen]; omega)
    rwa [Nat.zero_add] at h2
  have hqd : qdcount ps.encode = 1 := by
    unfold qdcount
    rw [hru 4 (by omega), h.hqd]
  have hanu : ancount ps.encode = ps.answers.length := by
    unfold ancount
    rw [hru 6 (by omega), h.han]
  have hnsu : nscount ps.encode = ps.nameservers.length := by
    unfold nscount
    rw [hru 8 (by omega), h.hns]
  have haru : arcount ps.encode = ps.additionals.length := by
    unfold arcount
    rw [hru 10 (by omega), h.har]
  have hulen12 : 12 + ps.qname.length + 4 ≤ ps.encode.length := by
    unfold PacketShape.nend PacketShape.aend PacketShape.qend at hlenu
    omega
  unfold parse
  rw [if_neg (show ¬ ps.encode.length < DNS_HEADER_SIZE by
    unfold DNS_HEADER_SIZE; omega)]
  dsimp only
  rw [hqd]
  rw [if_neg (show ¬ (1 : Nat) = 0 by omega),
    if_neg (show ¬ (1 : Nat) > 1 by omega)]
  rw [set_offset_eq (DSState.new ps.encode) ps.encode DNS_QUESTION_OFFSET
    rfl (by unfold DNS_QUESTION_OFFSET DNS_HEADER_SIZE; omega)]
  dsimp only
  rw [show (DNS_QUESTION_OFFSET : Nat) = 12 from rfl]
  rw [if_pos (show (1 : Nat) > 0 by omega),
    if_pos (show (1 : Nat) ≠ 0 by omega)]
  rw [parse_question_encode ps.encode ps.qname ps.qheader _ 12 rfl rfl
    h.hqname h.hqlen (window_of_drop hd12) h.hqh
    (window_of_drop hdq) h.hqclass (by omega)]
  dsimp only
  rw [hanu]
  rw [if_neg (show ¬ (is_response ps.encode = false ∧
      ps.answers.length > 0) by
    rintro ⟨hf, hpos⟩
    unfold is_response at hf
    simp only [decide_eq_false_iff_not] at hf
    rw [hru 2 (by omega)] at hf
    have := (h.hresp hf).1
    rw [this] at hpos
    simp at hpos)]
  obtain ⟨sA, hprA, hpkA, hofA, hednsA⟩ := parse_rrs_encode ps.encode
    Section.answer ps.answers
    { DSState.new ps.encode with offset := 12 + ps.qname.length + 4 }
    (12 + ps.qname.length + 4) rfl rfl
    (by rw [show 12 + ps.qname.length + 4 = ps.qend from rfl]
        exact window_of_drop hdqe)
    (fun r hm => (h.hans r hm).1)
    (fun r hm h41 => absurd h41 (h.hans r hm).2)
    (fun hpos => absurd hpos (by
      rw [countOpts_zero (fun r hm => (h.hans r hm).2)]
      omega))
    (by rw [countOpts_zero (fun r hm => (h.hans r hm).2)]; omega)
  rw [hprA]
  dsimp only
  rw [hnsu]
  rw [if_neg (show ¬ (is_response ps.encode = false ∧
      ps.nameservers.length > 0) by
    rintro ⟨hf, hpos⟩
    unfold is_response at hf
    simp only [decide_eq_false_iff_not] at hf
    rw [hru 2 (by omega)] at hf
    have := (h.hresp hf).2
    rw [this] at hpos
    simp at hpos)]
  obtain ⟨sB, hprB, hpkB, hofB, hednsB⟩ := parse_rrs_encode ps.encode
    Section.nameServers ps.nameservers sA ps.aend hpkA
    (by rw [hofA]; rfl)
    (by exact window_of_drop hdae)
    (fun r hm => (h.hnss r hm).1)
    (fun r hm h41 => absurd h41 (h.hnss r hm).2)
    (fun hpos => absurd hpos (by
      rw [countOpts_zero (fun r hm => (h.hnss r hm).2)]
      omega))
    (by rw [countOpts_zero (fun r hm => (h.hnss r hm).2)]; omega)
  rw [hprB]
  dsimp only
  rw [haru]
  obtain ⟨sC, hprC, hpkC, hofC, hednsC⟩ := parse_rrs_encode ps.encode
    Section.additional ps.additionals sB ps.nend hpkB
    (by rw [hofB]; rfl)
    (by rw [hdne]; exact List.take_length _)
    (fun r hm => h.hadd r hm)
    (fun r hm h41 => rfl)
    (fun hpos => by
      rw [hednsB (countOpts_zero (fun r hm => (h.hnss r hm).2)),
        hednsA (countOpts_zero (fun r hm => (h.hans r hm).2))]
      rfl)
    h.hopt
  rw [hprC]
  dsimp only
  rw [if_neg (show ¬ sC.remaining_len > 0 by
    unfold DSState.remaining_len
    rw [hpkC, hofC, hlenu]
    omega)]
  refine ⟨_, rfl, hpkC, by simp, ?_, ?_, ?_, rfl, rfl, rfl, hlenu⟩
  · split <;> rfl
  · rw [hofA]
    split <;> rfl
  · rw [hofB]
    split <;> rfl

theorem and_ffff (n : Nat) (h : n < 65536) : n &&& 0xffff = n := by
  have h2 := Nat.and_pow_two_sub_one_eq_mod n 16
  norm_num at h2
  omega

theorem take_len_of_le (u : List Nat) (k : Nat) (h : k ≤ u.length) :
    (u.take k).length = k := by
  rw [List.length_take]
  omega

theorem readU16_take (u : List Nat) (k j : Nat) (h : j + 2 ≤ k) :
    readU16 (u.take k) j = readU16 u j := by
  unfold readU16
  rw [getD_take_of_lt _ _ _ (by omega), getD_take_of_lt _ _ _ (by omega)]

theorem copy_name_encode (u N acc : List Nat) (o : Nat) (hN : RawName N)
    (hw : (u.drop o).take N.length = N) :
    Compress.copy_uncompressed_name acc u o =
      some ⟨acc ++ N, N.length, o + N.length⟩ := by
  have hle := window_le_length hw (RawName.length_pos hN)
  have h := rawname_copy_loop u hN (Compress.name_fuel u) acc o 0 none hw
    (by unfold Compress.name_fuel; omega)
  unfold Compress.copy_uncompressed_name
  rw [h]
  simp

theorem writeU16_take_self (u : List Nat) (hb : ∀ b ∈ u, b < 256)
    (k i v : Nat) (hik : i + 2 ≤ k) (hku : k ≤ u.length)
    (hv : readU16 u i = v) :
    writeU16 (u.take k) i v = u.take k := by
  have h1 : readU16 (u.take k) i = v := by rw [readU16_take u k i hik, hv]
  rw [← h1]
  apply writeU16_self
  · rw [getD_take_of_lt _ _ _ (by omega)]
    exact getD_lt_256 u hb i
  · rw [getD_take_of_lt _ _ _ (by omega)]
    exact getD_lt_256 u hb (i + 1)

theorem uncompress_rdata_encode (u : List Nat) (hb : ∀ b ∈ u, b < 256)
    (r : RecSeg) (o : Nat)
    (hr : GoodRec r)
    (hw : (u.drop o).take r.encode.length = r.encode) :
    Compress.uncompress_rdata (u.take (o + r.name.length)) u
      (o + r.name.length) (some (readU16 r.header 0))
      (some (readU16 r.header 8))
      = some (u.take (o + r.encode.length)) := by
  obtain ⟨hwn, hwh, hwr⟩ := rec_windows u r o hw
  rw [hr.hhlen] at hwr
  have henc := encode_len r hr
  have hnpos := RawName.length_pos hr.hname
  have hencpos : 0 < r.encode.length := by rw [henc]; omega
  have hle : o + r.encode.length ≤ u.length := window_le_length hw hencpos
  rw [henc] at hle
  have hrv : readU16 u (o + r.name.length + 8) = readU16 r.header 8 :=
    readU16_window hwh (j := 8) (by simp [hr.hhlen])
  have hulen : (u.take (o + r.name.length)).length = o + r.name.length :=
    take_len_of_le u _ (by omega)
  have hrd := hr.hrdata
  unfold Compress.uncompress_rdata
  simp only [show (DNS_RR_HEADER_SIZE : Nat) = 10 from rfl,
    show (DNS_RR_RDLEN_OFFSET : Nat) = 8 from rfl]
  by_cases h256 : readU16 r.header 0 = 2 ∨ readU16 r.header 0 = 5 ∨
      readU16 r.header 0 = 12
  · rw [if_pos h256]
    rw [GoodRdata, if_pos h256] at hrd
    obtain ⟨hraw, hr255, hlenr⟩ := hrd
    rw [if_pos (show o + r.name.length + 10 ≤ u.length by omega)]
    rw [show u.take (o + r.name.length) ++
        (u.drop (o + r.name.length)).take 10
        = u.take (o + r.name.length + 10) from
      (take_add_split u (o + r.name.length) 10).symm]
    rw [copy_name_encode u r.rdata _ (o + r.name.length + 10) hraw hwr]
    dsimp only
    rw [show u.take (o + r.name.length + 10) ++ r.rdata
        = u.take (o + r.name.length + 10 + r.rdata.length) from
      ((take_add_split u (o + r.name.length + 10) r.rdata.length).trans
        (by rw [hwr])).symm]
    rw [hulen, and_ffff _ (by omega)]
    rw [writeU16_take_self u hb (o + r.name.length + 10 + r.rdata.length)
      (o + r.name.length + 8) r.rdata.length (by omega) (by omega)
      (by rw [hrv]; omega)]
    rw [show o + r.name.length + 10 + r.rdata.length = o + r.encode.length
      by omega]
  · rw [if_neg h256]
    by_cases h15 : readU16 r.header 0 = 15
    · rw [if_pos h15]
      rw [GoodRdata, if_neg h256, if_pos h15] at hrd
      obtain ⟨p2, M, hsplit, hp2, hrawM, hM255, hlenr⟩ := hrd
      have hrdl : r.rdata.length = 2 + M.length := by
        rw [hsplit, List.length_append, hp2]
      have hwr2 : (u.drop (o + r.name.length + 10)).take (p2 ++ M).length
          = p2 ++ M := by
        rw [← hsplit]
        exact hwr
      obtain ⟨-, hwM⟩ := window_append hwr2
      rw [hp2] at hwM
      rw [if_pos (show o + r.name.length + 10 + 2 ≤ u.length by omega)]
      rw [show u.take (o + r.name.length) ++
          (u.drop (o + r.name.length)).take (10 + 2)
          = u.take (o + r.name.length + (10 + 2)) from
        (take_add_split u (o + r.name.length) (10 + 2)).symm]
      rw [copy_name_encode u M _ (o + r.name.length + 10 + 2) hrawM hwM]
      dsimp only
      rw [show u.take (o + r.name.length + (10 + 2)) ++ M
          = u.take (o + r.name.length + (10 + 2) + M.length) from
        ((take_add_split u (o + r.name.length + (10 + 2)) M.length).trans
          (by rw [show (u.drop (o + r.name.length + (10 + 2))).take M.length
              = M from hwM])).symm]
      rw [hulen, and_ffff _ (by omega)]
      rw [writeU16_take_self u hb
        (o + r.name.length + (10 + 2) + M.length)
        (o + r.name.length + 8) (2 + M.length) (by omega) (by omega)
        (by rw [hrv]; omega)]
      rw [show o + r.name.length + (10 + 2) + M.length
          = o + r.encode.length by omega]
    · rw [if_neg h15]
      by_cases h6 : readU16 r.header 0 = 6
      · rw [if_pos h6]
        rw [GoodRdata, if_neg h256, if_neg h15, if_pos h6] at hrd
        obtain ⟨M1, M2, t20, hsplit, hraw1, h1255, hraw2, h2255, ht20,
          hlenr⟩ := hrd
        have h1pos := RawName.length_pos hraw1
        have h2pos := RawName.length_pos hraw2
        have hrdl : r.rdata.length = M1.length + M2.length + 20 := by
          rw [hsplit]
          simp [ht20]
          omega
        have hwr2 : (u.drop (o + r.name.length + 10)).take
            (M1 ++ (M2 ++ t20)).length = M1 ++ (M2 ++ t20) := by
          rw [← hsplit]
          exact hwr
        obtain ⟨hwM1, hwrest⟩ := window_append hwr2
        obtain ⟨hwM2, hwt20⟩ := window_append hwrest
        rw [if_pos (show o + r.name.length + 10 ≤ u.length by omega)]
        rw [show u.take (o + r.name.length) ++
            (u.drop (o + r.name.length)).take 10
            = u.take (o + r.name.length + 10) from
          (take_add_split u (o + r.name.length) 10).symm]
        rw [copy_name_encode u M1 _ (o + r.name.length + 10) hraw1 hwM1]
        dsimp only
        rw [show u.take (o + r.name.length + 10) ++ M1
            = u.take (o + r.name.length + 10 + M1.length) from
          ((take_add_split u (o + r.name.length + 10) M1.length).trans
            (by rw [hwM1])).symm]
        rw [copy_name_encode u M2 _ (o + r.name.length + 10 + M1.length)
          hraw2 hwM2]
        dsimp only
        rw [show u.take (o + r.name.length + 10 + M1.length) ++ M2
            = u.take (o + r.name.length + 10 + M1.length + M2.length) from
          ((take_add_split u (o + r.name.length + 10 + M1.length)
            M2.length).trans (by rw [hwM2])).symm]
        rw [if_pos (show o + r.name.length + 10 + M1.length + M2.length
            + 20 ≤ u.length by omega)]
        rw [show (u.drop (o + r.name.length + 10 + M1.length
            + M2.length)).take 20 = t20 by
          rw [show (20 : Nat) = t20.length from ht20.symm]
          exact hwt20]
        rw [show u.take (o + r.name.length + 10 + M1.length + M2.length)
            ++ t20 = u.take (o + r.name.length + 10 + M1.length
            + M2.length + t20.length) from
          ((take_add_split u (o + r.name.length + 10 + M1.length
            + M2.length) t20.length).trans (by rw [hwt20])).symm]
        rw [hulen, and_ffff _ (by omega)]
        rw [ht20]
        rw [writeU16_take_self u hb
          (o + r.name.length + 10 + M1.length + M2.length + 20)
          (o + r.name.length + 8) (M1.length + M2.length + 20)
          (by omega) (by omega) (by rw [hrv]; omega)]
        rw [show o + r.name.length + 10 + M1.length + M2.length + 20
            = o + r.encode.length by omega]
      · rw [if_neg h6]
        have hlenr : readU16 r.header 8 = r.rdata.length := by
          rw [GoodRdata, if_neg h256, if_neg h15, if_neg h6] at hrd
          by_cases h39 : readU16 r.header 0 = 39
          · rw [if_pos h39] at hrd
            exact hrd.2.2
          · rw [if_neg h39] at hrd
            by_cases h1t : readU16 r.header 0 = 1
            · rw [if_pos h1t] at hrd
              exact hrd.1
            · rw [if_neg h1t] at hrd
              by_cases h28 : readU16 r.header 0 = 28
              · rw [if_pos h28] at hrd
                exact hrd.1
              · rw [if_neg h28] at hrd
                by_cases h41 : readU16 r.header 0 = 41
                · rw [if_pos h41] at hrd
                  exact hrd.1
                · rw [if_neg h41] at hrd
                  exact hrd
        rw [if_pos (show o + r.name.length + 10 +
            readU16 r.header 8 ≤ u.length by omega)]
        rw [show u.take (o + r.name.length) ++
            (u.drop (o + r.name.length)).take (10 + readU16 r.header 8)
            = u.take (o + r.encode.length) from
          (((take_add_split u (o + r.name.length)
            (10 + readU16 r.header 8)).symm).trans (by
              congr 1
              omega))]

theorem goodrdata_len (t rdlen : Nat) (R : List Nat)
    (h : GoodRdata t rdlen R) : rdlen = R.length := by
  unfold GoodRdata at h
  split_ifs at h
  · exact h.2.2
  · obtain ⟨p2, M, hs, hp2, hM, hM2, he⟩ := h
    exact he
  · obtain ⟨M1, M2, t20, hs, h1, h2, h3, h4, h5, he⟩ := h
    exact he
  · exact h.2.2
  · exact h.1
  · exact h.1
  · exact h.1
  · exact h

theorem question_items_encode (u N H4 : List Nat)
    (hN : RawName N) (hwN : (u.drop 12).take N.length = N)
    (hH4 : H4.length = 4)
    (hwH : (u.drop (12 + N.length)).take H4.length = H4)
    (hle : 12 + N.length + 4 ≤ u.length) :
    Compress.uncompress_question_items u 12 1 12 (u.take 12) none
      = some (u.take (12 + N.length + 4), some 12) := by
  have hnpos := RawName.length_pos hN
  rw [Compress.uncompress_question_items]
  rw [show RRIterator.skip_name u 12 = some (12 + N.length) from
    rawname_skip_name_loop u hN (u.length + 1) 12 hwN (by omega) (by omega)]
  dsimp only
  rw [if_pos rfl]
  rw [show copy_raw_name (u.take 12) u 12 (12 + N.length)
      = some (u.take (12 + N.length)) by
    unfold copy_raw_name
    rw [if_neg (show ¬ 12 + N.length ≤ 12 by omega),
      copy_name_encode u N _ 12 hN hwN]
    dsimp only
    rw [show u.take 12 ++ N = u.take (12 + N.length) from
      ((take_add_split u 12 N.length).trans (by rw [hwN])).symm]]
  dsimp only
  rw [show Compress.uncompress_rdata (u.take (12 + N.length)) u
      (12 + N.length) none none
      = some (u.take (12 + N.length + 4)) by
    unfold Compress.uncompress_rdata
    dsimp only
    rw [if_pos (show 12 + N.length + DNS_RR_QUESTION_HEADER_SIZE
        ≤ u.length by unfold DNS_RR_QUESTION_HEADER_SIZE; omega)]
    have hq4 : (u.drop (12 + N.length)).take DNS_RR_QUESTION_HEADER_SIZE
        = H4 := by
      rw [show (DNS_RR_QUESTION_HEADER_SIZE : Nat) = H4.length by
        rw [hH4]
        rfl]
      exact hwH
    rw [hq4]
    rw [show u.take (12 + N.length) ++ H4
        = u.take (12 + N.length + H4.length) from
      ((take_add_split u (12 + N.length) H4.length).trans
        (by rw [hwH])).symm]
    rw [hH4]]
  dsimp only
  rw [take_len_of_le u 12 (by omega)]
  rw [Compress.uncompress_question_items]

theorem response_items_encode (u : List Nat) (hb : ∀ b ∈ u, b < 256)
    (includeOpt : Bool) :
    ∀ (rs : List RecSeg) (o : Nat) (newOff : Option Nat),
      (∀ r ∈ rs, GoodRec r ∧
        (includeOpt = false → readU16 r.header 0 ≠ 41)) →
      (u.drop o).take (encodeRecs rs).length = encodeRecs rs →
      12 < o → o ≤ u.length →
      Compress.uncompress_response_items u 12 includeOpt rs.length o
        (u.take o) newOff
        = some (u.take (o + (encodeRecs rs).length), newOff) := by
  intro rs
  induction rs with
  | nil =>
    intro o newOff hgood hw h12 hou
    rw [show encodeRecs [] = [] from rfl, List.length_nil]
    rw [Compress.uncompress_response_items]
    simp
  | cons r rs ih =>
    intro o newOff hgood hw h12 hou
    obtain ⟨hgr, hgopt⟩ := hgood r (by simp)
    have hw1 : (u.drop o).take (r.encode ++ encodeRecs rs).length
        = r.encode ++ encodeRecs rs := hw
    obtain ⟨hwrec, hwrest⟩ := window_append hw1
    obtain ⟨hwn, hwh, hwr⟩ := rec_windows u r o hwrec
    have henc := encode_len r hgr
    have hnpos := RawName.length_pos hgr.hname
    have hencpos : 0 < r.encode.length := by rw [henc]; omega
    have hle : o + r.encode.length ≤ u.length :=
      window_le_length hwrec hencpos
    have hle2 := hle
    rw [henc] at hle2
    have htv : readU16 u (o + r.name.length) = readU16 r.header 0 := by
      have h2 := readU16_window hwh (j := 0) (by simp [hgr.hhlen])
      rwa [Nat.add_zero] at h2
    have hrv : readU16 u (o + r.name.length + 8) = readU16 r.header 8 :=
      readU16_window hwh (j := 8) (by simp [hgr.hhlen])
    have hrdl := goodrdata_len _ _ _ hgr.hrdata
    show Compress.uncompress_response_items u 12 includeOpt
      (rs.length + 1) o (u.take o) newOff = _
    rw [Compress.uncompress_response_items]
    rw [show RRIterator.skip_name u o = some (o + r.name.length) from
      rawname_skip_name_loop u hgr.hname (u.length + 1) o hwn
        (by omega) (by omega)]
    dsimp only
    rw [show RRIterator.skip_rdata u (o + r.name.length)
        = some (o + r.encode.length) by
      unfold RRIterator.skip_rdata RRIterator.rr_rdlen
      rw [if_pos (show o + r.name.length + DNS_RR_RDLEN_OFFSET + 2
          ≤ u.length by unfold DNS_RR_RDLEN_OFFSET; omega)]
      dsimp only
      rw [show o + r.name.length + DNS_RR_RDLEN_OFFSET
          = o + r.name.length + 8 from rfl, hrv]
      rw [show o + r.name.length + DNS_RR_HEADER_SIZE + readU16 r.header 8
          = o + r.encode.length by unfold DNS_RR_HEADER_SIZE; omega]]
    dsimp only
    have hsel : (if includeOpt then
          some (some (o, o + r.name.length, o + r.encode.length))
        else Compress.maybe_skip_opt_section u rs.length o
          (o + r.name.length) (o + r.encode.length)) =
        some (some (o, o + r.name.length, o + r.encode.length)) := by
      cases includeOpt with
      | true => rfl
      | false =>
        rw [if_neg (by simp)]
        unfold Compress.maybe_skip_opt_section
        rw [show rr_type_at u (o + r.name.length)
            = some (readU16 r.header 0) by
          unfold rr_type_at
          rw [if_pos (by omega), htv]]
        dsimp only
        rw [if_neg (hgopt rfl)]
    rw [hsel]
    dsimp only
    rw [if_neg (show ¬ (12 : Nat) = o by omega)]
    rw [show copy_raw_name (u.take o) u o (o + r.name.length)
        = some (u.take (o + r.name.length)) by
      unfold copy_raw_name
      rw [if_neg (show ¬ o + r.name.length ≤ o by omega),
        copy_name_encode u r.name _ o hgr.hname hwn]
      dsimp only
      rw [show u.take o ++ r.name = u.take (o + r.name.length) from
        ((take_add_split u o r.name.length).trans (by rw [hwn])).symm]]
    dsimp only
    rw [show rr_type_at u (o + r.name.length)
        = some (readU16 r.header 0) by
      unfold rr_type_at
      rw [if_pos (by omega), htv]]
    dsimp only
    rw [show rr_rdlen_at u (o + r.name.length)
        = some (readU16 r.header 8) by
      unfold rr_rdlen_at
      rw [if_pos (show o + r.name.length + DNS_RR_RDLEN_OFFSET + 2
          ≤ u.length by unfold DNS_RR_RDLEN_OFFSET; omega)]
      rw [show o + r.name.length + DNS_RR_RDLEN_OFFSET
          = o + r.name.length + 8 from rfl, hrv]]
    dsimp only
    rw [uncompress_rdata_encode u hb r o hgr hwrec]
    dsimp only
    have hrec := ih (o + r.encode.length) newOff
      (fun r2 hm => hgood r2 (by simp [hm])) hwrest (by omega) (by omega)
    rw [hrec]
    rw [show o + r.encode.length + (encodeRecs rs).length
        = o + (encodeRecs (r :: rs)).length by
      rw [show encodeRecs (r :: rs) = r.encode ++ encodeRecs rs from rfl,
        List.length_append]
      omega]

theorem shape_facts (ps : PacketShape) (h : GoodShape ps) :
    ps.encode.drop 12 = ps.qname ++ (ps.qheader ++
      (encodeRecs ps.answers ++ (encodeRecs ps.nameservers ++
        encodeRecs ps.additionals))) ∧
    ps.encode.drop ps.qend = encodeRecs ps.answers ++
      (encodeRecs ps.nameservers ++ encodeRecs ps.additionals) ∧
    ps.encode.drop ps.aend = encodeRecs ps.nameservers ++
      encodeRecs ps.additionals ∧
    ps.encode.drop ps.nend = encodeRecs ps.additionals ∧
    ps.encode.length = ps.nend + (encodeRecs ps.additionals).length ∧
    qdcount ps.encode = 1 := by
  have hd12 : ps.encode.drop 12 = ps.qname ++ (ps.qheader ++
      (encodeRecs ps.answers ++ (encodeRecs ps.nameservers ++
        encodeRecs ps.additionals))) := by
    have h0 : ps.encode.drop 0 = ps.header12 ++ (ps.qname ++ (ps.qheader ++
        (encodeRecs ps.answers ++ (encodeRecs ps.nameservers ++
          encodeRecs ps.additionals)))) := by
      rw [List.drop_zero]
      rfl
    have h1 := drop_chain h0
    rwa [Nat.zero_add, h.hlen] at h1
  have hdq : ps.encode.drop (12 + ps.qname.length) = ps.qheader ++
      (encodeRecs ps.answers ++ (encodeRecs ps.nameservers ++
        encodeRecs ps.additionals)) := drop_chain hd12
  have hdqe : ps.encode.drop ps.qend = encodeRecs ps.answers ++
      (encodeRecs ps.nameservers ++ encodeRecs ps.additionals) := by
    have h1 := drop_chain hdq
    rwa [h.hqh, show 12 + ps.qname.length + 4 = ps.qend from rfl] at h1
  have hdae := drop_chain hdqe
  have hdne : ps.encode.drop ps.nend = encodeRecs ps.additionals := by
    have h1 := drop_chain hdae
    exact h1
  have hlenu : ps.encode.length = ps.nend +
      (encodeRecs ps.additionals).length := by
    unfold PacketShape.nend PacketShape.aend PacketShape.qend
    simp only [PacketShape.encode, List.length_append, h.hlen, h.hqh]
    omega
  have hqd : qdcount ps.encode = 1 := by
    unfold qdcount
    have hw12 : (ps.encode.drop 0).take ps.header12.length
        = ps.header12 :=
      window_of_drop (T := ps.qname ++ (ps.qheader ++
        (encodeRecs ps.answers ++ (encodeRecs ps.nameservers ++
          encodeRecs ps.additionals)))) (by rw [List.drop_zero]; rfl)
    have h2 := readU16_window hw12 (j := 4) (by rw [h.hlen]; omega)
    rw [Nat.zero_add] at h2
    rw [h2, h.hqd]
  exact ⟨hd12, hdqe, hdae, hdne, hlenu, hqd⟩

theorem uncompress_encode (ps : PacketShape) (h : GoodShape ps) :
    Compress.uncompress ps.encode = some (.ok ps.encode) := by
  obtain ⟨hd12, hdqe, hdae, hdne, hlenu, hqd⟩ := shape_facts ps h
  obtain ⟨pp, hpp, hppk, hq, ha, hn, had, hanl, hnsl, harl, hlenu2⟩ :=
    parse_encode ps h
  have hq1 := RawName.length_pos h.hqname
  have hqle : ps.qend ≤ ps.encode.length := by
    unfold PacketShape.nend PacketShape.aend at hlenu
    omega
  have hwqn : (ps.encode.drop 12).take ps.qname.length = ps.qname :=
    window_of_drop hd12
  have hwqh : (ps.encode.drop (12 + ps.qname.length)).take
      ps.qheader.length = ps.qheader := window_of_drop (drop_chain hd12)
  unfold Compress.uncompress Compress.uncompress_with_previous_offset
  rw [if_neg (show ¬ ps.encode.length < DNS_HEADER_SIZE by
    unfold DNS_HEADER_SIZE PacketShape.nend PacketShape.aend
      PacketShape.qend at *
    omega)]
  rw [hpp]
  dsimp only
  rw [hqd]
  rw [if_neg (show ¬ (1 : Nat) = 0 by omega)]
  rw [hq]
  dsimp only
  rw [show ps.encode.take DNS_HEADER_SIZE = ps.encode.take 12 from rfl,
    show (DNS_HEADER_SIZE : Nat) = 12 from rfl]
  rw [question_items_encode ps.encode ps.qname ps.qheader h.hqname hwqn
    h.hqh hwqh (by unfold PacketShape.qend at hqle; omega)]
  dsimp only
  have hsecA : Compress.uncompress_section ps.encode 12 false
      (ancount ps.encode) pp.offset_answers
      (ps.encode.take (12 + ps.qname.length + 4)) (some 12)
      = some (ps.encode.take ps.aend, some 12) := by
    unfold Compress.uncompress_section
    by_cases hA : ps.answers.length = 0
    · rw [hanl, if_pos hA]
      have hnil : ps.answers = [] := List.length_eq_zero.mp hA
      rw [show ps.aend = 12 + ps.qname.length + 4 by
        unfold PacketShape.aend PacketShape.qend
        rw [hnil]
        simp [encodeRecs]]
    · rw [hanl, if_neg hA, ha, hanl, if_pos (by omega)]
      have hri := response_items_encode ps.encode h.hbytes false ps.answers
        (12 + ps.qname.length + 4) (some 12)
        (fun r hm => ⟨(h.hans r hm).1, fun _ => (h.hans r hm).2⟩)
        (window_of_drop (show ps.encode.drop (12 + ps.qname.length + 4)
          = encodeRecs ps.answers ++ (encodeRecs ps.nameservers ++
            encodeRecs ps.additionals) from hdqe))
        (by omega) (by unfold PacketShape.qend at hqle; omega)
      exact hri
  rw [hsecA]
  dsimp only
  have hale : ps.aend ≤ ps.encode.length := by
    unfold PacketShape.nend at hlenu
    omega
  have hsecB : Compress.uncompress_section ps.encode 12 false
      (nscount ps.encode) pp.offset_nameservers
      (ps.encode.take ps.aend) (some 12)
      = some (ps.encode.take ps.nend, some 12) := by
    unfold Compress.uncompress_section
    by_cases hB : ps.nameservers.length = 0
    · rw [hnsl, if_pos hB]
      have hnil : ps.nameservers = [] := List.length_eq_zero.mp hB
      rw [show ps.nend = ps.aend by
        unfold PacketShape.nend
        rw [hnil]
        simp [encodeRecs]]
    · rw [hnsl, if_neg hB, hn, hnsl, if_pos (by omega)]
      have hri := response_items_encode ps.encode h.hbytes false
        ps.nameservers ps.aend (some 12)
        (fun r hm => ⟨(h.hnss r hm).1, fun _ => (h.hnss r hm).2⟩)
        (window_of_drop hdae)
        (by unfold PacketShape.aend PacketShape.qend; omega) hale
      exact hri
  rw [hsecB]
  dsimp only
  have hnle : ps.nend ≤ ps.encode.length := by omega
  have hsecC : Compress.uncompress_section ps.encode 12 true
      (arcount ps.encode) pp.offset_additional
      (ps.encode.take ps.nend) (some 12)
      = some (ps.encode.take ps.encode.length, some 12) := by
    unfold Compress.uncompress_section
    by_cases hC : ps.additionals.length = 0
    · rw [harl, if_pos hC]
      have hnil : ps.additionals = [] := List.length_eq_zero.mp hC
      rw [show ps.encode.length = ps.nend by
        rw [hlenu, hnil]
        simp [encodeRecs]]
    · rw [harl, if_neg hC, had, harl, if_pos (by omega)]
      have hwadd : (ps.encode.drop ps.nend).take
          (encodeRecs ps.additionals).length
          = encodeRecs ps.additionals := by
        rw [hdne]
        exact List.take_length _
      have hri := response_items_encode ps.encode h.hbytes true
        ps.additionals ps.nend (some 12)
        (fun r hm => ⟨h.hadd r hm, fun hc => absurd hc (by simp)⟩)
        hwadd
        (by unfold PacketShape.nend PacketShape.aend PacketShape.qend
            omega)
        hnle
      rw [← hlenu] at hri
      exact hri
  rw [hsecC]
  dsimp only
  rw [if_neg (show ¬ (12 : Nat) = ps.encode.length by
    unfold PacketShape.nend PacketShape.aend PacketShape.qend at hlenu
    omega)]
  rw [List.take_length]
  rfl

theorem ensure_remaining_analyze (s : DSState) (u : List Nat) (k n : Nat)
    (hp : s.packet = u) (ho : s.offset = k)
    (h : s.ensure_remaining_len n = .ok ()) : k + n ≤ u.length ∨
      u.length ≤ k := by
  unfold DSState.ensure_remaining_len DSState.remaining_len at h
  rw [hp, ho] at h
  split at h
  · simp at h
  · omega

theorem be16_load_analyze (s : DSState) (u : List Nat) (k j v : Nat)
    (hp : s.packet = u) (ho : s.offset = k)
    (h : s.be16_load j = .ok v) :
    v = readU16 u (k + j) ∧ (k + (j + 2) ≤ u.length ∨ u.length ≤ k) := by
  unfold DSState.be16_load at h
  split at h
  · simp at h
  · rename_i heq
    rw [hp, ho] at h
    simp only [Except.ok.injEq] at h
    refine ⟨h.symm, ?_⟩
    unfold DSState.ensure_remaining_len DSState.remaining_len at heq
    rw [hp, ho] at heq
    split at heq
    · simp at heq
    · omega

theorem increment_offset_analyze (s : DSState) (u : List Nat) (k n : Nat)
    (s2 : DSState) (hp : s.packet = u) (ho : s.offset = k)
    (hk : k ≤ u.length)
    (h : s.increment_offset n = .ok s2) :
    k + n ≤ u.length ∧ s2 = { s with offset := k + n } := by
  unfold DSState.increment_offset at h
  split at h
  · simp at h
  · rename_i heq
    unfold DSState.ensure_remaining_len DSState.remaining_len at heq
    rw [hp, ho] at heq
    simp only [Except.ok.injEq] at h
    constructor
    · split at heq
      · simp at heq
      · omega
    · rw [← h, ho]

theorem set_offset_analyze (s : DSState) (u : List Nat) (n : Nat)
    (s2 : DSState) (hp : s.packet = u)
    (h : s.set_offset n = .ok s2) :
    n < u.length ∧ s2 = { s with offset := n } := by
  unfold DSState.set_offset at h
  rw [hp] at h
  split at h
  · simp at h
  · simp only [Except.ok.injEq] at h
    constructor
    · omega
    · rw [← h, hp]

theorem readU16_lt (u : List Nat) (hb : ∀ b ∈ u, b < 256) (i : Nat) :
    readU16 u i < 65536 := by
  unfold readU16
  have h1 := getD_lt_256 u hb i
  have h2 := getD_lt_256 u hb (i + 1)
  omega

theorem readU16_writeU16 (l : List Nat) (i v : Nat) (hv : v < 65536)
    (hlen : i + 2 ≤ l.length) :
    readU16 (writeU16 l i v) i = v := by
  unfold readU16 writeU16
  rw [getD_set_self _ _ _ (by simp only [List.length_set]; omega)]
  rw [getD_set_ne _ _ _ _ (by omega)]
  rw [getD_set_self _ _ _ (by omega)]
  have h1 : v >>> 8 = v / 256 := by
    rw [Nat.shiftRight_eq_div_pow]
  have h2 := Nat.and_pow_two_sub_one_eq_mod (v >>> 8) 8
  have h3 := Nat.and_pow_two_sub_one_eq_mod v 8
  norm_num at h2 h3
  omega

theorem rawname_len_one {N : List Nat} (hN : RawName N)
    (h : N.length = 1) : N = [0] := by
  cases hN with
  | root => rfl
  | label len lab rest hpos hle hlab hrest =>
    have := RawName.length_pos hrest
    simp only [List.length_cons, List.length_append] at h
    omega

theorem check_loop_step_root (p : List Nat) (fuel o barrier lowest refs
    nl : Nat)
    (h : Compress.check_loop p (fuel + 1) o barrier lowest 0 none refs =
      some (.ok (o + 1, nl))) : nl = 1 := by
  rw [Compress.check_loop] at h
  dsimp only at h
  split at h
  · split at h <;> simp at h
  · split at h
    · split at h
      · simp at h
      · split at h
        · simp at h
        · split at h
          · simp at h
          · have := check_loop_finalOff p fuel _ _ _ _ _ _ _ _ h
            omega
    · split at h
      · simp at h
      · split at h
        · simp at h
        · split at h
          · simp at h
          · split at h
            · simp only [Option.getD_none, Option.some.injEq,
                Except.ok.injEq, Prod.mk.injEq] at h
              rename_i hz
              omega
            · rename_i hz
              have h2 := check_loop_none_fo_gt p fuel _ _ _ _ _ _ _ h
              omega

theorem copy_loop_mem (packet : List Nat) :
    ∀ fuel name offset nameLen finalOff res,
      Compress.copy_loop packet fuel name offset nameLen finalOff
        = some res →
      ∀ b ∈ res.name, b ∈ name ∨ b ∈ packet := by
  intro fuel
  induction fuel with
  | zero =>
    intro name offset nameLen finalOff res h
    simp [Compress.copy_loop] at h
  | succ fuel ih =>
    intro name offset nameLen finalOff res h
    rw [Compress.copy_loop] at h
    dsimp only at h
    split at h
    · split at h
      · split at h
        · split at h
          · exact fun b hm => ih _ _ _ _ _ h b hm
          · simp at h
        · simp at h
      · split at h
        · split at h
          · simp only [Option.some.injEq] at h
            intro b hm
            rw [← h] at hm
            dsimp only at hm
            rcases List.mem_append.mp hm with h1 | h1
            · exact Or.inl h1
            · exact Or.inr (List.mem_of_mem_drop (List.mem_of_mem_take h1))
          · intro b hm
            rcases ih _ _ _ _ _ h b hm with h1 | h1
            · rcases List.mem_append.mp h1 with h2 | h2
              · exact Or.inl h2
              · exact Or.inr
                  (List.mem_of_mem_drop (List.mem_of_mem_take h2))
            · exact Or.inr h1
        · simp at h
    · simp at h

theorem ensure_remaining_bound (s : DSState) (u : List Nat) (k n : Nat)
    (hp : s.packet = u) (ho : s.offset = k) (hk : k ≤ u.length)
    (h : s.ensure_remaining_len n = .ok ()) : k + n ≤ u.length := by
  unfold DSState.ensure_remaining_len DSState.remaining_len at h
  rw [hp, ho] at h
  split at h
  · simp at h
  · omega

theorem check_full_root (p : List Nat) (o nl : Nat)
    (h : Compress.check_compressed_name_full p o = .ok (o + 1, nl)) :
    nl = 1 := by
  unfold Compress.check_compressed_name_full at h
  split at h
  · simp at h
  · split at h
    · simp at h
    · split at h
      · simp at h
      · rename_i r heq
        rw [h] at heq
        unfold Compress.name_fuel at heq
        exact check_loop_step_root p (17 * (p.length + 1)) o p.length o
          DNS_MAX_HOSTNAME_INDIRECTIONS nl heq

theorem writeU16_length (l : List Nat) (i v : Nat) :
    (writeU16 l i v).length = l.length := by
  simp [writeU16]

theorem writeU16_bytes (l : List Nat) (hl : ∀ b ∈ l, b < 256) (i v : Nat) :
    ∀ b ∈ writeU16 l i v, b < 256 := by
  intro b hm
  unfold writeU16 at hm
  rcases List.mem_or_eq_of_mem_set hm with hm1 | hm1
  · rcases List.mem_or_eq_of_mem_set hm1 with hm2 | hm2
    · exact hl b hm2
    · subst hm2
      have h2 : v >>> 8 &&& 255 ≤ 255 := Nat.and_le_right
      omega
  · subst hm1
    have h2 : v &&& 255 ≤ 255 := Nat.and_le_right
    omega

theorem readU16_writeU16_lt (l : List Nat) (i j v : Nat) (h : i + 2 ≤ j) :
    readU16 (writeU16 l j v) i = readU16 l i := by
  unfold readU16 writeU16
  rw [getD_set_ne _ _ _ _ (by omega), getD_set_ne _ _ _ _ (by omega),
      getD_set_ne _ _ _ _ (by omega), getD_set_ne _ _ _ _ (by omega)]

theorem writeU16_append_left (B C : List Nat) (i v : Nat)
    (h : i + 2 ≤ B.length) :
    writeU16 (B ++ C) i v = writeU16 B i v ++ C := by
  unfold writeU16
  rw [set_append_left B C i _ (by omega),
      set_append_left (B.set i (v >>> 8 &&& 0xff)) C (i + 1) _
        (by simp only [List.length_set]; omega)]

theorem header_window (p : List Nat) (f : Nat) (h10 : f + 10 ≤ p.length) :
    ((p.drop f).take 10).length = 10 ∧
    readU16 ((p.drop f).take 10) 0 = readU16 p f ∧
    readU16 ((p.drop f).take 10) 8 = readU16 p (f + 8) := by
  have hlen : ((p.drop f).take 10).length = 10 := by
    rw [take_len_of_le]
    simp only [List.length_drop]
    omega
  have hw : (p.drop f).take ((p.drop f).take 10).length
      = (p.drop f).take 10 := by rw [hlen]
  refine ⟨hlen, ?_, ?_⟩
  · have h2 := readU16_window hw (j := 0) (by rw [hlen]; omega)
    rw [Nat.add_zero] at h2
    exact h2.symm
  · exact (readU16_window hw (j := 8) (by rw [hlen])).symm

theorem copy_name_bytes (p : List Nat) (hbp : ∀ b ∈ p, b < 256)
    (o : Nat) (N : List Nat) (nl fo : Nat)
    (hcopy : Compress.copy_uncompressed_name [] p o = some ⟨N, nl, fo⟩) :
    ∀ b ∈ N, b < 256 := by
  intro b hm
  have h2 := copy_loop_mem p (Compress.name_fuel p) [] o 0 none
    _ hcopy b hm
  rcases h2 with h3 | h3
  · simp at h3
  · exact hbp b h3

theorem drop_add (u : List Nat) (a b : Nat) :
    (u.drop a).drop b = u.drop (a + b) := by
  rw [List.drop_drop, Nat.add_comm]

theorem uncompress_rdata_verbatim (p : List Nat) (f dl t : Nat)
    (ht2 : ¬(t = 2 ∨ t = 5 ∨ t = 12)) (ht15 : t ≠ 15) (ht6 : t ≠ 6)
    (hbound : f + 10 + dl ≤ p.length) (out : List Nat) :
    Compress.uncompress_rdata out p f (some t) (some dl)
      = some (out ++ ((p.drop f).take 10 ++ (p.drop (f + 10)).take dl)) := by
  unfold Compress.uncompress_rdata
  dsimp only
  rw [if_neg ht2, if_neg ht15, if_neg ht6]
  simp only [show (DNS_RR_HEADER_SIZE : Nat) = 10 from rfl]
  rw [if_pos hbound]
  rw [take_add_split (p.drop f) 10 dl, drop_add]

theorem edns_loop_analyze (s0 : DSState) (b L fuel : Nat) (s1 : DSState)
    (he : s0.edns_end = some (b + L)) (ho : s0.offset = b)
    (hf : L < fuel) (hlen : b + L ≤ s0.packet.length)
    (h : s0.edns_loop fuel = .ok s1) :
    (∃ c, s1 = { s0 with offset := b + L, edns_count := c }) ∧
    EdnsWindowOk ((s0.packet.drop b).take L) := by
  have hRlen : ((s0.packet.drop b).take L).length = L := by
    rw [take_len_of_le]
    simp only [List.length_drop]
    omega
  constructor
  · obtain ⟨c, hdet⟩ := edns_loop_transport L fuel s0 0 b s1 he
      (by rw [ho]; rfl) (Nat.zero_le L) h s0 b fuel he (by rw [ho]; rfl) rfl
      (by omega)
    rw [h] at hdet
    simp only [Except.ok.injEq] at hdet
    exact ⟨c, hdet⟩
  · intro s2 bb fuel2 ho2 he2 hw2 hf2
    rw [hRlen] at hw2 hf2 he2
    obtain ⟨c, hl⟩ := edns_loop_transport L fuel s0 0 b s1 he
      (by rw [ho]; rfl) (Nat.zero_le L) h s2 bb fuel2 he2 (by rw [ho2]; rfl)
      hw2.symm (by omega)
    exact ⟨c, by rw [hRlen]; exact hl⟩

theorem verbatim_pack (p : List Nat) (hb : ∀ b ∈ p, b < 256)
    (s : DSState) (sec : Section) (o f : Nat) (s1 : DSState) (N : List Nat)
    (hp : s.packet = p)
    (hNraw : RawName N) (hN255 : N.length ≤ 255)
    (hNbytes : ∀ b ∈ N, b < 256)
    (hskip : RRIterator.skip_name p o = some f) (hofgt : o < f)
    (hcr : ∀ nm, copy_raw_name nm p o f = some (nm ++ N))
    (hf2 : f + 2 ≤ p.length)
    (ht2 : ¬(readU16 p f = 2 ∨ readU16 p f = 5 ∨ readU16 p f = 12))
    (ht15 : readU16 p f ≠ 15) (ht6 : readU16 p f ≠ 6)
    (ht41 : readU16 p f ≠ 41)
    (hbound : f + 10 + readU16 p (f + 8) ≤ p.length)
    (hs1 : s1 = { s with offset := f + 10 + readU16 p (f + 8) })
    (hgood : GoodRdata (readU16 p f) (readU16 p (f + 8))
      ((p.drop (f + 10)).take (readU16 p (f + 8)))) :
    ∃ (r : RecSeg) (f : Nat),
      GoodRec r ∧
      (∀ b ∈ RecSeg.encode r, b < 256) ∧
      (readU16 r.header 0 = 41 → sec = Section.additional ∧
        s.edns_end = none) ∧
      RRIterator.skip_name p o = some f ∧
      o < f ∧
      f + 10 + readU16 p (f + 8) ≤ p.length ∧
      s1.packet = p ∧
      s1.offset = f + 10 + readU16 p (f + 8) ∧
      rr_type_at p f = some (readU16 r.header 0) ∧
      rr_rdlen_at p f = some (readU16 p (f + 8)) ∧
      (∀ nm, copy_raw_name nm p o f = some (nm ++ r.name)) ∧
      (∀ nm, Compress.uncompress_rdata (nm ++ r.name) p f
        (some (readU16 r.header 0)) (some (readU16 p (f + 8)))
        = some (nm ++ RecSeg.encode r)) ∧
      (readU16 r.header 0 ≠ 41 →
        s1 = { s with offset := f + 10 + readU16 p (f + 8) }) ∧
      (readU16 r.header 0 = 41 → s1.edns_end ≠ none) := by
  have hf10 : f + 10 ≤ p.length := by omega
  obtain ⟨hlen10, hwh0, hwh8⟩ := header_window p f hf10
  have hrta : rr_type_at p f = some (readU16 p f) := by
    unfold rr_type_at
    rw [if_pos hf2]
  have hrra : rr_rdlen_at p f = some (readU16 p (f + 8)) := by
    unfold rr_rdlen_at
    simp only [show (DNS_RR_RDLEN_OFFSET : Nat) = 8 from rfl]
    rw [if_pos (show f + 8 + 2 ≤ p.length by omega)]
  refine ⟨⟨N, (p.drop f).take 10,
    (p.drop (f + 10)).take (readU16 p (f + 8))⟩, f,
    ⟨hNraw, hN255, hlen10, ?_, ?_⟩, ?_, ?_, hskip,
    hofgt, hbound, ?_, ?_, ?_, hrra, hcr, ?_, ?_, ?_⟩
  · show GoodRdata (readU16 ((p.drop f).take 10) 0)
      (readU16 ((p.drop f).take 10) 8)
      ((p.drop (f + 10)).take (readU16 p (f + 8)))
    rw [hwh0, hwh8]
    exact hgood
  · intro h41
    dsimp only at h41
    rw [hwh0] at h41
    exact absurd h41 ht41
  · intro b hm
    dsimp only [RecSeg.encode] at hm
    rcases List.mem_append.mp hm with h1 | h1
    · exact hNbytes b h1
    · rcases List.mem_append.mp h1 with h2 | h2
      · exact hb b (List.mem_of_mem_drop (List.mem_of_mem_take h2))
      · exact hb b (List.mem_of_mem_drop (List.mem_of_mem_take h2))
  · intro h41
    dsimp only at h41
    rw [hwh0] at h41
    exact absurd h41 ht41
  · rw [hs1]
    exact hp
  · rw [hs1]
  · dsimp only
    rw [hwh0]
    exact hrta
  · intro nm
    dsimp only
    rw [hwh0]
    rw [uncompress_rdata_verbatim p f (readU16 p (f + 8)) (readU16 p f)
      ht2 ht15 ht6 hbound (nm ++ N)]
    dsimp only [RecSeg.encode]
    rw [List.append_assoc]
  · intro _
    exact hs1
  · intro h41
    dsimp only at h41
    rw [hwh0] at h41
    exact absurd h41 ht41

theorem parse_rr_analyze (p : List Nat) (hb : ∀ b ∈ p, b < 256)
    (s : DSState) (sec : Section) (o : Nat) (s1 : DSState)
    (hp : s.packet = p) (ho : s.offset = o)
    (h : s.parse_rr sec = .ok s1) :
    ∃ (r : RecSeg) (f : Nat),
      GoodRec r ∧
      (∀ b ∈ RecSeg.encode r, b < 256) ∧
      (readU16 r.header 0 = 41 → sec = Section.additional ∧
        s.edns_end = none) ∧
      RRIterator.skip_name p o = some f ∧
      o < f ∧
      f + 10 + readU16 p (f + 8) ≤ p.length ∧
      s1.packet = p ∧
      s1.offset = f + 10 + readU16 p (f + 8) ∧
      rr_type_at p f = some (readU16 r.header 0) ∧
      rr_rdlen_at p f = some (readU16 p (f + 8)) ∧
      (∀ nm, copy_raw_name nm p o f = some (nm ++ r.name)) ∧
      (∀ nm, Compress.uncompress_rdata (nm ++ r.name) p f
        (some (readU16 r.header 0)) (some (readU16 p (f + 8)))
        = some (nm ++ RecSeg.encode r)) ∧
      (readU16 r.header 0 ≠ 41 →
        s1 = { s with offset := f + 10 + readU16 p (f + 8) }) ∧
      (readU16 r.header 0 = 41 → s1.edns_end ≠ none) := by
  unfold DSState.parse_rr at h
  dsimp only at h
  split at h
  · simp at h
  · rename_i sx heq_skip
    unfold DSState.skip_name at heq_skip
    split at heq_skip
    · simp at heq_skip
    · rename_i fo heq_check
      obtain ⟨hfol, hsx⟩ := set_offset_analyze s p fo sx hp heq_skip
      unfold Compress.check_compressed_name at heq_check
      rw [hp, ho] at heq_check
      cases hfull : Compress.check_compressed_name_full p o with
      | error e =>
        rw [hfull] at heq_check
        simp [Except.map] at heq_check
      | ok fn =>
        obtain ⟨f, nl⟩ := fn
        rw [hfull] at heq_check
        simp only [Except.map, Except.ok.injEq] at heq_check
        subst heq_check
        subst hsx
        obtain ⟨N, hNraw, hNlen, hnl255, hofgt, hcopy⟩ :=
          check_full_copy_rawname p hb o f nl hfull
        have hskip := check_full_skip_name p o f nl hfull hfol
        have hNbytes : ∀ b ∈ N, b < 256 := by
          intro b hm
          have h2 := copy_loop_mem p (Compress.name_fuel p) [] o 0 none
            _ (hcopy []) b (by simpa using hm)
          rcases h2 with h3 | h3
          · simp at h3
          · exact hb b h3
        have hN255 : N.length ≤ 255 := by omega
        have hNbytes2 := hNbytes
        have hcr : ∀ nm, copy_raw_name nm p o f = some (nm ++ N) := by
          intro nm
          unfold copy_raw_name
          rw [if_neg (show ¬ f ≤ o by omega), hcopy nm]
        split at h
        · simp at h
        · rename_i t heq_t
          unfold DSState.rr_type at heq_t
          obtain ⟨htv, htb⟩ := be16_load_analyze { s with offset := f } p
            f 0 t hp rfl heq_t
          rw [Nat.add_zero] at htv
          have hf2 : f + 2 ≤ p.length := by omega
          subst htv
          split at h
          · simp at h
          · rename_i dl heq_dl
            unfold DSState.rr_rdlen at heq_dl
            obtain ⟨hdv, hdb⟩ := be16_load_analyze { s with offset := f } p
              f 8 dl hp rfl heq_dl
            have hf10 : f + 10 ≤ p.length := by omega
            subst hdv
            have hrta : rr_type_at p f = some (readU16 p f) := by
              unfold rr_type_at
              rw [if_pos hf2]
            have hrra : rr_rdlen_at p f = some (readU16 p (f + 8)) := by
              unfold rr_rdlen_at
              simp only [show (DNS_RR_RDLEN_OFFSET : Nat) = 8 from rfl]
              rw [if_pos (show f + 8 + 2 ≤ p.length by omega)]
            obtain ⟨hlen10, hwh0, hwh8⟩ := header_window p f hf10
            simp only [show (DNS_RR_HEADER_SIZE : Nat) = 10 from rfl] at h
            by_cases ht41 : readU16 p f = 41
            · rw [if_pos ht41] at h
              split at h
              · simp at h
              · rename_i hsec
                split at h
                · simp at h
                · rename_i hroot
                  rw [ho] at hroot
                  have hf1 : f = o + 1 := by omega
                  have hnl1 : nl = 1 := by
                    have hfull2 := hfull
                    rw [hf1] at hfull2
                    exact check_full_root p o nl hfull2
                  have hN0 : N = [0] := rawname_len_one hNraw (by omega)
                  unfold DSState.parse_opt at h
                  split at h
                  · simp at h
                  · rename_i hednsB
                    dsimp only at hednsB
                    have hedns : s.edns_end = none := by
                      cases he2 : s.edns_end with
                      | none => rfl
                      | some v =>
                        rw [he2] at hednsB
                        simp at hednsB
                    split at h
                    · simp at h
                    · rename_i xr heq_u4
                      split at h
                      · simp at h
                      · rename_i xv heq_u5
                        split at h
                        · simp at h
                        · rename_i mp heq_b2
                          split at h
                          · simp at h
                          · rename_i xf heq_b6
                            split at h
                            · simp at h
                            · rename_i el heq_b8
                              obtain ⟨helv, _⟩ := be16_load_analyze
                                { s with offset := f } p f 8 el hp rfl
                                heq_b8
                              subst helv
                              dsimp only at h
                              split at h
                              · simp at h
                              · rename_i sC heq_inc
                                obtain ⟨hf10b, hsC⟩ :=
                                  increment_offset_analyze
                                    { s with offset := f, ext_rcode := some xr, edns_version := some xv, ext_flags := some xf, max_payload := mp }
                                    p f 10 sC hp
                                    rfl (by omega) heq_inc
                                subst hsC
                                dsimp only at h
                                split at h
                                · simp at h
                                · rename_i uu heq_ens
                                  cases uu
                                  have hens := ensure_remaining_bound
                                    { s with offset := f + 10, edns_start := some (f + 10), ext_rcode := some xr, edns_version := some xv, ext_flags := some xf, max_payload := mp }
                                    p
                                    (f + 10) (readU16 p (f + 8)) hp rfl
                                    (by omega) heq_ens
                                  rw [hp] at h
                                  obtain ⟨⟨c, hs1e⟩, hwok⟩ :=
                                    edns_loop_analyze _ (f + 10)
                                      (readU16 p (f + 8)) (p.length + 1) s1
                                      rfl rfl (by omega) hens h
                                  have hRlen : ((p.drop (f + 10)).take
                                      (readU16 p (f + 8))).length
                                      = readU16 p (f + 8) := by
                                    rw [take_len_of_le]
                                    simp only [List.length_drop]
                                    omega
                                  refine ⟨⟨N, (p.drop f).take 10,
                                    (p.drop (f + 10)).take
                                      (readU16 p (f + 8))⟩, f,
                                    ⟨hNraw, hN255, hlen10, ?_, fun _ =>
                                      hN0⟩, ?_, ?_, hskip, hofgt, hens, ?_,
                                    ?_, ?_, hrra, hcr, ?_, ?_, ?_⟩
                                  · show GoodRdata
                                      (readU16 ((p.drop f).take 10) 0)
                                      (readU16 ((p.drop f).take 10) 8)
                                      ((p.drop (f + 10)).take
                                        (readU16 p (f + 8)))
                                    rw [hwh0, hwh8, ht41]
                                    unfold GoodRdata
                                    rw [if_neg (by decide),
                                      if_neg (by decide),
                                      if_neg (by decide),
                                      if_neg (by decide),
                                      if_neg (by decide),
                                      if_neg (by decide), if_pos rfl]
                                    exact ⟨hRlen.symm, hwok⟩
                                  · intro b hm
                                    dsimp only [RecSeg.encode] at hm
                                    rcases List.mem_append.mp hm with h1 | h1
                                    · exact hNbytes b h1
                                    · rcases List.mem_append.mp h1
                                        with h2 | h2
                                      · exact hb b (List.mem_of_mem_drop
                                          (List.mem_of_mem_take h2))
                                      · exact hb b (List.mem_of_mem_drop
                                          (List.mem_of_mem_take h2))
                                  · intro _
                                    exact ⟨of_not_not hsec, hedns⟩
                                  · rw [hs1e]
                                  · rw [hs1e]
                                  · dsimp only
                                    rw [hwh0]
                                    exact hrta
                                  · intro nm
                                    dsimp only
                                    rw [hwh0]
                                    rw [uncompress_rdata_verbatim p f
                                      (readU16 p (f + 8)) (readU16 p f)
                                      (by rw [ht41]; decide)
                                      (by rw [ht41]; decide)
                                      (by rw [ht41]; decide)
                                      hens (nm ++ N)]
                                    dsimp only [RecSeg.encode]
                                    rw [List.append_assoc]
                                  · intro hne
                                    dsimp only at hne
                                    rw [hwh0, ht41] at hne
                                    exact absurd rfl hne
                                  · intro _
                                    rw [hs1e]
                                    simp
            · rw [if_neg ht41] at h
              by_cases ht2 : readU16 p f = 2 ∨ readU16 p f = 5 ∨
                readU16 p f = 12
              · rw [if_pos ht2] at h
                split at h
                · simp at h
                · rename_i hdl0
                  split at h
                  · simp at h
                  · rename_i sB heq_inc
                    obtain ⟨hfB, hsB⟩ := increment_offset_analyze
                      { s with offset := f } p f 10 sB hp rfl (by omega)
                      heq_inc
                    subst hsB
                    dsimp only at h
                    rw [hp] at h
                    split at h
                    · simp at h
                    · rename_i fo2 heq_c2
                      unfold Compress.check_compressed_name at heq_c2
                      cases hfull2 : Compress.check_compressed_name_full p
                          (f + 10) with
                      | error e =>
                        rw [hfull2] at heq_c2
                        simp [Except.map] at heq_c2
                      | ok fn =>
                        obtain ⟨fo2x, nl2⟩ := fn
                        rw [hfull2] at heq_c2
                        simp only [Except.map, Except.ok.injEq] at heq_c2
                        subst heq_c2
                        obtain ⟨M, hMraw, hMlen, hM255, hgt2, hcopyM⟩ :=
                          check_full_copy_rawname p hb (f + 10) fo2x nl2
                            hfull2
                        split at h
                        · simp at h
                        · rename_i hguard
                          obtain ⟨hbound, hs1⟩ := increment_offset_analyze
                            { s with packet := p, offset := f + 10 } p
                            (f + 10) (readU16 p (f + 8)) s1 rfl rfl
                            (by omega) h
                          have hMbytes : ∀ b ∈ M, b < 256 :=
                            copy_name_bytes p hb (f + 10) M nl2 fo2x
                              (hcopyM [])
                          have hhl : (writeU16 ((p.drop f).take 10) 8
                              (M.length &&& 0xffff)).length = 10 := by
                            rw [writeU16_length]
                            exact hlen10
                          refine ⟨⟨N, writeU16 ((p.drop f).take 10) 8
                            (M.length &&& 0xffff), M⟩, f,
                            ⟨hNraw, hN255, hhl, ?_, ?_⟩, ?_, ?_, hskip,
                            hofgt, hbound, ?_, ?_, ?_, hrra, hcr, ?_, ?_,
                            ?_⟩
                          · show GoodRdata
                              (readU16 (writeU16 ((p.drop f).take 10) 8
                                (M.length &&& 0xffff)) 0)
                              (readU16 (writeU16 ((p.drop f).take 10) 8
                                (M.length &&& 0xffff)) 8) M
                            rw [readU16_writeU16_lt ((p.drop f).take 10) 0 8
                              (M.length &&& 0xffff) (by omega), hwh0]
                            rw [readU16_writeU16 ((p.drop f).take 10) 8
                              (M.length &&& 0xffff)
                              (by have := Nat.and_le_right
                                    (n := M.length) (m := 0xffff)
                                  omega)
                              (by rw [hlen10])]
                            rw [and_ffff M.length (by omega)]
                            unfold GoodRdata
                            rw [if_pos ht2]
                            exact ⟨hMraw, by omega, rfl⟩
                          · intro h41
                            dsimp only at h41
                            rw [readU16_writeU16_lt ((p.drop f).take 10) 0 8
                              (M.length &&& 0xffff) (by omega), hwh0] at h41
                            exact absurd h41 ht41
                          · intro b hm
                            dsimp only [RecSeg.encode] at hm
                            rcases List.mem_append.mp hm with h1 | h1
                            · exact hNbytes b h1
                            · rcases List.mem_append.mp h1 with h2 | h2
                              · exact writeU16_bytes ((p.drop f).take 10)
                                  (fun b hm2 => hb b (List.mem_of_mem_drop
                                    (List.mem_of_mem_take hm2))) 8
                                  (M.length &&& 0xffff) b h2
                              · exact hMbytes b h2
                          · intro h41
                            dsimp only at h41
                            rw [readU16_writeU16_lt ((p.drop f).take 10) 0 8
                              (M.length &&& 0xffff) (by omega), hwh0] at h41
                            exact absurd h41 ht41
                          · rw [hs1]
                          · rw [hs1]
                          · dsimp only
                            rw [readU16_writeU16_lt ((p.drop f).take 10) 0 8
                              (M.length &&& 0xffff) (by omega), hwh0]
                            exact hrta
                          · intro nm
                            dsimp only
                            rw [readU16_writeU16_lt ((p.drop f).take 10) 0 8
                              (M.length &&& 0xffff) (by omega), hwh0]
                            unfold Compress.uncompress_rdata
                            dsimp only
                            rw [if_pos ht2]
                            simp only [show (DNS_RR_HEADER_SIZE : Nat) = 10
                              from rfl, show (DNS_RR_RDLEN_OFFSET : Nat) = 8
                              from rfl]
                            rw [if_pos (show f + 10 ≤ p.length by omega)]
                            rw [hcopyM (nm ++ N ++ (p.drop f).take 10)]
                            dsimp only
                            rw [← hMlen]
                            rw [writeU16_mid (nm ++ N) ((p.drop f).take 10)
                              M 8 (M.length &&& 0xffff) (by rw [hlen10])]
                            dsimp only [RecSeg.encode]
                            simp [List.append_assoc]
                          · intro _
                            rw [hs1, hp]
                          · intro h41
                            dsimp only at h41
                            rw [readU16_writeU16_lt ((p.drop f).take 10) 0 8
                              (M.length &&& 0xffff) (by omega), hwh0] at h41
                            exact absurd h41 ht41
              · rw [if_neg ht2] at h
                by_cases ht15 : readU16 p f = 15
                · rw [if_pos ht15] at h
                  split at h
                  · simp at h
                  · rename_i hdl2
                    split at h
                    · simp at h
                    · rename_i sB heq_inc
                      obtain ⟨hfB, hsB⟩ := increment_offset_analyze
                        { s with offset := f } p f 10 sB hp rfl (by omega)
                        heq_inc
                      subst hsB
                      dsimp only at h
                      rw [hp] at h
                      split at h
                      · simp at h
                      · rename_i fo2 heq_c2
                        unfold Compress.check_compressed_name at heq_c2
                        cases hfull2 : Compress.check_compressed_name_full p
                            (f + 10 + 2) with
                        | error e =>
                          rw [hfull2] at heq_c2
                          simp [Except.map] at heq_c2
                        | ok fn =>
                          obtain ⟨fo2x, nl2⟩ := fn
                          rw [hfull2] at heq_c2
                          simp only [Except.map, Except.ok.injEq] at heq_c2
                          subst heq_c2
                          obtain ⟨M, hMraw, hMlen, hM255, hgt2, hcopyM⟩ :=
                            check_full_copy_rawname p hb (f + 10 + 2) fo2x
                              nl2 hfull2
                          split at h
                          · simp at h
                          · rename_i hguard
                            obtain ⟨hbound, hs1⟩ := increment_offset_analyze
                              { s with packet := p, offset := f + 10 } p
                              (f + 10) (readU16 p (f + 8)) s1 rfl rfl
                              (by omega) h
                            have hMbytes : ∀ b ∈ M, b < 256 :=
                              copy_name_bytes p hb (f + 10 + 2) M nl2 fo2x
                                (hcopyM [])
                            have hhl : (writeU16 ((p.drop f).take 10) 8
                                ((2 + M.length) &&& 0xffff)).length = 10 := by
                              rw [writeU16_length]
                              exact hlen10
                            have hP2len : ((p.drop (f + 10)).take 2).length
                                = 2 := by
                              rw [take_len_of_le]
                              simp only [List.length_drop]
                              omega
                            refine ⟨⟨N, writeU16 ((p.drop f).take 10) 8
                              ((2 + M.length) &&& 0xffff),
                              (p.drop (f + 10)).take 2 ++ M⟩, f,
                              ⟨hNraw, hN255, hhl, ?_, ?_⟩, ?_, ?_, hskip,
                              hofgt, hbound, ?_, ?_, ?_, hrra, hcr, ?_, ?_,
                              ?_⟩
                            · show GoodRdata
                                (readU16 (writeU16 ((p.drop f).take 10) 8
                                  ((2 + M.length) &&& 0xffff)) 0)
                                (readU16 (writeU16 ((p.drop f).take 10) 8
                                  ((2 + M.length) &&& 0xffff)) 8)
                                ((p.drop (f + 10)).take 2 ++ M)
                              rw [readU16_writeU16_lt ((p.drop f).take 10)
                                0 8 ((2 + M.length) &&& 0xffff) (by omega),
                                hwh0]
                              rw [readU16_writeU16 ((p.drop f).take 10) 8
                                ((2 + M.length) &&& 0xffff)
                                (by have := Nat.and_le_right
                                      (n := 2 + M.length) (m := 0xffff)
                                    omega)
                                (by rw [hlen10])]
                              rw [and_ffff (2 + M.length) (by omega)]
                              unfold GoodRdata
                              rw [if_neg ht2, if_pos ht15]
                              refine ⟨(p.drop (f + 10)).take 2, M, rfl,
                                hP2len, hMraw, by omega, ?_⟩
                              rw [List.length_append, hP2len]
                            · intro h41
                              dsimp only at h41
                              rw [readU16_writeU16_lt ((p.drop f).take 10)
                                0 8 ((2 + M.length) &&& 0xffff) (by omega),
                                hwh0] at h41
                              exact absurd h41 ht41
                            · intro b hm
                              dsimp only [RecSeg.encode] at hm
                              rcases List.mem_append.mp hm with h1 | h1
                              · exact hNbytes b h1
                              · rcases List.mem_append.mp h1 with h2 | h2
                                · exact writeU16_bytes ((p.drop f).take 10)
                                    (fun b hm2 => hb b (List.mem_of_mem_drop
                                      (List.mem_of_mem_take hm2))) 8
                                    ((2 + M.length) &&& 0xffff) b h2
                                · rcases List.mem_append.mp h2 with h3 | h3
                                  · exact hb b (List.mem_of_mem_drop
                                      (List.mem_of_mem_take h3))
                                  · exact hMbytes b h3
                            · intro h41
                              dsimp only at h41
                              rw [readU16_writeU16_lt ((p.drop f).take 10)
                                0 8 ((2 + M.length) &&& 0xffff) (by omega),
                                hwh0] at h41
                              exact absurd h41 ht41
                            · rw [hs1]
                            · rw [hs1]
                            · dsimp only
                              rw [readU16_writeU16_lt ((p.drop f).take 10)
                                0 8 ((2 + M.length) &&& 0xffff) (by omega),
                                hwh0]
                              exact hrta
                            · intro nm
                              dsimp only
                              rw [readU16_writeU16_lt ((p.drop f).take 10)
                                0 8 ((2 + M.length) &&& 0xffff) (by omega),
                                hwh0]
                              unfold Compress.uncompress_rdata
                              dsimp only
                              rw [if_neg ht2, if_pos ht15]
                              simp only [show (DNS_RR_HEADER_SIZE : Nat) = 10
                                from rfl, show (DNS_RR_RDLEN_OFFSET : Nat)
                                = 8 from rfl]
                              rw [if_pos (show f + 10 + 2 ≤ p.length
                                by omega)]
                              rw [take_add_split (p.drop f) 10 2, drop_add]
                              rw [hcopyM (nm ++ N ++ ((p.drop f).take 10 ++
                                (p.drop (f + 10)).take 2))]
                              dsimp only
                              rw [← hMlen]
                              rw [show nm ++ N ++ ((p.drop f).take 10 ++
                                (p.drop (f + 10)).take 2)
                                = (nm ++ N) ++ ((p.drop f).take 10 ++
                                  (p.drop (f + 10)).take 2) from rfl]
                              rw [writeU16_mid (nm ++ N)
                                ((p.drop f).take 10 ++
                                  (p.drop (f + 10)).take 2) M 8
                                ((2 + M.length) &&& 0xffff)
                                (by rw [List.length_append, hlen10, hP2len]
                                    omega)]
                              rw [writeU16_append_left ((p.drop f).take 10)
                                ((p.drop (f + 10)).take 2) 8
                                ((2 + M.length) &&& 0xffff) (by rw [hlen10])]
                              dsimp only [RecSeg.encode]
                              simp [List.append_assoc]
                            · intro _
                              rw [hs1, hp]
                            · intro h41
                              dsimp only at h41
                              rw [readU16_writeU16_lt ((p.drop f).take 10)
                                0 8 ((2 + M.length) &&& 0xffff) (by omega),
                                hwh0] at h41
                              exact absurd h41 ht41
                · rw [if_neg ht15] at h
                  by_cases ht6 : readU16 p f = 6
                  · rw [if_pos ht6] at h
                    split at h
                    · simp at h
                    · rename_i hdl21
                      split at h
                      · simp at h
                      · rename_i sB heq_inc
                        obtain ⟨hfB, hsB⟩ := increment_offset_analyze
                          { s with offset := f } p f 10 sB hp rfl (by omega)
                          heq_inc
                        subst hsB
                        dsimp only at h
                        rw [hp] at h
                        split at h
                        · simp at h
                        · rename_i fo1 heq_c1
                          unfold Compress.check_compressed_name at heq_c1
                          cases hfull1 : Compress.check_compressed_name_full
                              p (f + 10) with
                          | error e =>
                            rw [hfull1] at heq_c1
                            simp [Except.map] at heq_c1
                          | ok fn =>
                            obtain ⟨fo1x, nl1⟩ := fn
                            rw [hfull1] at heq_c1
                            simp only [Except.map, Except.ok.injEq] at heq_c1
                            subst heq_c1
                            obtain ⟨M1, hM1raw, hM1len, hM1x, hgt1,
                              hcopyM1⟩ := check_full_copy_rawname p hb
                                (f + 10) fo1x nl1 hfull1
                            split at h
                            · simp at h
                            · rename_i fo2 heq_c2
                              unfold Compress.check_compressed_name at heq_c2
                              cases hfull2 :
                                  Compress.check_compressed_name_full p
                                    fo1x with
                              | error e =>
                                rw [hfull2] at heq_c2
                                simp [Except.map] at heq_c2
                              | ok fn2 =>
                                obtain ⟨fo2x, nl2⟩ := fn2
                                rw [hfull2] at heq_c2
                                simp only [Except.map, Except.ok.injEq]
                                  at heq_c2
                                subst heq_c2
                                obtain ⟨M2, hM2raw, hM2len, hM2x, hgt2,
                                  hcopyM2⟩ := check_full_copy_rawname p hb
                                    fo1x fo2x nl2 hfull2
                                split at h
                                · simp at h
                                · rename_i hguard
                                  obtain ⟨hbound, hs1⟩ :=
                                    increment_offset_analyze
                                      { s with packet := p, offset := f + 10 } p (f + 10)
                                      (readU16 p (f + 8)) s1 rfl rfl
                                      (by omega) h
                                  have hM1bytes : ∀ b ∈ M1, b < 256 :=
                                    copy_name_bytes p hb (f + 10) M1 nl1
                                      fo1x (hcopyM1 [])
                                  have hM2bytes : ∀ b ∈ M2, b < 256 :=
                                    copy_name_bytes p hb fo1x M2 nl2 fo2x
                                      (hcopyM2 [])
                                  have hfo20 : fo2x + 20 ≤ p.length := by
                                    omega
                                  have hhl : (writeU16 ((p.drop f).take 10)
                                      8 ((M1.length + M2.length + 20) &&&
                                      0xffff)).length = 10 := by
                                    rw [writeU16_length]
                                    exact hlen10
                                  have hT20len : ((p.drop fo2x).take
                                      20).length = 20 := by
                                    rw [take_len_of_le]
                                    simp only [List.length_drop]
                                    omega
                                  refine ⟨⟨N, writeU16 ((p.drop f).take 10)
                                    8 ((M1.length + M2.length + 20) &&&
                                    0xffff),
                                    M1 ++ (M2 ++ (p.drop fo2x).take 20)⟩, f,
                                    ⟨hNraw, hN255, hhl, ?_, ?_⟩, ?_, ?_,
                                    hskip, hofgt, hbound, ?_, ?_, ?_, hrra,
                                    hcr, ?_, ?_, ?_⟩
                                  · show GoodRdata
                                      (readU16 (writeU16 ((p.drop f).take
                                        10) 8 ((M1.length + M2.length + 20)
                                        &&& 0xffff)) 0)
                                      (readU16 (writeU16 ((p.drop f).take
                                        10) 8 ((M1.length + M2.length + 20)
                                        &&& 0xffff)) 8)
                                      (M1 ++ (M2 ++ (p.drop fo2x).take 20))
                                    rw [readU16_writeU16_lt
                                      ((p.drop f).take 10) 0 8
                                      ((M1.length + M2.length + 20) &&&
                                        0xffff) (by omega), hwh0]
                                    rw [readU16_writeU16 ((p.drop f).take
                                      10) 8 ((M1.length + M2.length + 20)
                                      &&& 0xffff)
                                      (by have := Nat.and_le_right
                                            (n := M1.length + M2.length
                                              + 20) (m := 0xffff)
                                          omega)
                                      (by rw [hlen10])]
                                    rw [and_ffff (M1.length + M2.length
                                      + 20) (by omega)]
                                    unfold GoodRdata
                                    rw [if_neg ht2, if_neg ht15, if_pos ht6]
                                    refine ⟨M1, M2, (p.drop fo2x).take 20,
                                      rfl, hM1raw, by omega, hM2raw,
                                      by omega, hT20len, ?_⟩
                                    rw [List.length_append,
                                      List.length_append, hT20len]
                                    omega
                                  · intro h41
                                    dsimp only at h41
                                    rw [readU16_writeU16_lt
                                      ((p.drop f).take 10) 0 8
                                      ((M1.length + M2.length + 20) &&&
                                        0xffff) (by omega), hwh0] at h41
                                    exact absurd h41 ht41
                                  · intro b hm
                                    dsimp only [RecSeg.encode] at hm
                                    rcases List.mem_append.mp hm with h1 | h1
                                    · exact hNbytes b h1
                                    · rcases List.mem_append.mp h1
                                        with h2 | h2
                                      · exact writeU16_bytes
                                          ((p.drop f).take 10)
                                          (fun b hm2 => hb b
                                            (List.mem_of_mem_drop
                                              (List.mem_of_mem_take hm2)))
                                          8 ((M1.length + M2.length + 20)
                                            &&& 0xffff) b h2
                                      · rcases List.mem_append.mp h2
                                          with h3 | h3
                                        · exact hM1bytes b h3
                                        · rcases List.mem_append.mp h3
                                            with h4 | h4
                                          · exact hM2bytes b h4
                                          · exact hb b
                                              (List.mem_of_mem_drop
                                                (List.mem_of_mem_take h4))
                                  · intro h41
                                    dsimp only at h41
                                    rw [readU16_writeU16_lt
                                      ((p.drop f).take 10) 0 8
                                      ((M1.length + M2.length + 20) &&&
                                        0xffff) (by omega), hwh0] at h41
                                    exact absurd h41 ht41
                                  · rw [hs1]
                                  · rw [hs1]
                                  · dsimp only
                                    rw [readU16_writeU16_lt
                                      ((p.drop f).take 10) 0 8
                                      ((M1.length + M2.length + 20) &&&
                                        0xffff) (by omega), hwh0]
                                    exact hrta
                                  · intro nm
                                    dsimp only
                                    rw [readU16_writeU16_lt
                                      ((p.drop f).take 10) 0 8
                                      ((M1.length + M2.length + 20) &&&
                                        0xffff) (by omega), hwh0]
                                    unfold Compress.uncompress_rdata
                                    dsimp only
                                    rw [if_neg ht2, if_neg ht15, if_pos ht6]
                                    simp only [show (DNS_RR_HEADER_SIZE :
                                      Nat) = 10 from rfl,
                                      show (DNS_RR_RDLEN_OFFSET : Nat) = 8
                                        from rfl]
                                    rw [if_pos (show f + 10 ≤ p.length
                                      by omega)]
                                    rw [hcopyM1 (nm ++ N ++
                                      (p.drop f).take 10)]
                                    dsimp only
                                    rw [hcopyM2 (nm ++ N ++
                                      (p.drop f).take 10 ++ M1)]
                                    dsimp only
                                    rw [if_pos hfo20]
                                    rw [← hM1len, ← hM2len]
                                    rw [show nm ++ N ++ (p.drop f).take 10
                                      ++ M1 ++ M2 ++ (p.drop fo2x).take 20
                                      = (nm ++ N) ++ (p.drop f).take 10 ++
                                        (M1 ++ (M2 ++ (p.drop fo2x).take
                                          20)) by simp [List.append_assoc]]
                                    rw [writeU16_mid (nm ++ N)
                                      ((p.drop f).take 10)
                                      (M1 ++ (M2 ++ (p.drop fo2x).take 20))
                                      8 ((M1.length + M2.length + 20) &&&
                                        0xffff) (by rw [hlen10])]
                                    dsimp only [RecSeg.encode]
                                    simp [List.append_assoc]
                                  · intro _
                                    rw [hs1, hp]
                                  · intro h41
                                    dsimp only at h41
                                    rw [readU16_writeU16_lt
                                      ((p.drop f).take 10) 0 8
                                      ((M1.length + M2.length + 20) &&&
                                        0xffff) (by omega), hwh0] at h41
                                    exact absurd h41 ht41
                  · rw [if_neg ht6] at h
                    by_cases ht39 : readU16 p f = 39
                    · rw [if_pos ht39] at h
                      split at h
                      · simp at h
                      · rename_i hdl0
                        split at h
                        · simp at h
                        · rename_i sB heq_inc
                          obtain ⟨hfB, hsB⟩ := increment_offset_analyze
                            { s with offset := f } p f 10 sB hp rfl
                            (by omega) heq_inc
                          subst hsB
                          dsimp only at h
                          rw [hp] at h
                          split at h
                          · simp at h
                          · rename_i fo heq_cu
                            unfold check_uncompressed_name at heq_cu
                            split at heq_cu
                            · simp at heq_cu
                            · split at heq_cu
                              · simp at heq_cu
                              · obtain ⟨M, hM, hMwin, hMoff, hM255x⟩ :=
                                  check_uncompressed_loop_rawname p _ _ _ _
                                    heq_cu
                                split at h
                                · simp at h
                                · rename_i hguard
                                  obtain ⟨hbound, hs1⟩ :=
                                    increment_offset_analyze
                                      { s with packet := p, offset := f + 10 }
                                      p (f + 10)
                                      (readU16 p (f + 8)) s1 rfl rfl
                                      (by omega) h
                                  have hMdl : M.length = readU16 p (f + 8)
                                      := by omega
                                  refine verbatim_pack p hb s sec o f s1 N hp
                                    hNraw hN255 hNbytes hskip hofgt hcr hf2
                                    ht2 ht15 ht6 ht41 (by omega)
                                    (by rw [hs1, hp]) ?_
                                  have hRD : (p.drop (f + 10)).take
                                      (readU16 p (f + 8)) = M := by
                                    rw [← hMdl]
                                    exact hMwin
                                  unfold GoodRdata
                                  rw [if_neg ht2, if_neg ht15, if_neg ht6,
                                    if_pos ht39, hRD]
                                  exact ⟨hM, by omega, by omega⟩
                    · rw [if_neg ht39] at h
                      by_cases ht1 : readU16 p f = 1
                      · rw [if_pos ht1] at h
                        split at h
                        · simp at h
                        · rename_i hdl4
                          obtain ⟨hbound, hs1⟩ := increment_offset_analyze
                            { s with offset := f } p f
                            (10 + readU16 p (f + 8)) s1 hp rfl (by omega) h
                          rw [show f + (10 + readU16 p (f + 8))
                            = f + 10 + readU16 p (f + 8) by omega] at hbound hs1
                          have hRDlen : ((p.drop (f + 10)).take
                              (readU16 p (f + 8))).length
                              = readU16 p (f + 8) := by
                            rw [take_len_of_le]
                            simp only [List.length_drop]
                            omega
                          refine verbatim_pack p hb s sec o f s1 N hp hNraw
                            hN255 hNbytes hskip hofgt hcr hf2 ht2 ht15 ht6
                            ht41 hbound hs1 ?_
                          unfold GoodRdata
                          rw [if_neg ht2, if_neg ht15, if_neg ht6,
                            if_neg ht39, if_pos ht1]
                          exact ⟨hRDlen.symm, by omega⟩
                      · rw [if_neg ht1] at h
                        by_cases ht28 : readU16 p f = 28
                        · rw [if_pos ht28] at h
                          split at h
                          · simp at h
                          · rename_i hdl16
                            obtain ⟨hbound, hs1⟩ := increment_offset_analyze
                              { s with offset := f } p f
                              (10 + readU16 p (f + 8)) s1 hp rfl (by omega) h
                            rw [show f + (10 + readU16 p (f + 8))
                              = f + 10 + readU16 p (f + 8) by omega]
                              at hbound hs1
                            have hRDlen : ((p.drop (f + 10)).take
                                (readU16 p (f + 8))).length
                                = readU16 p (f + 8) := by
                              rw [take_len_of_le]
                              simp only [List.length_drop]
                              omega
                            refine verbatim_pack p hb s sec o f s1 N hp hNraw
                              hN255 hNbytes hskip hofgt hcr hf2 ht2 ht15 ht6
                              ht41 hbound hs1 ?_
                            unfold GoodRdata
                            rw [if_neg ht2, if_neg ht15, if_neg ht6,
                              if_neg ht39, if_neg ht1, if_pos ht28]
                            exact ⟨hRDlen.symm, by omega⟩
                        · rw [if_neg ht28] at h
                          obtain ⟨hbound, hs1⟩ := increment_offset_analyze
                            { s with offset := f } p f
                            (10 + readU16 p (f + 8)) s1 hp rfl (by omega) h
                          rw [show f + (10 + readU16 p (f + 8))
                            = f + 10 + readU16 p (f + 8) by omega] at hbound hs1
                          have hRDlen : ((p.drop (f + 10)).take
                              (readU16 p (f + 8))).length
                              = readU16 p (f + 8) := by
                            rw [take_len_of_le]
                            simp only [List.length_drop]
                            omega
                          refine verbatim_pack p hb s sec o f s1 N hp hNraw
                            hN255 hNbytes hskip hofgt hcr hf2 ht2 ht15 ht6
                            ht41 hbound hs1 ?_
                          unfold GoodRdata
                          rw [if_neg ht2, if_neg ht15, if_neg ht6,
                            if_neg ht39, if_neg ht1, if_neg ht28,
                            if_neg ht41]
                          exact hRDlen.symm

theorem parse_rrs_uncompress (p : List Nat) (hb : ∀ b ∈ p, b < 256)
    (includeOpt : Bool) (sec : Section)
    (hsec : includeOpt = false → sec ≠ Section.additional) :
    ∀ (n : Nat) (s : DSState) (oS : Nat) (s2 : DSState),
      s.packet = p → s.offset = oS → 12 < oS →
      s.parse_rrs sec n = .ok s2 →
      ∃ rs : List RecSeg,
        rs.length = n ∧
        (∀ r ∈ rs, GoodRec r) ∧
        (∀ r ∈ rs, readU16 r.header 0 = 41 → sec = Section.additional) ∧
        (∀ b ∈ encodeRecs rs, b < 256) ∧
        (s.edns_end ≠ none → countOpts rs = 0) ∧
        countOpts rs ≤ 1 ∧
        (countOpts rs = 0 → s2.edns_end = s.edns_end) ∧
        s2.packet = p ∧ oS ≤ s2.offset ∧
        (s2.offset ≤ p.length ∨ s2.offset = oS) ∧
        (∀ out newOff, Compress.uncompress_response_items p 12 includeOpt
          n oS out newOff = some (out ++ encodeRecs rs, newOff)) := by
  intro n
  induction n with
  | zero =>
    intro s oS s2 hpk ho h12 h
    rw [DSState.parse_rrs] at h
    simp only [Except.ok.injEq] at h
    subst h
    refine ⟨[], rfl, by simp, by simp, by simp [encodeRecs], fun _ => rfl,
      by simp [countOpts], fun _ => rfl, hpk, by omega, Or.inr ho, ?_⟩
    intro out newOff
    rw [Compress.uncompress_response_items]
    simp [encodeRecs]
  | succ n ih =>
    intro s oS s2 hpk ho h12 h
    rw [DSState.parse_rrs] at h
    split at h
    · simp at h
    · rename_i s1 heq_rr
      obtain ⟨r, f, hgr, hrbytes, h41sec, hskip, hof, hbound, hs1p, hs1o,
        hrta, hrra, hcopy, hunc, hne41, heq41⟩ :=
        parse_rr_analyze p hb s sec oS s1 hpk ho heq_rr
      have ht41io : readU16 r.header 0 = 41 → includeOpt = true := by
        intro h41
        cases hio : includeOpt with
        | true => rfl
        | false => exact absurd (h41sec h41).1 (hsec hio)
      obtain ⟨rs, hlenr, hgood, h41s, hbytes, hopt0, hopt1, hednsp, hpk2,
        hmono, hend, hwalk⟩ := ih s1 (f + 10 + readU16 p (f + 8)) s2 hs1p
          hs1o (by omega) h
      have hsrd : RRIterator.skip_rdata p f
          = some (f + 10 + readU16 p (f + 8)) := by
        unfold RRIterator.skip_rdata RRIterator.rr_rdlen
        simp only [show (DNS_RR_RDLEN_OFFSET : Nat) = 8 from rfl,
          show (DNS_RR_HEADER_SIZE : Nat) = 10 from rfl]
        rw [if_pos (show f + 8 + 2 ≤ p.length by omega)]
      have hms : (if includeOpt then
            some (some (oS, f, f + 10 + readU16 p (f + 8)))
          else
            Compress.maybe_skip_opt_section p n oS f
              (f + 10 + readU16 p (f + 8)))
          = some (some (oS, f, f + 10 + readU16 p (f + 8))) := by
        cases hio : includeOpt with
        | true => rfl
        | false =>
          have ht41 : readU16 r.header 0 ≠ 41 := by
            intro h41
            rw [ht41io h41] at hio
            cases hio
          rw [if_neg (show ¬ (false = true) by decide)]
          unfold Compress.maybe_skip_opt_section
          rw [hrta]
          dsimp only
          rw [if_neg ht41]
      refine ⟨r :: rs, by simp [hlenr], ?_, ?_, ?_, ?_, ?_, ?_, hpk2,
        by omega, by omega, ?_⟩
      · intro r2 hm
        rcases List.mem_cons.mp hm with h1 | h1
        · rw [h1]
          exact hgr
        · exact hgood r2 h1
      · intro r2 hm
        rcases List.mem_cons.mp hm with h1 | h1
        · rw [h1]
          intro h41
          exact (h41sec h41).1
        · exact h41s r2 h1
      · intro b hm
        rw [show encodeRecs (r :: rs) = r.encode ++ encodeRecs rs
          from rfl] at hm
        rcases List.mem_append.mp hm with h1 | h1
        · exact hrbytes b h1
        · exact hbytes b h1
      · intro hne
        rw [countOpts_cons]
        by_cases h41 : readU16 r.header 0 = 41
        · exact absurd (h41sec h41).2 hne
        · rw [if_neg h41, Nat.zero_add]
          refine hopt0 ?_
          rw [hne41 h41]
          exact hne
      · rw [countOpts_cons]
        by_cases h41 : readU16 r.header 0 = 41
        · rw [if_pos h41]
          have hz := hopt0 (heq41 h41)
          omega
        · rw [if_neg h41]
          omega
      · intro hz
        rw [countOpts_cons] at hz
        by_cases h41 : readU16 r.header 0 = 41
        · rw [if_pos h41] at hz
          omega
        · rw [if_neg h41, Nat.zero_add] at hz
          rw [hednsp hz, hne41 h41]
      · intro out newOff
        rw [Compress.uncompress_response_items]
        rw [hskip]
        dsimp only
        rw [hsrd]
        dsimp only
        rw [hms]
        dsimp only
        rw [if_neg (show ¬ (12 = oS) by omega)]
        rw [hcopy out]
        dsimp only
        rw [hrta]
        dsimp only
        rw [hrra]
        dsimp only
        rw [hunc out]
        dsimp only
        rw [hwalk (out ++ RecSeg.encode r) newOff]
        rw [show encodeRecs (r :: rs) = r.encode ++ encodeRecs rs from rfl]
        rw [List.append_assoc]

theorem readU16_take12 (p : List Nat) (h12 : 12 ≤ p.length) (j : Nat)
    (hj : j + 2 ≤ 12) : readU16 (p.take 12) j = readU16 p j := by
  have h2 := readU16_prefix (p.take 12) (p.drop 12) j
    (by rw [take_len_of_le p 12 h12]; omega)
  rw [List.take_append_drop] at h2
  exact h2.symm

theorem uncompress_section_run (p : List Nat) (io : Bool) (n oS : Nat)
    (rs : List RecSeg) (hlen : rs.length = n)
    (hwalk : ∀ out newOff, Compress.uncompress_response_items p 12 io n oS
      out newOff = some (out ++ encodeRecs rs, newOff))
    (startOff : Option Nat) (hstart : 0 < n → startOff = some oS) :
    ∀ out newOff, Compress.uncompress_section p 12 io n startOff out newOff
      = some (out ++ encodeRecs rs, newOff) := by
  intro out newOff
  unfold Compress.uncompress_section
  by_cases hn : n = 0
  · rw [if_pos hn]
    subst hn
    rw [List.length_eq_zero] at hlen
    subst hlen
    simp [encodeRecs]
  · rw [if_neg hn, hstart (by omega)]
    exact hwalk out newOff

theorem parse_question_analyze (p : List Nat) (hb : ∀ b ∈ p, b < 256)
    (s : DSState) (s1 : DSState)
    (hp : s.packet = p) (ho : s.offset = 12)
    (h : s.parse_question = .ok s1) :
    ∃ (QN : List Nat) (f : Nat),
      RawName QN ∧ QN.length ≤ 255 ∧ (∀ b ∈ QN, b < 256) ∧
      12 < f ∧ f + 4 ≤ p.length ∧
      ((p.drop f).take 4).length = 4 ∧
      readU16 ((p.drop f).take 4) 2 = 1 ∧
      s1 = { s with offset := f + 4 } ∧
      (∀ out newOff, Compress.uncompress_question_items p 12 1 12 out
        newOff = some (out ++ (QN ++ (p.drop f).take 4),
          some out.length)) := by
  unfold DSState.parse_question at h
  split at h
  · simp at h
  · rename_i sx heq_skip
    unfold DSState.skip_name at heq_skip
    split at heq_skip
    · simp at heq_skip
    · rename_i fo heq_check
      obtain ⟨hfol, hsx⟩ := set_offset_analyze s p fo sx hp heq_skip
      unfold Compress.check_compressed_name at heq_check
      rw [hp, ho] at heq_check
      cases hfull : Compress.check_compressed_name_full p 12 with
      | error e =>
        rw [hfull] at heq_check
        simp [Except.map] at heq_check
      | ok fn =>
        obtain ⟨f, nl⟩ := fn
        rw [hfull] at heq_check
        simp only [Except.map, Except.ok.injEq] at heq_check
        subst heq_check
        subst hsx
        obtain ⟨N, hNraw, hNlen, hnl255, hofgt, hcopy⟩ :=
          check_full_copy_rawname p hb 12 f nl hfull
        have hskip := check_full_skip_name p 12 f nl hfull hfol
        have hNbytes : ∀ b ∈ N, b < 256 :=
          copy_name_bytes p hb 12 N nl f (hcopy [])
        split at h
        · simp at h
        · rename_i uu heq_cls
          cases uu
          unfold DSState.ensure_in_class at heq_cls
          split at heq_cls
          · simp at heq_cls
          · rename_i c heq_c
            unfold DSState.rr_class at heq_c
            obtain ⟨hcv, hcb⟩ := be16_load_analyze { s with offset := f } p
              f 2 c hp rfl heq_c
            have hf4 : f + 4 ≤ p.length := by omega
            split at heq_cls
            · simp at heq_cls
            · rename_i hc1
              have hcls : readU16 p (f + 2) = 1 := by omega
              split at h
              · simp at h
              · rename_i c2 heq_c2
                unfold DSState.rr_class at heq_c2
                obtain ⟨hcv2, _⟩ := be16_load_analyze
                  { s with offset := f } p f 2 c2 hp rfl heq_c2
                split at h
                · rename_i hbad
                  exact absurd (by omega) hbad
                · simp only [show (DNS_RR_QUESTION_HEADER_SIZE : Nat) = 4
                    from rfl] at h
                  obtain ⟨_, hs1⟩ := increment_offset_analyze
                    { s with offset := f } p f 4 s1 hp rfl (by omega) h
                  have hQHlen : ((p.drop f).take 4).length = 4 := by
                    rw [take_len_of_le]
                    simp only [List.length_drop]
                    omega
                  have hw4 : (p.drop f).take ((p.drop f).take 4).length
                      = (p.drop f).take 4 := by rw [hQHlen]
                  have hQHcls : readU16 ((p.drop f).take 4) 2 = 1 := by
                    have h2 := readU16_window hw4 (j := 2)
                      (by rw [hQHlen])
                    rw [← h2]
                    exact hcls
                  have hcr : ∀ nm, copy_raw_name nm p 12 f
                      = some (nm ++ N) := by
                    intro nm
                    unfold copy_raw_name
                    rw [if_neg (show ¬ f ≤ 12 by omega), hcopy nm]
                  refine ⟨N, f, hNraw, by omega, hNbytes, by omega, hf4,
                    hQHlen, hQHcls, hs1, ?_⟩
                  intro out newOff
                  rw [Compress.uncompress_question_items]
                  rw [hskip]
                  dsimp only
                  rw [hcr out]
                  dsimp only
                  rw [show Compress.uncompress_rdata (out ++ N) p f none
                      none = some ((out ++ N) ++ (p.drop f).take 4) from by
                    unfold Compress.uncompress_rdata
                    dsimp only
                    simp only [show (DNS_RR_QUESTION_HEADER_SIZE : Nat) = 4
                      from rfl]
                    rw [if_pos hf4]]
                  dsimp only
                  rw [if_pos rfl]
                  rw [Compress.uncompress_question_items]
                  simp [List.append_assoc]

theorem uncompress_analyze (p : List Nat) (hb : ∀ b ∈ p, b < 256)
    (u : List Nat) (h : Compress.uncompress p = some (.ok u)) :
    ∃ ps : PacketShape, GoodShape ps ∧ u = ps.encode := by
  unfold Compress.uncompress at h
  cases huw : Compress.uncompress_with_previous_offset p DNS_HEADER_SIZE with
  | none =>
    rw [huw] at h
    simp at h
  | some r =>
    rw [huw] at h
    cases r with
    | error e =>
      simp [Except.map] at h
    | ok pr =>
      obtain ⟨uu, n0⟩ := pr
      simp [Except.map] at h
      subst h
      unfold Compress.uncompress_with_previous_offset at huw
      simp only [show (DNS_HEADER_SIZE : Nat) = 12 from rfl] at huw
      split at huw
      · simp at huw
      · split at huw
        · simp at huw
        · rename_i pp heq_parse
          unfold parse at heq_parse
          split at heq_parse
          · simp at heq_parse
          · dsimp only at heq_parse
            split at heq_parse
            · simp at heq_parse
            · rename_i hqd0
              split at heq_parse
              · simp at heq_parse
              · rename_i hqd1
                have hqd : qdcount p = 1 := by omega
                simp only [show (DNS_QUESTION_OFFSET : Nat) = 12 from rfl]
                  at heq_parse
                split at heq_parse
                · simp at heq_parse
                · rename_i s0 heq_so
                  obtain ⟨h12len, hs0⟩ := set_offset_analyze
                    (DSState.new p) p 12 s0 rfl heq_so
                  have hpk0 : s0.packet = p := by
                    rw [hs0]
                    rfl
                  have ho0 : s0.offset = 12 := by
                    rw [hs0]
                  split at heq_parse
                  · simp at heq_parse
                  · rename_i sQ heq_q
                    obtain ⟨QN, fQ, hQNraw, hQN255, hQNbytes, hfQgt, hfQ4,
                      hQHlen, hQHcls, hsQ, hQwalk⟩ :=
                      parse_question_analyze p hb s0 sQ hpk0 ho0 heq_q
                    have hpkQ : sQ.packet = p := by
                      rw [hsQ]
                      exact hpk0
                    have hoQ : sQ.offset = fQ + 4 := by
                      rw [hsQ]
                    split at heq_parse
                    · simp at heq_parse
                    · rename_i hangd
                      split at heq_parse
                      · simp at heq_parse
                      · rename_i sA heq_a
                        obtain ⟨rsA, hlenA, hgoodA, h41A, hbytesA, _, _, _,
                          hpkA, hmonoA, _, hAwalk⟩ :=
                          parse_rrs_uncompress p hb false Section.answer
                            (fun _ => by decide) (ancount p) sQ (fQ + 4) sA
                            hpkQ hoQ (by omega) heq_a
                        split at heq_parse
                        · simp at heq_parse
                        · rename_i hnsgd
                          split at heq_parse
                          · simp at heq_parse
                          · rename_i sN heq_n
                            obtain ⟨rsN, hlenN, hgoodN, h41N, hbytesN, _, _,
                              _, hpkN, hmonoN, _, hNwalk⟩ :=
                              parse_rrs_uncompress p hb false
                                Section.nameServers (fun _ => by decide)
                                (nscount p) sA sA.offset sN hpkA rfl
                                (by omega) heq_n
                            split at heq_parse
                            · simp at heq_parse
                            · rename_i sAD heq_ad
                              obtain ⟨rsAD, hlenAD, hgoodAD, _, hbytesAD, _,
                                hopt1AD, _, hpkAD, hmonoAD, _, hADwalk⟩ :=
                                parse_rrs_uncompress p hb true
                                  Section.additional
                                  (fun hf => absurd hf (by decide))
                                  (arcount p) sN sN.offset sAD hpkN rfl
                                  (by omega) heq_ad
                              split at heq_parse
                              · simp at heq_parse
                              · simp only [Except.ok.injEq] at heq_parse
                                subst heq_parse
                                dsimp only at huw
                                rw [if_neg (show ¬ qdcount p = 0
                                  by omega)] at huw
                                rw [if_pos (show qdcount p > 0 by omega),
                                  ho0] at huw
                                dsimp only at huw
                                rw [hqd, hQwalk (p.take 12) none] at huw
                                dsimp only at huw
                                rw [uncompress_section_run p false
                                  (ancount p) (fQ + 4) rsA hlenA hAwalk
                                  (if ancount p > 0 then some sQ.offset else none)
                                  (by intro hpos; rw [if_pos hpos, hoQ])]
                                  at huw
                                dsimp only at huw
                                rw [uncompress_section_run p false
                                  (nscount p) sA.offset rsN hlenN hNwalk
                                  (if nscount p > 0 then some sA.offset else none)
                                  (by intro hpos; rw [if_pos hpos])] at huw
                                dsimp only at huw
                                rw [uncompress_section_run p true
                                  (arcount p) sN.offset rsAD hlenAD hADwalk
                                  (if arcount p > 0 then some sN.offset else none)
                                  (by intro hpos; rw [if_pos hpos])] at huw
                                dsimp only at huw
                                rw [← apply_ite some] at huw
                                dsimp only at huw
                                simp only [Option.some.injEq,
                                  Except.ok.injEq, Prod.mk.injEq] at huw
                                obtain ⟨hu, _⟩ := huw
                                refine ⟨⟨p.take 12, QN,
                                  (p.drop fQ).take 4, rsA, rsN, rsAD⟩,
                                  ⟨take_len_of_le p 12 (by omega), ?_,
                                  ?_, ?_, ?_, ?_, ?_, hQNraw, hQN255,
                                  hQHlen, hQHcls, ?_, ?_, hgoodAD,
                                  hopt1AD⟩, ?_⟩
                                · intro b hm
                                  dsimp only [PacketShape.encode] at hm
                                  rcases List.mem_append.mp hm with h1 | h1
                                  · exact hb b (List.mem_of_mem_take h1)
                                  · rcases List.mem_append.mp h1
                                      with h2 | h2
                                    · exact hQNbytes b h2
                                    · rcases List.mem_append.mp h2
                                        with h3 | h3
                                      · exact hb b (List.mem_of_mem_drop
                                          (List.mem_of_mem_take h3))
                                      · rcases List.mem_append.mp h3
                                          with h4 | h4
                                        · exact hbytesA b h4
                                        · rcases List.mem_append.mp h4
                                            with h5 | h5
                                          · exact hbytesN b h5
                                          · exact hbytesAD b h5
                                · dsimp only
                                  rw [readU16_take12 p (by omega) 4
                                    (by omega)]
                                  exact hqd
                                · dsimp only
                                  rw [readU16_take12 p (by omega) 6
                                    (by omega)]
                                  exact hlenA.symm
                                · dsimp only
                                  rw [readU16_take12 p (by omega) 8
                                    (by omega)]
                                  exact hlenN.symm
                                · dsimp only
                                  rw [readU16_take12 p (by omega) 10
                                    (by omega)]
                                  exact hlenAD.symm
                                · intro hQR
                                  dsimp only at hQR
                                  rw [readU16_take12 p (by omega) 2
                                    (by omega)] at hQR
                                  have hirf : is_response p = false := by
                                    unfold is_response
                                    exact decide_eq_false hQR
                                  constructor
                                  · rw [← List.length_eq_zero, hlenA]
                                    by_contra han0
                                    exact hangd ⟨hirf, by omega⟩
                                  · rw [← List.length_eq_zero, hlenN]
                                    by_contra hns0
                                    exact hnsgd ⟨hirf, by omega⟩
                                · intro r2 hm
                                  refine ⟨hgoodA r2 hm, ?_⟩
                                  intro h41
                                  exact absurd (h41A r2 hm h41) (by decide)
                                · intro r2 hm
                                  refine ⟨hgoodN r2 hm, ?_⟩
                                  intro h41
                                  exact absurd (h41N r2 hm h41) (by decide)
                                · rw [← hu]
                                  dsimp only [PacketShape.encode]
                                  simp [List.append_assoc]

/-- C5: uncompression is idempotent. For every packet of bytes that
`Compress::uncompress` accepts (producing the uncompressed packet `u`), a
second uncompression pass maps `u` to itself, so
`uncompress (uncompress p) = uncompress p` byte-for-byte. -/
theorem C5_uncompress_idempotent (p u : List Nat)
    (hb : ∀ b ∈ p, b < 256)
    (h : Compress.uncompress p = some (.ok u)) :
    Compress.uncompress u = some (.ok u) := by
  obtain ⟨ps, hgood, hu⟩ := uncompress_analyze p hb u h
  subst hu
  exact uncompress_encode ps hgood

theorem C5_witness :
    (∀ b ∈ [0, 0, 0x80, 0, 0, 1, 0, 0, 0, 0, 0, 0, 0, 0, 1, 0, 1],
      b < 256) ∧
    Compress.uncompress
      [0, 0, 0x80, 0, 0, 1, 0, 0, 0, 0, 0, 0, 0, 0, 1, 0, 1]
      = some (.ok [0, 0, 0x80, 0, 0, 1, 0, 0, 0, 0, 0, 0, 0, 0, 1, 0, 1]) :=
  ⟨by decide,
    C5_uncompress_idempotent
      [0, 0, 0x80, 0, 0, 1, 0, 0, 0, 0, 0, 0, 0, 0, 1, 0, 1]
      [0, 0, 0x80, 0, 0, 1, 0, 0, 0, 0, 0, 0, 0, 0, 1, 0, 1]
      (by decide) (by rfl)⟩
